import Mathlib

/-!
# Hypertable bulk loader: `LoadDataSource` and `LoadDataSourceFileLocal`

A shallow embedding of `src/cc/Hypertable/Lib/LoadDataSource.cc` and
`src/cc/Hypertable/Lib/LoadDataSourceFileLocal.cc`.

Conventions of the embedding.

* A `std::string` is a `List Char` (one `Char` per byte).  Where the source goes
  through `c_str()` and the C string functions, the embedding goes through
  `c_str`, which cuts the text at its first NUL byte.
* `uint32_t` values are `Nat` reduced modulo `2^32` at every operation that can
  wrap; `int`, `long` and `int64_t` values are `Int`, wrapped or clamped where
  the C library does so (LP64: `long` and `long long` are 64 bits wide).
* An input stream is the byte content of the file, a read offset and the two
  error bits `eofbit` and `failbit`.  `getline` delivers nothing on a stream
  that is not good; a line that runs to the end of the data without a newline
  sets `eofbit`, a `getline` that delivers nothing sets `failbit`.  `seekg`
  resets `eofbit` and does nothing else while `failbit` is set; `tellg` on a
  stream that is not good sets `failbit` and returns -1; `clear` resets both
  bits.
* Reads that the C++ standard leaves undefined (a `std::vector` subscript that is
  out of range, `strtol` on a null pointer) are the explicit outcome
  `Fault`.
* The gzip path (`m_zipped`) is not modelled: the source is uncompressed and the
  caller passes a non-null `consumedp`.
-/

namespace Hypertable

/-- A `std::string`: its bytes in order. -/
abbrev Str := List Char

/-- The terminator of a C string. -/
def NUL : Char := Char.ofNat 0

/-- The C string seen through `s.c_str()`: the bytes before the first NUL. -/
def c_str : Str → Str
  | [] => []
  | c :: cs => if c = NUL then [] else c :: c_str cs

/-- `isspace` in the C locale. -/
def isspace (c : Char) : Bool :=
  c = ' ' || c = '\t' || c = '\n' || c = Char.ofNat 11 || c = Char.ofNat 12 || c = '\r'

/-- `isdigit` in the C locale. -/
def isdigit (c : Char) : Bool :=
  decide ('0'.toNat ≤ c.toNat) && decide (c.toNat ≤ '9'.toNat)

/-- The fields of a C string cut at every `sep`: the successive values of `base`
in the walk `ptr = strchr(base, sep); *ptr++ = 0; ...; base = ptr`.  There is
always at least one field. -/
def fields (sep : Char) : Str → List Str
  | [] => [[]]
  | c :: cs =>
    if c = sep then [] :: fields sep cs
    else
      match fields sep cs with
      | [] => [[c]]
      | f :: fs => (c :: f) :: fs

/-- The text before the first `ch` and, when `ch` occurs, the text after it:
`strchr(base, ch)` followed by `*ptr++ = 0`. -/
def strchr (ch : Char) : Str → Str × Option Str
  | [] => ([], none)
  | c :: cs =>
    if c = ch then ([], some cs)
    else ((c :: (strchr ch cs).1), (strchr ch cs).2)

/-- `s.substr(n)`. -/
def substr (s : Str) (n : Nat) : Str := s.drop n

/-- `boost::algorithm::starts_with(s, p)`. -/
def starts_with : Str → Str → Bool
  | _, [] => true
  | [], _ :: _ => false
  | c :: cs, p :: ps => c = p && starts_with cs ps

/-- The leading run of decimal digits of a text. -/
def digit_run : Str → Str
  | [] => []
  | c :: cs => if isdigit c then c :: digit_run cs else []

/-- The text after its leading run of decimal digits:
`while (isdigit(*ptr)) ptr++`. -/
def skip_digits : Str → Str
  | [] => []
  | c :: cs => if isdigit c then skip_digits cs else c :: cs

/-- The text after its leading white space. -/
def skip_space : Str → Str
  | [] => []
  | c :: cs => if isspace c then skip_space cs else c :: cs

/-- The number a run of decimal digits denotes, most significant digit first. -/
def digits_value_from (acc : Nat) : Str → Nat
  | [] => acc
  | c :: cs => digits_value_from (acc * 10 + (c.toNat - '0'.toNat)) cs

/-- The number a run of decimal digits denotes. -/
def digits_value (ds : Str) : Nat := digits_value_from 0 ds

/-- Whether a text starts with a minus sign. -/
def has_minus : Str → Bool
  | '-' :: _ => true
  | _ => false

/-- The text after an optional leading sign. -/
def skip_sign : Str → Str
  | '-' :: r => r
  | '+' :: r => r
  | s => s

/-- The value `strtol(s, &end, 10)` and `strtoll(s, &end, 10)` return (clamped to
64 bits) and the number of bytes `end - s` they consume: optional white space,
an optional sign, then a nonempty run of digits; with no digit nothing is
consumed and the value is 0. -/
def strtol (s : Str) : Int × Nat :=
  let s1 := skip_space s
  let ws := s.length - s1.length
  let neg := has_minus s1
  let s2 := skip_sign s1
  let ds := digit_run s2
  if ds = [] then (0, 0)
  else
    let v : Int := digits_value ds
    let sv : Int := if neg then -v else v
    (max (-(2 : Int) ^ 63) (min sv ((2 : Int) ^ 63 - 1)), ws + (s1.length - s2.length) + ds.length)

/-- The conversion of a `long` to `int`: the low 32 bits, read as signed. -/
def to_int32 (v : Int) : Int :=
  (v + 2 ^ 31) % 2 ^ 32 - 2 ^ 31

/-- `atoi(s)`, which the C library computes as `(int) strtol(s, NULL, 10)`. -/
def atoi (s : Str) : Int := to_int32 (strtol s).1

/-- The conversion `(size_t) w` of an `int`. -/
def to_size_t (w : Int) : Nat := (w % 2 ^ 64).toNat

/-- Role bit of a column that feeds the row key. -/
def ROW_KEY : Nat := 1

/-- Role bit of the timestamp column. -/
def TIMESTAMP : Nat := 2

/-- `should_skip(idx, masks, dupkeycols)`. -/
def should_skip (idx : Nat) (masks : List Nat) (dupkeycols : Bool) : Bool :=
  let bm := masks.getD idx 0
  bm != 0 && ((bm &&& TIMESTAMP) != 0 || !(dupkeycols && (bm &&& ROW_KEY) != 0))

/-- One header column: `ColumnInfo`. -/
structure ColumnInfo where
  family : Str
  qualifier : Str
  deriving DecidableEq, Repr

/-- One component of the row key: `KeyComponentInfo`. -/
structure KeyComponentInfo where
  index : Nat
  width : Int
  left_justify : Bool
  pad_character : Char
  deriving DecidableEq, Repr

/-- Modelled from the spec: `KeyComponentInfo::clear()`, declared in
`LoadDataSource.h`; the default component points at column 0, is unpadded, pads
with spaces and is right-justified. -/
def KeyComponentInfo.clear : KeyComponentInfo :=
  { index := 0, width := 0, left_justify := false, pad_character := ' ' }

/-- The fatal outcomes of `parse_header`. -/
inductive Error where
  | TOO_MANY_COLUMNS
  | KEY_COLUMN_NOT_FOUND (column_name : Str)
  | HQL_BAD_LOAD_FILE_FORMAT
  deriving DecidableEq, Repr

deriving instance DecidableEq for Except

/-- A read the language leaves undefined. -/
inductive Fault where
  | OUT_OF_RANGE
  | NULL_POINTER
  deriving DecidableEq, Repr

/-- The input stream `m_fin`: the bytes of the file, the read offset, and the
error state (`eofbit`, `failbit`); a stream is good when neither bit is set. -/
structure IStream where
  data : Str
  pos : Nat
  eofbit : Bool := false
  failbit : Bool := false
  deriving DecidableEq, Repr

/-- The fields of a `LoadDataSource` object. -/
structure LoadDataSource where
  m_type_mask : List Nat
  m_column_info : List ColumnInfo
  m_key_comps : List KeyComponentInfo
  m_values : List (Option Str)
  m_next_value : Nat
  m_limit : Nat
  m_cur_line : Nat
  m_row_key_buffer : Str
  m_hyperformat : Bool
  m_leading_timestamps : Bool
  m_timestamp_index : Int
  m_timestamp : Int
  m_row_uniquify_chars : Nat
  m_dupkeycols : Bool
  m_fin : IStream
  deriving DecidableEq, Repr

/-- The constructor `LoadDataSource(row_uniquify_chars, dupkeycols)`; `AUTO_ASSIGN`
is the constant of `Key.h`, taken as a parameter. -/
def LoadDataSource.create (AUTO_ASSIGN : Int) (row_uniquify_chars : Nat) (dupkeycols : Bool) :
    LoadDataSource :=
  { m_type_mask := [], m_column_info := [], m_key_comps := [], m_values := [],
    m_next_value := 0, m_limit := 0, m_cur_line := 0, m_row_key_buffer := [],
    m_hyperformat := false, m_leading_timestamps := false, m_timestamp_index := -1,
    m_timestamp := AUTO_ASSIGN, m_row_uniquify_chars := row_uniquify_chars,
    m_dupkeycols := dupkeycols, m_fin := { data := [], pos := 0 } }

/-- The header text the column loop starts from: the C string of the header
without a leading `#` and the white space after it. -/
def header_base (header : Str) : Str :=
  match c_str header with
  | '#' :: rest => skip_space rest
  | s => s

/-- One header token split at its first `:`. -/
def column_of (token : Str) : ColumnInfo :=
  match strchr ':' token with
  | (fam, some q) => { family := fam, qualifier := q }
  | (fam, none) => { family := fam, qualifier := [] }

/-- `m_type_mask[idx] |= bit`. -/
def mask_or (masks : List Nat) (idx bit : Nat) : List Nat :=
  masks.set idx (masks.getD idx 0 ||| bit)

/-- The column loop of `parse_header` over the remaining header tokens; `index`
is the loop counter. -/
def column_loop (timestamp_column : Str) :
    List Str → Nat → LoadDataSource → Except Error LoadDataSource
  | [], _, st => .ok st
  | tok :: rest, index, st =>
    let cinfo := column_of tok
    let st1 := { st with m_column_info := st.m_column_info ++ [cinfo] }
    let st2 :=
      if timestamp_column ≠ [] ∧ timestamp_column = cinfo.family then
        { st1 with m_timestamp_index := index,
                   m_type_mask := mask_or st1.m_type_mask index TIMESTAMP }
      else st1
    if index + 1 < 256 then column_loop timestamp_column rest (index + 1) st2
    else .error Error.TOO_MANY_COLUMNS

/-- The prefix of a key-column specifier: the component it configures (its index
not yet set) and the column name it leaves. -/
def key_spec (key_column : Str) : KeyComponentInfo × Str :=
  let key_comps := KeyComponentInfo.clear
  if starts_with key_column ['\\', '%'] then
    (key_comps, substr key_column 1)
  else if starts_with key_column ['%', '0'] then
    let ptr := c_str (substr key_column 2)
    ({ key_comps with pad_character := '0', width := atoi ptr }, skip_digits ptr)
  else if starts_with key_column ['%', '-'] then
    let ptr := c_str (substr key_column 2)
    ({ key_comps with left_justify := true, width := atoi ptr }, skip_digits ptr)
  else if starts_with key_column ['%'] then
    let ptr := c_str (substr key_column 1)
    ({ key_comps with width := atoi ptr }, skip_digits ptr)
  else
    (key_comps, key_column)

/-- The first `j` with `m_column_info[j].family == column_name`, counted from
`j`. -/
def find_family (column_name : Str) : List ColumnInfo → Nat → Option Nat
  | [], _ => none
  | c :: cs, j => if c.family = column_name then some j else find_family column_name cs (j + 1)

/-- The key-column loop of `parse_header`. -/
def key_loop : List Str → LoadDataSource → Except Error LoadDataSource
  | [], st => .ok st
  | kc :: rest, st =>
    let (key_comps, column_name) := key_spec kc
    match find_family column_name st.m_column_info 0 with
    | some j =>
      key_loop rest
        { st with m_key_comps := st.m_key_comps ++ [{ key_comps with index := j }],
                  m_type_mask := mask_or st.m_type_mask j ROW_KEY }
    | none => .error (Error.KEY_COLUMN_NOT_FOUND column_name)

/-- The default key component, column 0, when no key column was resolved. -/
def default_key (st : LoadDataSource) : LoadDataSource :=
  if st.m_key_comps.isEmpty then
    { st with m_key_comps := st.m_key_comps ++ [KeyComponentInfo.clear],
              m_type_mask := mask_or st.m_type_mask 0 ROW_KEY }
  else st

/-- The family of column `i`, the empty text when there is no such column. -/
def family_at (cols : List ColumnInfo) (i : Nat) : Str :=
  (cols.getD i { family := [], qualifier := [] }).family

/-- The dialect detection of `parse_header`. -/
def detect_hyperformat (st : LoadDataSource) : LoadDataSource :=
  let cols := st.m_column_info
  if cols.length = 3 ∨ cols.length = 4 then
    let i := cols.length - 3
    if (family_at cols i = "rowkey".toList ∨ family_at cols i = "row".toList) ∧
       (family_at cols (i + 1) = "columnkey".toList ∨ family_at cols (i + 1) = "column".toList) ∧
       family_at cols (i + 2) = "value".toList then
      if i = 0 ∨ family_at cols 0 = "timestamp".toList then
        { st with m_hyperformat := true, m_leading_timestamps := decide (i = 1) }
      else st
    else st
  else st

/-- `LoadDataSource::parse_header(header, key_columns, timestamp_column)`. -/
def parse_header (st : LoadDataSource) (header : Str) (key_columns : List Str)
    (timestamp_column : Str) : Except Error LoadDataSource :=
  let st0 := { st with m_type_mask := List.replicate 257 0 }
  match column_loop timestamp_column (fields '\t' (header_base header)) 0 st0 with
  | .error e => .error e
  | .ok st1 =>
    match key_loop key_columns st1 with
    | .error e => .error e
    | .ok st2 =>
      let st3 := detect_hyperformat (default_key st2)
      let st4 := { st3 with m_next_value := st3.m_column_info.length, m_limit := 0 }
      if !st4.m_hyperformat ∧ st4.m_column_info.length < 2 then
        .error Error.HQL_BAD_LOAD_FILE_FORMAT
      else .ok { st4 with m_cur_line := 1 }

/-- The calendar record `struct tm` (the fields the loader sets). -/
structure Tm where
  tm_year : Int
  tm_mon : Int
  tm_mday : Int
  tm_hour : Int
  tm_min : Int
  tm_sec : Int
  deriving DecidableEq, Repr

/-- The byte at offset `n` of a C string, NUL at and after its end. -/
def char_at (s : Str) (n : Nat) : Char := s.getD n NUL

/-- `LoadDataSource::parse_date_format(str, &tm)`: the calendar record on
`true`, `none` on `false`.  `ival` is an `int`. -/
def parse_date_format (str : Str) : Option Tm :=
  -- year
  let y := strtol str
  if to_int32 y.1 = 0 ∨ y.2 ≠ 4 ∨ char_at str y.2 ≠ '-' then none else
  let ptr1 := str.drop (y.2 + 1)
  -- month
  let mo := strtol ptr1
  if to_int32 mo.1 = 0 ∨ mo.2 ≠ 2 ∨ char_at ptr1 mo.2 ≠ '-' then none else
  let ptr2 := ptr1.drop (mo.2 + 1)
  -- day
  let d := strtol ptr2
  if to_int32 d.1 = 0 ∨ d.2 ≠ 2 ∨ char_at ptr2 d.2 ≠ ' ' then none else
  let ptr3 := ptr2.drop (d.2 + 1)
  -- hour
  let h := strtol ptr3
  if h.2 ≠ 2 ∨ char_at ptr3 h.2 ≠ ':' then none else
  let ptr4 := ptr3.drop (h.2 + 1)
  -- minute
  let mi := strtol ptr4
  if mi.2 ≠ 2 ∨ char_at ptr4 mi.2 ≠ ':' then none else
  let ptr5 := ptr4.drop (mi.2 + 1)
  -- second
  let sec := strtol ptr5
  if sec.2 ≠ 2 then none else
  some { tm_year := to_int32 y.1 - 1900, tm_mon := to_int32 mo.1 - 1,
         tm_mday := to_int32 d.1, tm_hour := to_int32 h.1,
         tm_min := to_int32 mi.1, tm_sec := to_int32 sec.1 }

/-- Days from 1970-01-01 to the first day of month `m` (0-based, in `0..11`) of
year `y` in the proleptic Gregorian calendar. -/
def days_before_month (y m : Int) : Int :=
  let y1 := if m < 2 then y - 1 else y
  let era := y1 / 400
  let yoe := y1 - era * 400
  let mp := (m + 10) % 12
  let doy := (153 * mp + 2) / 5
  era * 146097 + (yoe * 365 + yoe / 4 - yoe / 100 + doy) - 719468

/-- `timegm(&tm)` of the C library: seconds since the epoch of the UTC calendar
record, a field outside its range carried into the next one. -/
def timegm (tm : Tm) : Int :=
  let year := tm.tm_year + 1900 + tm.tm_mon / 12
  let mon := tm.tm_mon % 12
  let days := days_before_month year mon + (tm.tm_mday - 1)
  ((days * 24 + tm.tm_hour) * 60 + tm.tm_min) * 60 + tm.tm_sec

/-- The conversion of a 64-bit pattern to `int64_t`. -/
def to_int64 (v : Int) : Int :=
  (v + 2 ^ 63) % 2 ^ 64 - 2 ^ 63

/-- The record `next` hands out: the `KeySpec` fields and the value; a null
pointer is `none`. -/
structure Cell where
  row : Str
  column_family : Str
  column_qualifier : Option Str
  timestamp : Int
  value : Option Str
  deriving DecidableEq, Repr

/-- What one call of `next` reports: the return value, the record when it is
`true`, `*consumedp`, `consumed_line`, and every line `getline` delivered during
the call, in order. -/
structure NextResult where
  ret : Bool
  cell : Option Cell
  consumed : Nat
  consumed_line : Str
  lines_read : List Str
  deriving DecidableEq, Repr

/-- The lines `getline` delivers one after the other from the unread bytes: each
ends at a newline or at the end of the data, and the empty remainder delivers
nothing. -/
def getlines : Str → List Str
  | [] => []
  | c :: cs =>
    if c = '\n' then [] :: getlines cs
    else
      match getlines cs with
      | [] => [[c]]
      | l :: ls => (c :: l) :: ls

/-- Whether the stream is good: neither `eofbit` nor `failbit` is set. -/
def IStream.good (fin : IStream) : Bool := !fin.eofbit && !fin.failbit

/-- `m_fin.clear()`: both error bits reset. -/
def IStream.clear (fin : IStream) : IStream := { fin with eofbit := false, failbit := false }

/-- `m_fin.seekg(p)`: `eofbit` is reset; the offset is set unless `failbit` is
set, in which case nothing else happens. -/
def IStream.seekg (fin : IStream) (p : Nat) : IStream :=
  if fin.failbit then { fin with eofbit := false } else { fin with pos := p, eofbit := false }

/-- `(uint32_t) m_fin.tellg()` and the stream after the call: the offset of the
next unread byte on a good stream; on a stream that is not good the call sets
`failbit` and returns -1. -/
def IStream.tellg (fin : IStream) : Nat × IStream :=
  if fin.good then (fin.pos % 2 ^ 32, fin) else (2 ^ 32 - 1, { fin with failbit := true })

/-- The stream after `getline` delivered `line`: the line and its newline are
consumed, and `eofbit` is set when the line ran to the end of the data without a
newline. -/
def IStream.advance (fin : IStream) (line : Str) : IStream :=
  { fin with pos := min (fin.pos + line.length + 1) fin.data.length,
             eofbit := fin.eofbit || decide (fin.data.length ≤ fin.pos + line.length) }

/-- The stream after a `getline` that delivered nothing: on a good stream (at
the end of the data) `eofbit` and `failbit` are set, on a stream that is not
good `failbit` is set. -/
def IStream.getline_failed (fin : IStream) : IStream :=
  if fin.good then { fin with eofbit := true, failbit := true }
  else { fin with failbit := true }

/-- The lines successive calls of `getline` deliver from the stream: none when
the stream is not good. -/
def IStream.lines (fin : IStream) : List Str :=
  if fin.good then getlines (fin.data.drop fin.pos) else []

/-- An empty, `NULL` or `\N` field. -/
def is_null (base : Str) : Bool :=
  base.length = 0 || base = "NULL".toList || base = "\\N".toList

/-- `boost::trim(line)`: white space removed at both ends. -/
def trim (line : Str) : Str := skip_space (skip_space line.reverse).reverse

/-- `LoadDataSource::add_row_component(index)`: the return value and the object
with the component appended to `m_row_key_buffer`. -/
def add_row_component (st : LoadDataSource) (index : Nat) :
    Except Fault (Bool × LoadDataSource) :=
  match st.m_key_comps.get? index with
  | none => .error Fault.OUT_OF_RANGE
  | some kc =>
    match st.m_values.get? kc.index with
    | none => .error Fault.OUT_OF_RANGE
    | some none => .ok (false, st)
    | some (some value) =>
      let value_len := value.length
      if to_size_t kc.width > value_len then
        let padding := to_size_t kc.width - value_len
        if kc.left_justify then
          .ok (true, { st with m_row_key_buffer :=
            st.m_row_key_buffer ++ value ++ List.replicate padding kc.pad_character })
        else
          .ok (true, { st with m_row_key_buffer :=
            st.m_row_key_buffer ++ List.replicate padding kc.pad_character ++ value })
      else
        .ok (true, { st with m_row_key_buffer := st.m_row_key_buffer ++ value })

/-- The running outputs of one call of `next`: `*consumedp` and the lines read so
far, oldest first. -/
structure Progress where
  consumed : Nat
  lines_read : List Str
  deriving DecidableEq, Repr

/-- The bookkeeping at the top of both `getline` loops: `m_cur_line++`,
`*consumedp += line.length() + 1` (a `uint32_t`), the stream moved past the
line. -/
def Progress.read (pr : Progress) (line : Str) : Progress :=
  { consumed := (pr.consumed + (line.length + 1)) % 2 ^ 32,
    lines_read := pr.lines_read ++ [line] }

/-- The object after `getline` delivered `line`. -/
def LoadDataSource.read (st : LoadDataSource) (line : Str) : LoadDataSource :=
  { st with m_cur_line := st.m_cur_line + 1, m_fin := st.m_fin.advance line }

/-- The result of a call that ends with `return true`. -/
def NextResult.found (pr : Progress) (line : Str) (c : Cell) : NextResult :=
  { ret := true, cell := some c, consumed := pr.consumed, consumed_line := line,
    lines_read := pr.lines_read }

/-- The result of a call that ends with `return false`; `consumed_line` is the
last line read, if any. -/
def NextResult.eof (pr : Progress) : NextResult :=
  { ret := false, cell := none, consumed := pr.consumed,
    consumed_line := pr.lines_read.getLastD [], lines_read := pr.lines_read }

/-- The column field of a hyperformat line split at its first `:`; the qualifier
is null when there is no `:` or nothing follows it. -/
def family_qualifier (col : Str) : Str × Option Str :=
  match strchr ':' col with
  | (fam, some q) => (fam, if q.length > 0 then some q else none)
  | (fam, none) => (fam, none)

/-- The body of the hyperformat loop for one line: the record, or `none` where
the source says `continue`, and the number of texts the generator wrote.
`rsgen n` is the text `m_rsgen->write` produces on its `n`-th call (the
generator is outside the repository); `m_rsgen` is non-null exactly when
`m_row_uniquify_chars` is not 0. -/
def hyper_line (AUTO_ASSIGN : Int) (rsgen : Nat → Str) (calls : Nat) (st : LoadDataSource)
    (line : Str) : Option Cell × Nat :=
  let base := c_str line
  -- timestamp
  let ts : Option (Int × Str) :=
    if st.m_leading_timestamps then
      match strchr '\t' base with
      | (_, none) => none
      | (f, some rest) =>
        if (strtol f).2 ≠ f.length then none else some ((strtol f).1, rest)
    else some (AUTO_ASSIGN, base)
  match ts with
  | none => (none, calls)
  | some (timestamp, base1) =>
    -- row key
    match strchr '\t' base1 with
    | (_, none) => (none, calls)
    | (rowf, some base2) =>
      let row := if st.m_row_uniquify_chars ≠ 0 then rowf ++ [' '] ++ rsgen calls else rowf
      let calls1 := if st.m_row_uniquify_chars ≠ 0 then calls + 1 else calls
      -- column family and qualifier
      match strchr '\t' base2 with
      | (_, none) => (none, calls1)
      | (col, some value) =>
        (some { row := row, column_family := (family_qualifier col).1,
                column_qualifier := (family_qualifier col).2,
                timestamp := timestamp, value := some value }, calls1)

/-- The hyperformat branch of `LoadDataSource::next`: the `getline` loop over the
lines still unread. -/
def hyper_loop (AUTO_ASSIGN : Int) (rsgen : Nat → Str) :
    List Str → Nat → Progress → LoadDataSource → NextResult × LoadDataSource × Nat
  | [], calls, pr, st =>
    (NextResult.eof pr, { st with m_fin := st.m_fin.getline_failed }, calls)
  | line :: rest, calls, pr, st =>
    let pr1 := pr.read line
    let st1 := st.read line
    match hyper_line AUTO_ASSIGN rsgen calls st1 line with
    | (some c, calls1) => (NextResult.found pr1 line c, st1, calls1)
    | (none, calls1) => hyper_loop AUTO_ASSIGN rsgen rest calls1 pr1 st1

/-- The tab walk of the narrow branch over the fields of the line: `m_values`
after it.  A null field on a column with a role leaves the walk (the `continue`
re-tests `strchr` on the field just terminated) and is pushed as the last
value.  `m_type_mask` has 257 entries. -/
def tokenize (masks : List Nat) :
    List Str → Nat → List (Option Str) → Except Fault (List (Option Str))
  | [], _, vals => .ok vals
  | [last], _, vals => .ok (vals ++ [if is_null last then none else some last])
  | tok :: rest, index, vals =>
    if is_null tok then
      match masks.get? index with
      | none => .error Fault.OUT_OF_RANGE
      | some m =>
        if m ≠ 0 then .ok (vals ++ [none])
        else tokenize masks rest (index + 1) (vals ++ [none])
    else tokenize masks rest (index + 1) (vals ++ [some tok])

/-- The loop `for (i=1; i<m_key_comps.size(); i++)` of the row key set-up, from
`i` on, `n` components left: `true` when every component was added. -/
def key_rest : Nat → Nat → LoadDataSource → Except Fault (Bool × LoadDataSource)
  | 0, _, st => .ok (true, st)
  | n + 1, i, st =>
    match add_row_component { st with m_row_key_buffer := st.m_row_key_buffer ++ [' '] } i with
    | .error e => .error e
    | .ok (false, st1) => .ok (false, st1)
    | .ok (true, st1) => key_rest n (i + 1) st1

/-- The row key set-up of the narrow branch. -/
def build_row_key (st : LoadDataSource) : Except Fault (Bool × LoadDataSource) :=
  match add_row_component { st with m_row_key_buffer := [] } 0 with
  | .error e => .error e
  | .ok (false, st1) => .ok (false, st1)
  | .ok (true, st1) => key_rest (st1.m_key_comps.length - 1) 1 st1

/-- The timestamp of a narrow line: `none` where the source says `continue`.
`m_timestamp` is an `int64_t`; the product is taken in `uint64_t`. -/
def line_timestamp (AUTO_ASSIGN : Int) (st : LoadDataSource) : Except Fault (Option Int) :=
  if 0 ≤ st.m_timestamp_index then
    let idx := st.m_timestamp_index.toNat
    if st.m_values.length ≤ idx then .ok none
    else
      match st.m_values.getD idx none with
      | none => .error Fault.NULL_POINTER
      | some str =>
        match parse_date_format str with
        | none => .ok none
        | some tm =>
          let t := timegm tm
          if t = -1 then .ok none
          else .ok (some (to_int64 ((t % 2 ^ 64) * 1000000000 % 2 ^ 64)))
  else .ok (some AUTO_ASSIGN)

/-- The loop `while (idx < limit && should_skip(idx, ...)) idx++`, at most `n`
steps. -/
def skip_columns (masks : List Nat) (dupkeycols : Bool) (limit : Nat) : Nat → Nat → Nat
  | 0, idx => idx
  | n + 1, idx =>
    if idx < limit ∧ should_skip idx masks dupkeycols then
      skip_columns masks dupkeycols limit n (idx + 1)
    else idx

/-- The record for column `m_next_value`, built from the cached row key and
timestamp. -/
def emit_column (st : LoadDataSource) : Except Fault Cell :=
  match st.m_column_info.get? st.m_next_value, st.m_values.get? st.m_next_value with
  | some ci, some v =>
    .ok { row := st.m_row_key_buffer, column_family := ci.family,
          column_qualifier := if ci.qualifier.isEmpty then none else some ci.qualifier,
          timestamp := st.m_timestamp, value := v }
  | _, _ => .error Fault.OUT_OF_RANGE

/-- The body of the narrow `getline` loop for one line, after the bookkeeping:
the first record of the line, or `none` where the source says `continue`.  The
loop `while (should_skip(m_next_value, ...)) m_next_value++` has no bound in the
source; it runs inside the 257 entries of `m_type_mask`, the last two of which
no header sets. -/
def narrow_line (AUTO_ASSIGN : Int) (rsgen : Nat → Str) (calls : Nat) (st : LoadDataSource)
    (line : Str) : Except Fault (Option Cell × LoadDataSource × Nat) :=
  let line1 := trim line
  if line1.length = 0 then .ok (none, st, calls) else
  match tokenize st.m_type_mask (fields '\t' (c_str line1)) 0 [] with
  | .error e => .error e
  | .ok vals =>
    let st1 := { st with m_values := vals,
                         m_limit := min vals.length st.m_column_info.length }
    match build_row_key st1 with
    | .error e => .error e
    | .ok (false, st2) => .ok (none, st2, calls)
    | .ok (true, st2) =>
      match line_timestamp AUTO_ASSIGN st2 with
      | .error e => .error e
      | .ok none => .ok (none, st2, calls)
      | .ok (some ts) =>
        let nv := skip_columns st2.m_type_mask st2.m_dupkeycols st2.m_type_mask.length
          st2.m_type_mask.length 0
        let st3 := { st2 with m_timestamp := ts, m_next_value := nv }
        let st4 :=
          if st3.m_row_uniquify_chars ≠ 0 then
            { st3 with m_row_key_buffer := st3.m_row_key_buffer ++ [' '] ++ rsgen calls }
          else st3
        let calls1 := if st3.m_row_uniquify_chars ≠ 0 then calls + 1 else calls
        match emit_column st4 with
        | .error e => .error e
        | .ok c => .ok (some c, { st4 with m_next_value := st4.m_next_value + 1 }, calls1)

/-- The `getline` loop of the narrow branch over the lines still unread. -/
def narrow_loop (AUTO_ASSIGN : Int) (rsgen : Nat → Str) :
    List Str → Nat → Progress → LoadDataSource →
      Except Fault (NextResult × LoadDataSource × Nat)
  | [], calls, pr, st =>
    .ok (NextResult.eof pr, { st with m_fin := st.m_fin.getline_failed }, calls)
  | line :: rest, calls, pr, st =>
    let pr1 := pr.read line
    match narrow_line AUTO_ASSIGN rsgen calls (st.read line) line with
    | .error e => .error e
    | .ok (some c, st1, calls1) => .ok (NextResult.found pr1 line c, st1, calls1)
    | .ok (none, st1, calls1) => narrow_loop AUTO_ASSIGN rsgen rest calls1 pr1 st1

/-- `LoadDataSource::next`: the result, the object after the call and the number
of texts the generator has written. -/
def LoadDataSource.next (AUTO_ASSIGN : Int) (rsgen : Nat → Str) (calls : Nat)
    (st : LoadDataSource) : Except Fault (NextResult × LoadDataSource × Nat) :=
  let pr : Progress := { consumed := 0, lines_read := [] }
  if st.m_hyperformat then
    .ok (hyper_loop AUTO_ASSIGN rsgen st.m_fin.lines calls pr st)
  else
    -- skip timestamp and rowkey (if needed)
    let nv := skip_columns st.m_type_mask st.m_dupkeycols st.m_limit
      (st.m_limit - st.m_next_value) st.m_next_value
    let st1 := { st with m_next_value := nv }
    -- get from parsed cells if available
    if 0 < st1.m_next_value ∧ st1.m_next_value < st1.m_limit then
      match emit_column st1 with
      | .error e => .error e
      | .ok c =>
        .ok ({ ret := true, cell := some c, consumed := 0, consumed_line := [],
               lines_read := [] },
             { st1 with m_next_value := st1.m_next_value + 1 }, calls)
    else narrow_loop AUTO_ASSIGN rsgen st1.m_fin.lines calls pr st1

/-- The fields of a `LoadDataSourceFileLocal` object: the base object and the
segment tables.  `header_file` is the first line source named by
`m_header_fname`, `none` when that name is empty. -/
structure LoadDataSourceFileLocal where
  base : LoadDataSource
  source : Str
  header_file : Option Str
  file_size : Nat
  num_parallel : Nat
  curr_cursor : Nat
  init_cursors : List Nat
  cursors : List Nat
  deriving DecidableEq, Repr

/-- The constructor `LoadDataSourceFileLocal(fname, header_fname,
row_uniquify_chars, dupkeycols, parallel)` on an existing uncompressed file with
content `source`; `file_size` is a `uint32_t`. -/
def LoadDataSourceFileLocal.create (AUTO_ASSIGN : Int) (source : Str)
    (header_file : Option Str) (row_uniquify_chars : Nat) (dupkeycols : Bool)
    (parallel : Nat) : LoadDataSourceFileLocal :=
  { base := LoadDataSource.create AUTO_ASSIGN row_uniquify_chars dupkeycols,
    source := source, header_file := header_file,
    file_size := source.length % 2 ^ 32,
    num_parallel := parallel % 2 ^ 32, curr_cursor := 0,
    init_cursors := List.replicate (parallel % 2 ^ 32) 0,
    cursors := List.replicate (parallel % 2 ^ 32) 0 }

/-- The candidate start of segment `i` before clamping and line snapping:
`(uint32_t) (i * file_size / num_parallel)`, every operand a `uint32_t`. -/
def candidate_cursor (i file_size num_parallel : Nat) : Nat :=
  (i * file_size % 2 ^ 32) / num_parallel

/-- The segment loop of `init_src` from `i` on, `n` segments left. -/
def init_loop : Nat → Nat → LoadDataSourceFileLocal → LoadDataSourceFileLocal
  | 0, _, fl => fl
  | n + 1, i, fl =>
    let tmp0 := candidate_cursor i fl.file_size fl.num_parallel
    let tmp_cursor := if tmp0 < fl.cursors.getD (i - 1) 0 then fl.cursors.getD (i - 1) 0 else tmp0
    -- get the cursors around the new line
    let fin := fl.base.m_fin.seekg tmp_cursor
    match fin.lines with
    | [] =>
      init_loop n (i + 1)
        { fl with cursors := fl.cursors.set i tmp_cursor,
                  init_cursors := fl.init_cursors.set i tmp_cursor,
                  base := { fl.base with m_fin := fin.getline_failed } }
    | line :: _ =>
      let t1 := (fin.advance line).tellg
      let t2 := t1.2.tellg
      init_loop n (i + 1)
        { fl with cursors := fl.cursors.set i t1.1, init_cursors := fl.init_cursors.set i t2.1,
                  base := { fl.base with m_fin := t2.2 } }

/-- `LoadDataSourceFileLocal::init_src()`. -/
def LoadDataSourceFileLocal.init_src (fl : LoadDataSourceFileLocal) : LoadDataSourceFileLocal :=
  let fl0 := { fl with base := { fl.base with m_fin := { data := fl.source, pos := 0 } },
                       cursors := fl.cursors.set 0 0, init_cursors := fl.init_cursors.set 0 0 }
  let fl1 := init_loop (fl0.num_parallel - 1) 1 fl0
  -- reset seek
  { fl1 with base := { fl1.base with m_fin := fl1.base.m_fin.seekg 0 } }

/-- `LoadDataSourceFileLocal::get_header()`: the header and the object after the
call. -/
def LoadDataSourceFileLocal.get_header (fl : LoadDataSourceFileLocal) :
    Str × LoadDataSourceFileLocal :=
  match fl.header_file with
  | some hf => ((getlines hf).headD [], fl)
  | none =>
    let header := fl.base.m_fin.lines.headD []
    let fin1 := match fl.base.m_fin.lines with
      | [] => fl.base.m_fin.getline_failed
      | line :: _ => fl.base.m_fin.advance line
    -- increment cursor 0
    (header, { fl with base := { fl.base with m_fin := fin1 },
                       cursors := fl.cursors.set 0
                         ((fl.cursors.getD 0 0 + (header.length + 1)) % 2 ^ 32) })

/-- `LoadDataSource::init(key_columns, timestamp_column)` on a
`LoadDataSourceFileLocal`. -/
def LoadDataSourceFileLocal.init (fl : LoadDataSourceFileLocal) (key_columns : List Str)
    (timestamp_column : Str) : Except Error LoadDataSourceFileLocal :=
  let fl1 := fl.init_src
  let (header, fl2) := fl1.get_header
  match parse_header fl2.base header key_columns timestamp_column with
  | .error e => .error e
  | .ok b => .ok { fl2 with base := b }

/-- What one call of `LoadDataSourceFileLocal::next` reports: the result of the
last delegated call, and every line the call read together with the file offset
its read started at. -/
structure SegmentedResult where
  ret : Bool
  cell : Option Cell
  consumed : Nat
  consumed_line : Str
  reads : List (Nat × Str)
  deriving DecidableEq, Repr

/-- The lines read one after the other from offset `pos`, each with the offset
its read started at. -/
def with_offsets : Nat → List Str → List (Nat × Str)
  | _, [] => []
  | pos, line :: rest => (pos, line) :: with_offsets (pos + line.length + 1) rest

/-- The loop `while (tmp_num++ < num_parallel)` of
`LoadDataSourceFileLocal::next`, `n` rounds left. -/
def segment_loop (AUTO_ASSIGN : Int) (rsgen : Nat → Str) :
    Nat → Nat → SegmentedResult → LoadDataSourceFileLocal →
      Except Fault (SegmentedResult × LoadDataSourceFileLocal × Nat)
  | 0, calls, res, fl => .ok (res, fl, calls)
  | n + 1, calls, res, fl =>
    -- clear error flags
    let fin := fl.base.m_fin.clear
    -- check if this segment is done
    if fl.curr_cursor < (fl.num_parallel + 2 ^ 32 - 1) % 2 ^ 32 ∧
        fl.cursors.getD fl.curr_cursor 0 = fl.init_cursors.getD (fl.curr_cursor + 1) 0 then
      segment_loop AUTO_ASSIGN rsgen n calls res
        { fl with curr_cursor := (fl.curr_cursor + 1) % fl.num_parallel,
                  base := { fl.base with m_fin := fin } }
    else
      let start := fl.cursors.getD fl.curr_cursor 0
      let b := { fl.base with m_fin := fin.seekg start }
      match LoadDataSource.next AUTO_ASSIGN rsgen calls b with
      | .error e => .error e
      | .ok (r, b1, calls1) =>
        let res1 : SegmentedResult :=
          { ret := r.ret, cell := r.cell, consumed := r.consumed,
            consumed_line := r.consumed_line,
            reads := res.reads ++ with_offsets start r.lines_read }
        let fl1 := { fl with
          base := b1,
          cursors := fl.cursors.set fl.curr_cursor
            ((start + (r.consumed_line.length + 1)) % 2 ^ 32),
          curr_cursor := (fl.curr_cursor + 1) % fl.num_parallel }
        if r.ret then .ok (res1, fl1, calls1)
        else segment_loop AUTO_ASSIGN rsgen n calls1 res1 fl1

/-- `LoadDataSourceFileLocal::next`. -/
def LoadDataSourceFileLocal.next (AUTO_ASSIGN : Int) (rsgen : Nat → Str) (calls : Nat)
    (fl : LoadDataSourceFileLocal) :
    Except Fault (SegmentedResult × LoadDataSourceFileLocal × Nat) :=
  segment_loop AUTO_ASSIGN rsgen fl.num_parallel calls
    { ret := false, cell := none, consumed := 0, consumed_line := [], reads := [] } fl

/-- The caller's loop `while (source.next(...))`, at most `fuel` calls: the
records in the order returned, the reads in the order made, and whether a call
returned `false` within the fuel. -/
def LoadDataSourceFileLocal.drain (AUTO_ASSIGN : Int) (rsgen : Nat → Str) :
    Nat → Nat → LoadDataSourceFileLocal →
      Except Fault (List Cell × List (Nat × Str) × Bool)
  | 0, _, _ => .ok ([], [], false)
  | fuel + 1, calls, fl =>
    match fl.next AUTO_ASSIGN rsgen calls with
    | .error e => .error e
    | .ok (r, fl1, calls1) =>
      match r.cell with
      | none => .ok ([], r.reads, true)
      | some c =>
        match LoadDataSourceFileLocal.drain AUTO_ASSIGN rsgen fuel calls1 fl1 with
        | .error e => .error e
        | .ok (cs, rs, done) => .ok (c :: cs, r.reads ++ rs, done)

/-- The plain single-stream source: the stream is opened on `source`, the header
is its first line, and nothing seeks afterwards. -/
def LoadDataSource.init (st : LoadDataSource) (source : Str) (key_columns : List Str)
    (timestamp_column : Str) : Except Error LoadDataSource :=
  let fin : IStream := { data := source, pos := 0 }
  let header := fin.lines.headD []
  let fin1 := match fin.lines with
    | [] => fin.getline_failed
    | line :: _ => fin.advance line
  parse_header { st with m_fin := fin1 } header key_columns timestamp_column

/-- The caller's loop over the plain source, at most `fuel` calls: the records in
the order returned and whether a call returned `false` within the fuel. -/
def LoadDataSource.drain (AUTO_ASSIGN : Int) (rsgen : Nat → Str) :
    Nat → Nat → LoadDataSource → Except Fault (List Cell × Bool)
  | 0, _, _ => .ok ([], false)
  | fuel + 1, calls, st =>
    match st.next AUTO_ASSIGN rsgen calls with
    | .error e => .error e
    | .ok (r, st1, calls1) =>
      match r.cell with
      | none => .ok ([], true)
      | some c =>
        match LoadDataSource.drain AUTO_ASSIGN rsgen fuel calls1 st1 with
        | .error e => .error e
        | .ok (cs, done) => .ok (c :: cs, done)

/-- The object `init` hands to `parse_header`: freshly constructed, its stream
opened on `fin`. -/
def LoadDataSource.opened (AUTO_ASSIGN : Int) (row_uniquify_chars : Nat) (dupkeycols : Bool)
    (fin : IStream) : LoadDataSource :=
  { LoadDataSource.create AUTO_ASSIGN row_uniquify_chars dupkeycols with m_fin := fin }

/-- The tab-separated tokens of a header, after a leading `#` and the white
space behind it are removed. -/
def header_tokens (header : Str) : List Str := fields '\t' (header_base header)

/-- The column descriptors a header denotes, in header order. -/
def header_columns (header : Str) : List ColumnInfo := (header_tokens header).map column_of

/-- The column families of a header, in header order. -/
def header_families (header : Str) : List Str := (header_columns header).map (·.family)

/-- A whole load through the segmented reader: construct, `init`, then call
`next` until it returns `false` (at most `fuel` calls).  `none` when `init` is
fatal or a call faults. -/
def segmented_run (AUTO_ASSIGN : Int) (rsgen : Nat → Str) (source : Str)
    (header_file : Option Str) (row_uniquify_chars : Nat) (dupkeycols : Bool) (parallel : Nat)
    (key_columns : List Str) (timestamp_column : Str) (fuel : Nat) :
    Option (List Cell × List (Nat × Str) × Bool) :=
  match (LoadDataSourceFileLocal.create AUTO_ASSIGN source header_file row_uniquify_chars
      dupkeycols parallel).init key_columns timestamp_column with
  | .error _ => none
  | .ok fl =>
    match fl.drain AUTO_ASSIGN rsgen fuel 0 with
    | .error _ => none
    | .ok r => some r

/-- A whole load through the plain single-stream decoder. -/
def plain_run (AUTO_ASSIGN : Int) (rsgen : Nat → Str) (source : Str)
    (row_uniquify_chars : Nat) (dupkeycols : Bool)
    (key_columns : List Str) (timestamp_column : Str) (fuel : Nat) :
    Option (List Cell × Bool) :=
  match (LoadDataSource.create AUTO_ASSIGN row_uniquify_chars dupkeycols).init source
      key_columns timestamp_column with
  | .error _ => none
  | .ok st =>
    match st.drain AUTO_ASSIGN rsgen fuel 0 with
    | .error _ => none
    | .ok r => some r

/-- The offsets at which the lines of a file start. -/
def line_starts_from : Nat → List Str → List Nat
  | _, [] => []
  | pos, line :: rest => pos :: line_starts_from (pos + line.length + 1) rest

/-- The offsets at which the lines of `source` start. -/
def line_starts (source : Str) : List Nat := line_starts_from 0 (getlines source)

/-- The families `[row|rowkey, column|columnkey, value]`. -/
def hyper3 : List Str → Bool
  | [r, c, v] =>
    (r = "rowkey".toList || r = "row".toList) &&
    (c = "columnkey".toList || c = "column".toList) && v = "value".toList
  | _ => false

/-- The families `[timestamp, row|rowkey, column|columnkey, value]`. -/
def hyper4 : List Str → Bool
  | [t, r, c, v] => t = "timestamp".toList && hyper3 [r, c, v]
  | _ => false

/-- The part of a token before its first `:`, all of it when there is none. -/
def before_colon (tok : Str) : Str := tok.takeWhile (· ≠ ':')

/-- The part of a token after its first `:`, empty when there is none. -/
def after_colon (tok : Str) : Str := (tok.dropWhile (· ≠ ':')).drop 1

/-- A key component padded as the row-key rule says: `w - |v|` copies of `c`
before `v` (after it when left-justified) when `v` is shorter than `w`, else `v`
itself. -/
def padded (w : Nat) (c : Char) (left_justify : Bool) (v : Str) : Str :=
  if v.length < w then
    if left_justify then v ++ List.replicate (w - v.length) c
    else List.replicate (w - v.length) c ++ v
  else v

/-- A line of text, for examples. -/
def txt (s : String) : Str := s.toList

/-- A hyperformat file whose first data line has no tab. -/
def file_with_short_line : Str :=
  txt "row\tcolumn\tvalue\nbad\nr1\tc\tv1\nr2\tc\tv2\nr3\tc\tv3\nr4\tc\tv4\n"

/-- The hyperformat record `(row, c, value)` with no qualifier and timestamp 0. -/
def cell_c (row value : String) : Cell :=
  { row := txt row, column_family := txt "c", column_qualifier := none, timestamp := 0,
    value := some (txt value) }

/-- A narrow file with a key column and two value columns. -/
def file_two_values : Str :=
  txt "k\ta\tb\nr1\tx\ty\nr2\tz\tw\n"

/-- The key component a specifier resolves to over the columns `cols`: the
prefix settings of the specifier and the index of the first column whose family
is the bare name. -/
def resolve_key (cols : List ColumnInfo) (key_column : Str) : KeyComponentInfo :=
  { (key_spec key_column).1 with
    index := (find_family (key_spec key_column).2 cols 0).getD 0 }

/-- The schema `parse_header` builds from the header `row<TAB>column<TAB>value`
with no key column and no timestamp column. -/
def schema_row_column_value : LoadDataSource :=
  { m_type_mask := mask_or (List.replicate 257 0) 0 ROW_KEY,
    m_column_info := [{ family := txt "row", qualifier := [] },
                      { family := txt "column", qualifier := [] },
                      { family := txt "value", qualifier := [] }],
    m_key_comps := [KeyComponentInfo.clear], m_values := [], m_next_value := 3, m_limit := 0,
    m_cur_line := 1, m_row_key_buffer := [], m_hyperformat := true,
    m_leading_timestamps := false, m_timestamp_index := -1, m_timestamp := 0,
    m_row_uniquify_chars := 0, m_dupkeycols := false, m_fin := { data := [], pos := 0 } }

/-- The schema `parse_header` builds from the header `id<TAB>name:first<TAB>id`
with the key column `%05id`. -/
def schema_id_name : LoadDataSource :=
  { m_type_mask := mask_or (List.replicate 257 0) 0 ROW_KEY,
    m_column_info := [{ family := txt "id", qualifier := [] },
                      { family := txt "name", qualifier := txt "first" },
                      { family := txt "id", qualifier := [] }],
    m_key_comps := [{ index := 0, width := 5, left_justify := false, pad_character := '0' }],
    m_values := [], m_next_value := 3, m_limit := 0,
    m_cur_line := 1, m_row_key_buffer := [], m_hyperformat := false,
    m_leading_timestamps := false, m_timestamp_index := -1, m_timestamp := 0,
    m_row_uniquify_chars := 0, m_dupkeycols := false, m_fin := { data := [], pos := 0 } }

/-- An object whose only key component is `kc` (over column 0) and whose current
line has the single value `v`. -/
def row_key_state (kc : KeyComponentInfo) (v : Str) : LoadDataSource :=
  { LoadDataSource.create 0 0 false with m_key_comps := [kc], m_values := [some v] }

/-- The results of `n` successive calls of `LoadDataSource::next`, in order, the
object after them and the number of texts the generator has written. -/
def LoadDataSource.calls (AUTO_ASSIGN : Int) (rsgen : Nat → Str) :
    Nat → Nat → LoadDataSource → Except Fault (List NextResult × LoadDataSource × Nat)
  | 0, calls, st => .ok ([], st, calls)
  | n + 1, calls, st =>
    match st.next AUTO_ASSIGN rsgen calls with
    | .error e => .error e
    | .ok (r, st1, calls1) =>
      match LoadDataSource.calls AUTO_ASSIGN rsgen n calls1 st1 with
      | .error e => .error e
      | .ok (rs, st2, calls2) => .ok (r :: rs, st2, calls2)

/-- The results of the first `n` calls of `next` on the plain single-stream
decoder over `source`; `none` when `init` is fatal. -/
def plain_results (AUTO_ASSIGN : Int) (rsgen : Nat → Str) (source : Str)
    (row_uniquify_chars : Nat) (dupkeycols : Bool)
    (key_columns : List Str) (timestamp_column : Str) (n : Nat) :
    Option (Except Fault (List NextResult)) :=
  match (LoadDataSource.create AUTO_ASSIGN row_uniquify_chars dupkeycols).init source
      key_columns timestamp_column with
  | .error _ => none
  | .ok st =>
    match st.calls AUTO_ASSIGN rsgen n 0 with
    | .error e => some (.error e)
    | .ok r => some (.ok r.1)

/-- The object after `n` successive calls of `LoadDataSourceFileLocal::next`. -/
def LoadDataSourceFileLocal.calls (AUTO_ASSIGN : Int) (rsgen : Nat → Str) :
    Nat → Nat → LoadDataSourceFileLocal → Except Fault (LoadDataSourceFileLocal × Nat)
  | 0, calls, fl => .ok (fl, calls)
  | n + 1, calls, fl =>
    match fl.next AUTO_ASSIGN rsgen calls with
    | .error e => .error e
    | .ok (_, fl1, calls1) => LoadDataSourceFileLocal.calls AUTO_ASSIGN rsgen n calls1 fl1

/-- The segment tables `(cursors, init_cursors)` of the segmented reader over
`source` after `init` and `n` calls of `next`; `none` when `init` is fatal or a
call faults. -/
def cursors_after (AUTO_ASSIGN : Int) (rsgen : Nat → Str) (source : Str)
    (dupkeycols : Bool) (parallel : Nat) (key_columns : List Str) (timestamp_column : Str)
    (n : Nat) : Option (List Nat × List Nat) :=
  match (LoadDataSourceFileLocal.create AUTO_ASSIGN source none 0 dupkeycols
      parallel).init key_columns timestamp_column with
  | .error _ => none
  | .ok fl =>
    match fl.calls AUTO_ASSIGN rsgen n 0 with
    | .error _ => none
    | .ok r => some (r.1.cursors, r.1.init_cursors)

/-- The columns from `idx` on, below `limit`, that `should_skip` does not
suppress, in increasing order. -/
def unsuppressed (masks : List Nat) (dupkeycols : Bool) (limit idx : Nat) : List Nat :=
  (List.range' idx (limit - idx)).filter (fun j => !should_skip j masks dupkeycols)

/-- The record of column `j` of a line: the row key `K`, the timestamp `T`, the
family and the qualifier of header column `j` (a null qualifier when it is
empty) and the value `v`. -/
def column_cell (cols : List ColumnInfo) (K : Str) (T : Int) (j : Nat) (v : Option Str) :
    Cell :=
  let ci := cols.getD j { family := [], qualifier := [] }
  { row := K, column_family := ci.family,
    column_qualifier := if ci.qualifier.isEmpty then none else some ci.qualifier,
    timestamp := T, value := v }

/-- The value the tab walk stores for a field: null for an empty, `NULL` or `\N`
field. -/
def field_value (tok : Str) : Option Str := if is_null tok then none else some tok

/-- What a call reports that returns the record `c` without reading a line. -/
def NextResult.cached (c : Cell) : NextResult :=
  { ret := true, cell := some c, consumed := 0, consumed_line := [], lines_read := [] }

/-- The layout `YYYY-MM-DD HH:MM:SS`: 19 bytes, digits everywhere but the
separators `-`, `-`, space, `:`, `:` at offsets 4, 7, 10, 13, 16. -/
def is_date_layout (s : Str) : Bool :=
  s.length = 19 &&
  (List.range 19).all (fun i =>
    if i = 4 ∨ i = 7 then s.getD i NUL = '-'
    else if i = 10 then s.getD i NUL = ' '
    else if i = 13 ∨ i = 16 then s.getD i NUL = ':'
    else isdigit (s.getD i NUL))

/-- A narrow file whose first data line is blank. -/
def file_with_blank_line : Str :=
  txt "k\ta\n\nr1\tx\nr2\tx\nr3\tx\nr4\tx\n"

/-- The narrow record `(row, family, value)` with no qualifier. -/
def cell_of (row family : String) (timestamp : Int) (value : Option String) : Cell :=
  { row := txt row, column_family := txt family, column_qualifier := none,
    timestamp := timestamp, value := value.map txt }

/-- The bytes a list of lines occupies in the stream: each line and its
newline. -/
def line_bytes (lines : List Str) : Nat := (lines.map (fun l => l.length + 1)).sum

/-- A hyperformat object (the schema of `row<TAB>column<TAB>value`) whose
stream holds `data`, nothing read yet. -/
def hyper_state (data : Str) : LoadDataSource :=
  { schema_row_column_value with m_fin := { data := data, pos := 0 } }

/-- The text of six groups separated by five single bytes. -/
def date_text (g1 g2 g3 g4 g5 g6 : Str) (s1 s2 s3 s4 s5 : Char) : Str :=
  g1 ++ s1 :: (g2 ++ s2 :: (g3 ++ s3 :: (g4 ++ s4 :: (g5 ++ s5 :: g6))))

/-- The plain decoder after `init` on `source`; the freshly constructed object
when `init` is fatal. -/
def plain_state (AUTO_ASSIGN : Int) (source : Str) (dupkeycols : Bool)
    (key_columns : List Str) (timestamp_column : Str) : LoadDataSource :=
  match (LoadDataSource.create AUTO_ASSIGN 0 dupkeycols).init source key_columns
      timestamp_column with
  | .ok st => st
  | .error _ => LoadDataSource.create AUTO_ASSIGN 0 dupkeycols

/-- A narrow file with the key column `k`, the timestamp column `t` and one
value column, and one data line dated 2009-01-15 08:30:00. -/
def file_dated : Str := txt "k\tt\ta\nr\t2009-01-15 08:30:00\tx\n"

/-- The plain decoder opened on `file_dated`. -/
def dated_state : LoadDataSource := plain_state 0 file_dated false [txt "k"] (txt "t")

/-- What the first call of `next` reports on `file_dated`. -/
def dated_result : NextResult :=
  { ret := true, cell := some (cell_of "r" "a" 1232008200000000000 (some "x")),
    consumed := 24, consumed_line := txt "r\t2009-01-15 08:30:00\tx",
    lines_read := [txt "r\t2009-01-15 08:30:00\tx"] }

/-- The object after the first call of `next` on `file_dated`. -/
def dated_state_after : LoadDataSource :=
  { dated_state with
    m_values := [some (txt "r"), some (txt "2009-01-15 08:30:00"), some (txt "x")],
    m_next_value := 3, m_limit := 3, m_cur_line := 2, m_row_key_buffer := txt "r",
    m_timestamp := 1232008200000000000, m_fin := { data := file_dated, pos := 30 } }

/-- A narrow file with the key column `k`, the timestamp column `t` and the value
columns `a` and `b`, and one data line. -/
def file_four_columns : Str := txt "k\tt\ta\tb\nr\t2009-01-15 08:30:00\tx\ty\n"

/-- The plain decoder opened on `file_four_columns` with the key column `k` and
the timestamp column `t`. -/
def four_columns_state (dupkeycols : Bool) : LoadDataSource :=
  plain_state 0 file_four_columns dupkeycols [txt "k"] (txt "t")

/-- What the first call of `next` reports on the hyperformat stream
`bad`, `r1<TAB>c<TAB>v1`. -/
def skipped_line_result : NextResult :=
  { ret := true, cell := some (cell_c "r1" "v1"), consumed := 12,
    consumed_line := txt "r1\tc\tv1", lines_read := [txt "bad", txt "r1\tc\tv1"] }

/-- The object after that call. -/
def skipped_line_state_after : LoadDataSource :=
  { hyper_state (txt "bad\nr1\tc\tv1\n") with
    m_cur_line := 3, m_fin := { data := txt "bad\nr1\tc\tv1\n", pos := 12 } }

/-! ## The segmented reader against its line guarantee -/

set_option maxRecDepth 100000 in
/-- C1 (fails on the code): with parallelism 2 over a hyperformat file whose
first data line is skipped (segment 0 holds the lines at 17 and 21, segment 1
the lines at 29, 37 and 45), the reads of `LoadDataSourceFileLocal::next` for
segment 0 start at the offsets 25, 33, 41 and 49, which are not line starts, and
run on into segment 1: the lines `r2`, `r3` and `r4` are read and returned
twice, and the load ends. -/
theorem segmented_next_rereads_lines_from_the_middle :
    segmented_run 0 (fun _ => []) file_with_short_line none 0 false 2 [] [] 12 =
      some ([cell_c "r1" "v1", cell_c "r2" "v2", cell_c "r2" "v2", cell_c "r3" "v3",
             cell_c "r3" "v3", cell_c "r4" "v4", cell_c "r4" "v4"],
            [(17, txt "bad"), (21, txt "r1\tc\tv1"), (29, txt "r2\tc\tv2"),
             (25, txt "\tv1"), (29, txt "r2\tc\tv2"), (37, txt "r3\tc\tv3"),
             (33, txt "\tv2"), (37, txt "r3\tc\tv3"), (45, txt "r4\tc\tv4"),
             (41, txt "\tv3"), (45, txt "r4\tc\tv4"), (49, txt "\tv4")], true) ∧
    line_starts file_with_short_line = [0, 17, 21, 29, 37, 45] ∧
    ((LoadDataSourceFileLocal.create 0 file_with_short_line none 0 false 2).init_src).init_cursors
      = [0, 29] := by
  decide!

set_option maxRecDepth 100000 in
/-- C2 (fails on the code): with parallelism 1 over a narrow file with two value
columns, the segmented reader returns the records of the second line under row
`2`, the plain decoder under row `r2`. -/
theorem parallel_one_differs_from_plain_decoder :
    segmented_run 0 (fun _ => []) file_two_values none 0 false 1 [] [] 8 =
      some ([{ row := txt "r1", column_family := txt "a", column_qualifier := none,
               timestamp := 0, value := some (txt "x") },
             { row := txt "r1", column_family := txt "b", column_qualifier := none,
               timestamp := 0, value := some (txt "y") },
             { row := txt "2", column_family := txt "a", column_qualifier := none,
               timestamp := 0, value := some (txt "z") },
             { row := txt "2", column_family := txt "b", column_qualifier := none,
               timestamp := 0, value := some (txt "w") }],
            [(6, txt "r1\tx\ty"), (14, txt "2\tz\tw")], true) ∧
    plain_run 0 (fun _ => []) file_two_values 0 false [] [] 8 =
      some ([{ row := txt "r1", column_family := txt "a", column_qualifier := none,
               timestamp := 0, value := some (txt "x") },
             { row := txt "r1", column_family := txt "b", column_qualifier := none,
               timestamp := 0, value := some (txt "y") },
             { row := txt "r2", column_family := txt "a", column_qualifier := none,
               timestamp := 0, value := some (txt "z") },
             { row := txt "r2", column_family := txt "b", column_qualifier := none,
               timestamp := 0, value := some (txt "w") }], true) := by
  decide!

/-! ## The header loop -/

theorem strchr_fst (ch : Char) (s : Str) : (strchr ch s).1 = s.takeWhile (· ≠ ch) := by
  induction s with
  | nil => rfl
  | cons c cs ih =>
    by_cases h : c = ch
    · simp [strchr, h]
    · simp [strchr, h, ih]

theorem strchr_snd (ch : Char) (s : Str) :
    (strchr ch s).2 = if ch ∈ s then some ((s.dropWhile (· ≠ ch)).drop 1) else none := by
  induction s with
  | nil => rfl
  | cons c cs ih =>
    by_cases h : c = ch
    · simp [strchr, h]
    · have h2 : ¬ ch = c := fun e => h e.symm
      simp [strchr, h, ih, h2]

theorem column_of_eq (tok : Str) :
    column_of tok = { family := before_colon tok, qualifier := after_colon tok } := by
  have h1 := strchr_fst ':' tok
  have h2 := strchr_snd ':' tok
  unfold column_of before_colon after_colon
  rcases hs : strchr ':' tok with ⟨fam, q⟩
  rw [hs] at h1 h2
  simp only at h1 h2
  subst h1
  by_cases hm : ':' ∈ tok
  · rw [if_pos hm] at h2
    subst h2
    rfl
  · rw [if_neg hm] at h2
    subst h2
    have : tok.dropWhile (· ≠ ':') = [] := by
      rw [List.dropWhile_eq_nil_iff]
      intro x hx
      have : x ≠ ':' := fun e => hm (e ▸ hx)
      simpa using this
    rw [this]
    rfl

theorem fields_ne_nil (sep : Char) (s : Str) : fields sep s ≠ [] := by
  cases s with
  | nil => simp [fields]
  | cons c cs =>
    unfold fields
    split
    · simp
    · split <;> simp

theorem fields_no_sep (sep : Char) : ∀ (s : Str), ∀ f ∈ fields sep s, sep ∉ f := by
  intro s
  induction s with
  | nil => intro f hf; simp [fields] at hf; subst hf; simp
  | cons c cs ih =>
    intro f hf
    by_cases h : c = sep
    · simp only [fields, if_pos h, List.mem_cons] at hf
      rcases hf with rfl | hf
      · simp
      · exact ih f hf
    · simp only [fields, if_neg h] at hf
      cases hfs : fields sep cs with
      | nil => exact absurd hfs (fields_ne_nil sep cs)
      | cons g gs =>
        rw [hfs] at hf ih
        simp only [List.mem_cons] at hf
        rcases hf with rfl | hf
        · intro hm
          rcases List.mem_cons.mp hm with e | hm
          · exact h e.symm
          · exact ih g (List.mem_cons_self _ _) hm
        · exact ih f (List.mem_cons_of_mem _ hf)

theorem fields_join (sep : Char) : ∀ (s : Str), List.intercalate [sep] (fields sep s) = s := by
  intro s
  induction s with
  | nil => simp [fields, List.intercalate]
  | cons c cs ih =>
    by_cases h : c = sep
    · simp only [fields, if_pos h]
      cases hfs : fields sep cs with
      | nil => exact absurd hfs (fields_ne_nil sep cs)
      | cons g gs =>
        rw [hfs] at ih
        rw [← ih, h]
        simp [List.intercalate, List.intersperse]
    · simp only [fields, if_neg h]
      cases hfs : fields sep cs with
      | nil => exact absurd hfs (fields_ne_nil sep cs)
      | cons g gs =>
        rw [hfs] at ih
        rw [← ih]
        cases gs <;> simp [List.intercalate, List.intersperse]

theorem column_loop_absent_timestamp (ts : Str) :
    ∀ (toks : List Str) (i : Nat) (st : LoadDataSource),
      (∀ tok ∈ toks, (column_of tok).family ≠ ts) →
      column_loop ts toks i st = column_loop [] toks i st := by
  intro toks
  induction toks with
  | nil => intro i st _; rfl
  | cons tok rest ih =>
    intro i st h
    have h1 : ¬ (ts ≠ [] ∧ ts = (column_of tok).family) :=
      fun hh => h tok (List.mem_cons_self _ _) hh.2.symm
    have h2 : ¬ (([] : Str) ≠ [] ∧ [] = (column_of tok).family) := fun hh => hh.1 rfl
    simp only [column_loop, if_neg h1, if_neg h2]
    rw [ih _ _ (fun t ht => h t (List.mem_cons_of_mem _ ht))]

theorem column_loop_ok (ts : Str) :
    ∀ (toks : List Str) (i : Nat) (st : LoadDataSource), i + toks.length < 256 →
      ∃ st1, column_loop ts toks i st = .ok st1 ∧
        st1.m_column_info = st.m_column_info ++ toks.map column_of ∧
        st1.m_key_comps = st.m_key_comps ∧
        st1.m_hyperformat = st.m_hyperformat ∧
        st1.m_leading_timestamps = st.m_leading_timestamps ∧
        st1.m_type_mask.length = st.m_type_mask.length := by
  intro toks
  induction toks with
  | nil => intro i st _; exact ⟨st, rfl, by simp, rfl, rfl, rfl, rfl⟩
  | cons tok rest ih =>
    intro i st h
    simp only [List.length_cons] at h
    have h1 : i + 1 < 256 := by omega
    have h2 : (i + 1) + rest.length < 256 := by omega
    by_cases hts : ts ≠ [] ∧ ts = (column_of tok).family
    · obtain ⟨st1, e, a, b, c, d, m⟩ := ih (i + 1)
        { st with m_column_info := st.m_column_info ++ [column_of tok],
                  m_timestamp_index := i,
                  m_type_mask := mask_or st.m_type_mask i TIMESTAMP } h2
      refine ⟨st1, ?_, ?_, b, c, d, ?_⟩
      · simp only [column_loop, if_pos hts, if_pos h1]
        exact e
      · simpa using a
      · simpa [mask_or] using m
    · obtain ⟨st1, e, a, b, c, d, m⟩ := ih (i + 1)
        { st with m_column_info := st.m_column_info ++ [column_of tok] } h2
      refine ⟨st1, ?_, ?_, b, c, d, m⟩
      · simp only [column_loop, if_neg hts, if_pos h1]
        exact e
      · simpa using a

theorem column_loop_error (ts : Str) :
    ∀ (toks : List Str) (i : Nat) (st : LoadDataSource), toks ≠ [] → 256 ≤ i + toks.length →
      column_loop ts toks i st = .error Error.TOO_MANY_COLUMNS := by
  intro toks
  induction toks with
  | nil => intro i st h; exact absurd rfl h
  | cons tok rest ih =>
    intro i st _ h
    simp only [List.length_cons] at h
    by_cases h1 : i + 1 < 256
    · have hr : rest ≠ [] := by
        intro e
        subst e
        simp at h
        omega
      simp only [column_loop, if_pos h1]
      split <;> exact ih _ _ hr (by omega)
    · simp only [column_loop, if_neg h1]

/-! ## Key columns -/

theorem find_family_none (name : Str) :
    ∀ (cols : List ColumnInfo) (j : Nat),
      find_family name cols j = none ↔ ∀ c ∈ cols, c.family ≠ name := by
  intro cols
  induction cols with
  | nil => intro j; simp [find_family]
  | cons c cs ih =>
    intro j
    by_cases h : c.family = name
    · simp [find_family, h]
    · simp [find_family, h, ih]

theorem find_family_some (name : Str) :
    ∀ (cols : List ColumnInfo) (j k : Nat), find_family name cols j = some k →
      j ≤ k ∧ k - j < cols.length ∧ family_at cols (k - j) = name ∧
        ∀ i, i < k - j → family_at cols i ≠ name := by
  intro cols
  induction cols with
  | nil => intro j k h; simp [find_family] at h
  | cons c cs ih =>
    intro j k h
    by_cases hc : c.family = name
    · simp [find_family, hc] at h
      subst h
      simp [family_at, hc]
    · simp only [find_family, if_neg hc] at h
      obtain ⟨h1, h2, h3, h4⟩ := ih (j + 1) k h
      have e : k - j = (k - (j + 1)) + 1 := by omega
      refine ⟨by omega, ?_, ?_, ?_⟩
      · simp only [List.length_cons]; omega
      · rw [e]
        simpa [family_at] using h3
      · intro i hi
        cases i with
        | zero => simpa [family_at] using hc
        | succ i =>
          have := h4 i (by omega)
          simpa [family_at] using this

theorem row_key_bit (m : Nat) : m &&& ROW_KEY ≠ 0 ↔ m % 2 = 1 := by
  simp only [ROW_KEY, Nat.and_one_is_mod]
  omega

theorem mask_or_length (masks : List Nat) (j b : Nat) :
    (mask_or masks j b).length = masks.length := by
  simp [mask_or]

theorem mask_or_keeps (masks : List Nat) (j b k : Nat) (h : masks.getD k 0 % 2 = 1) :
    (mask_or masks j b).getD k 0 % 2 = 1 := by
  by_cases e : j = k
  · subst e
    by_cases hl : j < masks.length
    · simp only [mask_or, List.getD_eq_getElem?_getD, List.getElem?_set_self hl, Option.getD_some]
      simp only [List.getD_eq_getElem?_getD] at h
      exact Nat.or_mod_two_eq_one.mpr (Or.inl h)
    · have : masks.set j (masks.getD j 0 ||| b) = masks := by
        apply List.set_eq_of_length_le
        omega
      unfold mask_or
      rw [this]
      exact h
  · simpa [mask_or, List.getElem?_set_ne e] using h

theorem mask_or_sets (masks : List Nat) (j : Nat) (hl : j < masks.length) :
    (mask_or masks j ROW_KEY).getD j 0 % 2 = 1 := by
  simp only [mask_or, List.getD_eq_getElem?_getD, List.getElem?_set_self hl, Option.getD_some]
  exact Nat.or_mod_two_eq_one.mpr (Or.inr (by decide))

theorem key_loop_ok :
    ∀ (keys : List Str) (st : LoadDataSource),
      (∀ kc ∈ keys, find_family (key_spec kc).2 st.m_column_info 0 ≠ none) →
      st.m_column_info.length < st.m_type_mask.length →
      ∃ st1, key_loop keys st = .ok st1 ∧
        st1.m_column_info = st.m_column_info ∧
        st1.m_key_comps = st.m_key_comps ++ keys.map (resolve_key st.m_column_info) ∧
        st1.m_hyperformat = st.m_hyperformat ∧
        st1.m_leading_timestamps = st.m_leading_timestamps ∧
        st1.m_type_mask.length = st.m_type_mask.length ∧
        (∀ j, st.m_type_mask.getD j 0 % 2 = 1 → st1.m_type_mask.getD j 0 % 2 = 1) ∧
        (∀ kc ∈ keys,
          st1.m_type_mask.getD (resolve_key st.m_column_info kc).index 0 % 2 = 1) := by
  intro keys
  induction keys with
  | nil =>
    intro st _ _
    exact ⟨st, rfl, rfl, by simp, rfl, rfl, rfl, fun _ h => h, by simp⟩
  | cons kc rest ih =>
    intro st hall hlen
    have hkc := hall kc (List.mem_cons_self _ _)
    obtain ⟨j, hj⟩ := Option.ne_none_iff_exists'.mp hkc
    have hjlt : j < st.m_column_info.length := by
      have := (find_family_some _ _ _ _ hj).2.1
      simpa using this
    obtain ⟨st1, e, a, b, c, d, m, keep, sets⟩ := ih
      { st with m_key_comps := st.m_key_comps ++ [{ (key_spec kc).1 with index := j }],
                m_type_mask := mask_or st.m_type_mask j ROW_KEY }
      (fun k hk => hall k (List.mem_cons_of_mem _ hk))
      (by simpa [mask_or_length] using hlen)
    have hres : resolve_key st.m_column_info kc = { (key_spec kc).1 with index := j } := by
      simp [resolve_key, hj]
    refine ⟨st1, ?_, a, ?_, c, d, ?_, ?_, ?_⟩
    · simp only [key_loop, hj]
      exact e
    · rw [b]
      simp [hres]
    · simpa [mask_or_length] using m
    · intro k hk
      exact keep k (mask_or_keeps _ _ _ _ hk)
    · intro k hk
      rcases List.mem_cons.mp hk with rfl | hk
      · rw [hres]
        exact keep j (mask_or_sets _ _ (by omega))
      · exact sets k hk

theorem key_loop_error :
    ∀ (keys : List Str) (st : LoadDataSource),
      (∃ kc ∈ keys, find_family (key_spec kc).2 st.m_column_info 0 = none) →
      ∃ name, key_loop keys st = .error (Error.KEY_COLUMN_NOT_FOUND name) ∧
        ∀ c ∈ st.m_column_info, c.family ≠ name := by
  intro keys
  induction keys with
  | nil => intro st h; simp at h
  | cons kc rest ih =>
    intro st h
    cases hj : find_family (key_spec kc).2 st.m_column_info 0 with
    | none =>
      refine ⟨(key_spec kc).2, ?_, (find_family_none _ _ _).mp hj⟩
      simp only [key_loop, hj]
    | some j =>
      have hrest : ∃ k ∈ rest, find_family (key_spec k).2 st.m_column_info 0 = none := by
        obtain ⟨k, hk, hn⟩ := h
        rcases List.mem_cons.mp hk with rfl | hk
        · rw [hj] at hn; cases hn
        · exact ⟨k, hk, hn⟩
      obtain ⟨name, e, hname⟩ := ih
        { st with m_key_comps := st.m_key_comps ++ [{ (key_spec kc).1 with index := j }],
                  m_type_mask := mask_or st.m_type_mask j ROW_KEY } hrest
      refine ⟨name, ?_, hname⟩
      simp only [key_loop, hj]
      exact e

/-! ## Dialect detection -/

theorem detect_hyperformat_fields (st : LoadDataSource) :
    (detect_hyperformat st).m_column_info = st.m_column_info ∧
    (detect_hyperformat st).m_key_comps = st.m_key_comps ∧
    (detect_hyperformat st).m_type_mask = st.m_type_mask := by
  unfold detect_hyperformat
  simp only
  split_ifs <;> exact ⟨rfl, rfl, rfl⟩

theorem detect_hyperformat_flags (st : LoadDataSource) (hh : st.m_hyperformat = false)
    (hl : st.m_leading_timestamps = false) :
    (detect_hyperformat st).m_hyperformat =
      (hyper3 (st.m_column_info.map (·.family)) || hyper4 (st.m_column_info.map (·.family))) ∧
    (detect_hyperformat st).m_leading_timestamps =
      hyper4 (st.m_column_info.map (·.family)) := by
  rcases hc : st.m_column_info with _ | ⟨a, _ | ⟨b, _ | ⟨c, _ | ⟨d, _ | ⟨e, r⟩⟩⟩⟩⟩
  · simp [detect_hyperformat, hc, hyper3, hyper4, hh, hl]
  · simp [detect_hyperformat, hc, hyper3, hyper4, hh, hl]
  · simp [detect_hyperformat, hc, hyper3, hyper4, hh, hl]
  · simp only [detect_hyperformat, hc, family_at, hyper3, hyper4]
    simp only [List.length_cons, List.length_nil, List.map]
    split_ifs <;> simp_all
  · simp only [detect_hyperformat, hc, family_at, hyper3, hyper4]
    simp only [List.length_cons, List.length_nil, List.map]
    split_ifs <;> simp_all
  · simp [detect_hyperformat, hc, hyper3, hyper4, hh, hl]

/-! ## `parse_header` as a whole -/

theorem default_key_fields (st : LoadDataSource) :
    (default_key st).m_column_info = st.m_column_info ∧
    (default_key st).m_hyperformat = st.m_hyperformat ∧
    (default_key st).m_leading_timestamps = st.m_leading_timestamps ∧
    (default_key st).m_key_comps =
      (if st.m_key_comps = [] then [KeyComponentInfo.clear] else st.m_key_comps) ∧
    (∀ j, st.m_type_mask.getD j 0 % 2 = 1 → (default_key st).m_type_mask.getD j 0 % 2 = 1) := by
  unfold default_key
  by_cases h : st.m_key_comps = []
  · have h2 : st.m_key_comps.isEmpty = true := by rw [h]; rfl
    rw [if_pos h2, if_pos h]
    refine ⟨rfl, rfl, rfl, ?_, fun j hj => mask_or_keeps _ _ _ _ hj⟩
    show st.m_key_comps ++ [KeyComponentInfo.clear] = [KeyComponentInfo.clear]
    rw [h]
    rfl
  · have h2 : ¬ st.m_key_comps.isEmpty = true := by
      cases hk : st.m_key_comps with
      | nil => exact absurd hk h
      | cons a l => simp
    rw [if_neg h2, if_neg h]
    exact ⟨rfl, rfl, rfl, rfl, fun j hj => hj⟩

theorem parse_header_too_many (st : LoadDataSource) (header : Str) (keys : List Str)
    (ts : Str) (h : 256 ≤ (header_tokens header).length) :
    parse_header st header keys ts = .error Error.TOO_MANY_COLUMNS := by
  unfold parse_header
  have e := column_loop_error ts (fields '\t' (header_base header)) 0
    { st with m_type_mask := List.replicate 257 0 } (fields_ne_nil _ _)
    (by simpa [header_tokens] using h)
  simp only [e]

/-- The three ways `parse_header` ends on a freshly opened object when the
header has fewer than 256 tokens. -/
theorem parse_header_opened (A : Int) (u : Nat) (d : Bool) (fin : IStream) (header : Str)
    (keys : List Str) (ts : Str) (h : (header_tokens header).length < 256) :
    ((∃ kc ∈ keys, find_family (key_spec kc).2 (header_columns header) 0 = none) ∧
      ∃ name, parse_header (LoadDataSource.opened A u d fin) header keys ts =
          .error (Error.KEY_COLUMN_NOT_FOUND name) ∧
        ∀ c ∈ header_columns header, c.family ≠ name) ∨
    ((∀ kc ∈ keys, find_family (key_spec kc).2 (header_columns header) 0 ≠ none) ∧
      (hyper3 (header_families header) || hyper4 (header_families header)) = false ∧
      (header_columns header).length < 2 ∧
      parse_header (LoadDataSource.opened A u d fin) header keys ts =
        .error Error.HQL_BAD_LOAD_FILE_FORMAT) ∨
    ((∀ kc ∈ keys, find_family (key_spec kc).2 (header_columns header) 0 ≠ none) ∧
      ¬ ((hyper3 (header_families header) || hyper4 (header_families header)) = false ∧
         (header_columns header).length < 2) ∧
      ∃ s, parse_header (LoadDataSource.opened A u d fin) header keys ts = .ok s ∧
        s.m_column_info = header_columns header ∧
        s.m_key_comps = (if keys = [] then [KeyComponentInfo.clear]
                         else keys.map (resolve_key (header_columns header))) ∧
        s.m_hyperformat = (hyper3 (header_families header) || hyper4 (header_families header)) ∧
        s.m_leading_timestamps = hyper4 (header_families header) ∧
        ∀ kc ∈ keys,
          s.m_type_mask.getD (resolve_key (header_columns header) kc).index 0 % 2 = 1) := by
  obtain ⟨st1, e1, c1, k1, h1, l1, m1⟩ := column_loop_ok ts (header_tokens header) 0
    { LoadDataSource.opened A u d fin with m_type_mask := List.replicate 257 0 }
    (by omega)
  have c1' : st1.m_column_info = header_columns header := by
    rw [c1]; exact List.nil_append _
  have k1' : st1.m_key_comps = [] := by
    rw [k1]; rfl
  have h1' : st1.m_hyperformat = false := by rw [h1]; rfl
  have l1' : st1.m_leading_timestamps = false := by rw [l1]; rfl
  have m1' : st1.m_type_mask.length = 257 := by rw [m1]; exact List.length_replicate 257 0
  simp only [header_tokens] at e1
  by_cases hmiss : ∃ kc ∈ keys, find_family (key_spec kc).2 (header_columns header) 0 = none
  · left
    refine ⟨hmiss, ?_⟩
    obtain ⟨name, e2, hname⟩ := key_loop_error keys st1 (by rw [c1']; exact hmiss)
    refine ⟨name, ?_, by rw [← c1']; exact hname⟩
    unfold parse_header
    simp only [e1, e2]
  · right
    have hall : ∀ kc ∈ keys, find_family (key_spec kc).2 (header_columns header) 0 ≠ none := by
      intro kc hk hn
      exact hmiss ⟨kc, hk, hn⟩
    have hlen : (header_columns header).length < 256 := by
      simpa [header_columns] using h
    obtain ⟨st2, e2, c2, k2, h2, l2, m2, keep2, sets2⟩ := key_loop_ok keys st1
      (by rw [c1']; exact hall) (by rw [c1', m1']; omega)
    rw [c1'] at c2 k2 sets2
    rw [k1', List.nil_append] at k2
    rw [h1'] at h2
    rw [l1'] at l2
    obtain ⟨dc, dh, dl, dk, dkeep⟩ := default_key_fields st2
    obtain ⟨fc, fk, fm⟩ := detect_hyperformat_fields (default_key st2)
    obtain ⟨fh, fl⟩ := detect_hyperformat_flags (default_key st2) (by rw [dh, h2])
      (by rw [dl, l2])
    rw [dc, c2] at fh fl fc
    have fh' : (detect_hyperformat (default_key st2)).m_hyperformat =
        (hyper3 (header_families header) || hyper4 (header_families header)) := fh
    have fl' : (detect_hyperformat (default_key st2)).m_leading_timestamps =
        hyper4 (header_families header) := fl
    by_cases hbad : (hyper3 (header_families header) || hyper4 (header_families header)) = false ∧
        (header_columns header).length < 2
    · left
      refine ⟨hall, hbad.1, hbad.2, ?_⟩
      unfold parse_header
      simp only [e1, e2]
      rw [if_pos]
      simp only [fh', fc, hbad.1, Bool.not_false, true_and]
      exact hbad.2
    · right
      refine ⟨hall, hbad, ?_⟩
      refine ⟨{ detect_hyperformat (default_key st2) with
          m_next_value := (detect_hyperformat (default_key st2)).m_column_info.length,
          m_limit := 0, m_cur_line := 1 }, ?_, fc, ?_, fh', fl', ?_⟩
      · unfold parse_header
        simp only [e1, e2]
        rw [if_neg]
        simp only [fh', fc]
        intro hb
        apply hbad
        refine ⟨?_, hb.2⟩
        have := hb.1
        simpa using this
      · show (detect_hyperformat (default_key st2)).m_key_comps = _
        rw [fk, dk, k2]
        by_cases hk : keys = []
        · simp [hk]
        · have : List.map (resolve_key (header_columns header)) keys ≠ [] := by
            simpa using hk
          rw [if_neg this, if_neg hk]
      · intro kc hk
        show (detect_hyperformat (default_key st2)).m_type_mask.getD _ 0 % 2 = 1
        rw [fm]
        exact dkeep _ (sets2 kc hk)

/-! ## The object `init` parses the header into -/

theorem init_loop_base :
    ∀ (n i : Nat) (fl : LoadDataSourceFileLocal),
      ∃ fin, (init_loop n i fl).base = { fl.base with m_fin := fin } := by
  intro n
  induction n with
  | zero => intro i fl; exact ⟨fl.base.m_fin, rfl⟩
  | succ n ih =>
    intro i fl
    simp only [init_loop]
    split
    · exact (ih (i + 1) _).imp (fun _ e => e)
    · exact (ih (i + 1) _).imp (fun _ e => e)

theorem init_src_base (fl : LoadDataSourceFileLocal) :
    ∃ fin, fl.init_src.base = { fl.base with m_fin := fin } := by
  obtain ⟨fin, e⟩ := init_loop_base (fl.num_parallel - 1) 1
    { fl with base := { fl.base with m_fin := { data := fl.source, pos := 0 } },
              cursors := fl.cursors.set 0 0, init_cursors := fl.init_cursors.set 0 0 }
  refine ⟨fin.seekg 0, ?_⟩
  dsimp only [LoadDataSourceFileLocal.init_src] at e ⊢
  rw [e]

theorem get_header_base (fl : LoadDataSourceFileLocal) :
    ∃ fin, fl.get_header.2.base = { fl.base with m_fin := fin } := by
  unfold LoadDataSourceFileLocal.get_header
  cases fl.header_file with
  | some hf => exact ⟨fl.base.m_fin, rfl⟩
  | none => exact ⟨_, rfl⟩

/-- The object `LoadDataSource::init` passes to `parse_header` is the freshly
constructed one with its stream opened. -/
theorem init_parses_opened (A : Int) (source : Str) (header_file : Option Str) (u : Nat)
    (d : Bool) (parallel : Nat) :
    ∃ fin, ((LoadDataSourceFileLocal.create A source header_file u d parallel).init_src
      |>.get_header).2.base = LoadDataSource.opened A u d fin := by
  obtain ⟨fin1, e1⟩ := init_src_base
    (LoadDataSourceFileLocal.create A source header_file u d parallel)
  obtain ⟨fin2, e2⟩ := get_header_base
    (LoadDataSourceFileLocal.create A source header_file u d parallel).init_src
  refine ⟨fin2, ?_⟩
  rw [e2, e1]
  rfl

/-! ## The claims about `parse_header` -/

/-- C3 (fails on the code): a timestamp-column name that equals no column family
of the header never makes `parse_header` fail; the call ends exactly as the same
call with no timestamp column named. -/
theorem absent_timestamp_column_is_ignored (st : LoadDataSource) (header : Str)
    (keys : List Str) (ts : Str) (h : ∀ c ∈ header_columns header, c.family ≠ ts) :
    parse_header st header keys ts = parse_header st header keys [] := by
  have e := column_loop_absent_timestamp ts (fields '\t' (header_base header)) 0
    { st with m_type_mask := List.replicate 257 0 }
    (fun tok ht => h (column_of tok) (List.mem_map_of_mem _ ht))
  unfold parse_header
  simp only [e]

set_option maxRecDepth 100000 in
/-- C3 at the header `a<TAB>b` with the timestamp column name `ts`:
`parse_header` returns a schema; its timestamp index is still -1 and no column
carries the timestamp role. -/
theorem absent_timestamp_column_is_ignored_witness :
    (∀ c ∈ header_columns (txt "a\tb"), c.family ≠ txt "ts") ∧
    parse_header (LoadDataSource.create 0 0 false) (txt "a\tb") [] (txt "ts") =
      parse_header (LoadDataSource.create 0 0 false) (txt "a\tb") [] [] ∧
    (match parse_header (LoadDataSource.create 0 0 false) (txt "a\tb") [] (txt "ts") with
     | .ok s => some (s.m_timestamp_index, s.m_column_info.length, s.m_type_mask.take 2)
     | .error _ => none) = some (-1, 2, [1, 0]) :=
  ⟨by decide!,
   absent_timestamp_column_is_ignored (LoadDataSource.create 0 0 false) (txt "a\tb") []
     (txt "ts") (by decide!),
   by decide!⟩

set_option maxRecDepth 100000 in
/-- C4 (as stated, fails): with the one-column header `a` and the key column
`a`, `parse_header` fails fatally (no columns specified) although the bare name
of every specifier equals a column family of the header. -/
theorem parse_header_fails_with_resolved_keys :
    parse_header (LoadDataSource.create 0 0 false) (txt "a") [txt "a"] [] =
      .error Error.HQL_BAD_LOAD_FILE_FORMAT ∧
    ∀ kc ∈ [txt "a"], ∃ c ∈ header_columns (txt "a"), c.family = (key_spec kc).2 := by
  decide!

/-- C4 (amended): for a header with at least 2 and fewer than 256 columns,
`parse_header` fails fatally exactly when the bare name of some specifier equals
no column family of the header; for any header it ends with the
key-column-not-found exit exactly when the header has fewer than 256 columns and
some bare name equals no column family; and when `parse_header` returns, the
`i`-th specifier has the `i`-th key component, whose index is the first header
column with the specifier's bare name as family, and the role mask of that
column has the `ROW_KEY` bit. -/
theorem key_columns_resolution (A : Int) (u : Nat) (d : Bool) (fin : IStream) (header : Str)
    (keys : List Str) (ts : Str) :
    (2 ≤ (header_tokens header).length → (header_tokens header).length < 256 →
      ((∃ e, parse_header (LoadDataSource.opened A u d fin) header keys ts = .error e) ↔
        ∃ kc ∈ keys, ∀ c ∈ header_columns header, c.family ≠ (key_spec kc).2)) ∧
    ((∃ name, parse_header (LoadDataSource.opened A u d fin) header keys ts =
        .error (Error.KEY_COLUMN_NOT_FOUND name)) ↔
      ((header_tokens header).length < 256 ∧
        ∃ kc ∈ keys, ∀ c ∈ header_columns header, c.family ≠ (key_spec kc).2)) ∧
    ∀ s, parse_header (LoadDataSource.opened A u d fin) header keys ts = .ok s →
      (keys ≠ [] → s.m_key_comps.length = keys.length) ∧
      ∀ i kc, keys.get? i = some kc →
        ∃ comp, s.m_key_comps.get? i = some comp ∧
          comp.index < s.m_column_info.length ∧
          family_at s.m_column_info comp.index = (key_spec kc).2 ∧
          (∀ j, j < comp.index → family_at s.m_column_info j ≠ (key_spec kc).2) ∧
          s.m_type_mask.getD comp.index 0 &&& ROW_KEY ≠ 0 := by
  have hlen : (header_columns header).length = (header_tokens header).length := by
    simp [header_columns]
  by_cases h : (header_tokens header).length < 256
  · rcases parse_header_opened A u d fin header keys ts h with
      ⟨⟨kc, hk, hn⟩, name, e, _⟩ | ⟨hall, _, hlt, e⟩ | ⟨hall, _, s, e, hc, hkc, _, _, hm⟩
    · have habs : ∃ kc ∈ keys, ∀ c ∈ header_columns header, c.family ≠ (key_spec kc).2 :=
        ⟨kc, hk, (find_family_none _ _ _).mp hn⟩
      refine ⟨fun _ _ => ⟨fun _ => habs, fun _ => ⟨_, e⟩⟩,
        ⟨fun _ => ⟨h, habs⟩, fun _ => ⟨name, e⟩⟩, ?_⟩
      intro s hs
      rw [e] at hs
      cases hs
    · refine ⟨?_, ⟨?_, ?_⟩, ?_⟩
      · intro h2 _
        omega
      · rintro ⟨name, hn⟩
        rw [e] at hn
        cases hn
      · rintro ⟨_, kc, hk, hn⟩
        exact absurd ((find_family_none _ _ _).mpr hn) (hall kc hk)
      · intro s hs
        rw [e] at hs
        cases hs
    · refine ⟨?_, ⟨?_, ?_⟩, ?_⟩
      · intro _ _
        constructor
        · rintro ⟨err, hn⟩
          rw [e] at hn
          cases hn
        · rintro ⟨kc, hk, hn⟩
          exact absurd ((find_family_none _ _ _).mpr hn) (hall kc hk)
      · rintro ⟨name, hn⟩
        rw [e] at hn
        cases hn
      · rintro ⟨_, kc, hk, hn⟩
        exact absurd ((find_family_none _ _ _).mpr hn) (hall kc hk)
      · intro s1 hs
        rw [e] at hs
        cases hs
        refine ⟨?_, ?_⟩
        · intro hne
          rw [hkc, if_neg hne, List.length_map]
        · intro i kc hi
          have hne : keys ≠ [] := by
            intro e0
            rw [e0] at hi
            simp at hi
          have hmem : kc ∈ keys := List.get?_mem hi
          obtain ⟨j, hj⟩ := Option.ne_none_iff_exists'.mp (hall kc hmem)
          obtain ⟨_, p2, p3, p4⟩ := find_family_some _ _ _ _ hj
          have hidx : (resolve_key (header_columns header) kc).index = j := by
            simp [resolve_key, hj]
          refine ⟨resolve_key (header_columns header) kc, ?_, ?_, ?_, ?_, ?_⟩
          · rw [hkc, if_neg hne, List.get?_eq_getElem?, List.getElem?_map,
              ← List.get?_eq_getElem?, hi]
            rfl
          · rw [hidx, hc]
            simpa using p2
          · rw [hidx, hc]
            simpa using p3
          · rw [hidx, hc]
            intro j1 hj1
            exact p4 j1 (by simpa using hj1)
          · exact (row_key_bit _).mpr (hm kc hmem)
  · have e := parse_header_too_many (LoadDataSource.opened A u d fin) header keys ts (by omega)
    refine ⟨fun _ hh => absurd hh h, ⟨?_, fun hh => absurd hh.1 h⟩, ?_⟩
    · rintro ⟨name, hn⟩
      rw [e] at hn
      cases hn
    · intro s hs
      rw [e] at hs
      cases hs

set_option maxRecDepth 100000 in
/-- The amended C4 at the header `id<TAB>name:first<TAB>id` with the key column
`%05id`: the component points at column 0, the first of the two `id` columns,
and with the key column `nope` the call fails. -/
theorem key_columns_resolution_witness :
    (2 ≤ (header_tokens (txt "id\tname:first\tid")).length ∧
      (header_tokens (txt "id\tname:first\tid")).length < 256) ∧
    ((∃ e, parse_header (LoadDataSource.opened 0 0 false { data := [], pos := 0 })
        (txt "id\tname:first\tid") [txt "nope"] [] = .error e) ↔
      ∃ kc ∈ [txt "nope"], ∀ c ∈ header_columns (txt "id\tname:first\tid"),
        c.family ≠ (key_spec kc).2) ∧
    parse_header (LoadDataSource.opened 0 0 false { data := [], pos := 0 })
        (txt "id\tname:first\tid") [txt "nope"] [] =
      .error (Error.KEY_COLUMN_NOT_FOUND (txt "nope")) ∧
    parse_header (LoadDataSource.opened 0 0 false { data := [], pos := 0 })
        (txt "id\tname:first\tid") [txt "%05id"] [] = .ok schema_id_name ∧
    ((txt "%05id" :: []) ≠ [] → schema_id_name.m_key_comps.length = 1) ∧
    ∀ i kc, [txt "%05id"].get? i = some kc →
      ∃ comp, schema_id_name.m_key_comps.get? i = some comp ∧
        comp.index < schema_id_name.m_column_info.length ∧
        family_at schema_id_name.m_column_info comp.index = (key_spec kc).2 ∧
        (∀ j, j < comp.index → family_at schema_id_name.m_column_info j ≠ (key_spec kc).2) ∧
        schema_id_name.m_type_mask.getD comp.index 0 &&& ROW_KEY ≠ 0 :=
  ⟨by decide!,
   (key_columns_resolution 0 0 false { data := [], pos := 0 } (txt "id\tname:first\tid")
      [txt "nope"] []).1 (by decide!) (by decide!),
   by decide!, by decide!,
   (key_columns_resolution 0 0 false { data := [], pos := 0 } (txt "id\tname:first\tid")
      [txt "%05id"] []).2.2 schema_id_name (by decide!)⟩

/-- C5: for a header with fewer than 256 tab-separated tokens the column loop of
`parse_header` runs to its end and leaves a column list with one entry per
token, in order: the token's part before its first `:` as family and the part
after it as qualifier (empty when the token has no `:`); this is the column list
of the schema whenever `parse_header` returns one.  The tokens are the tab-free
pieces of the header text (its leading `#` and the white space behind it
removed): joined by tabs they give that text back. -/
theorem columns_follow_header_tokens (A : Int) (u : Nat) (d : Bool) (fin : IStream)
    (header : Str) (keys : List Str) (ts : Str) (h : (header_tokens header).length < 256) :
    (∃ st1, column_loop ts (header_tokens header) 0
        { LoadDataSource.opened A u d fin with m_type_mask := List.replicate 257 0 } = .ok st1 ∧
      st1.m_column_info.length = (header_tokens header).length ∧
      st1.m_column_info = (header_tokens header).map
        (fun tok => { family := before_colon tok, qualifier := after_colon tok })) ∧
    parse_header (LoadDataSource.opened A u d fin) header keys ts ≠
      .error Error.TOO_MANY_COLUMNS ∧
    ((∀ tok ∈ header_tokens header, '\t' ∉ tok) ∧
      List.intercalate ['\t'] (header_tokens header) = header_base header) ∧
    ∀ s, parse_header (LoadDataSource.opened A u d fin) header keys ts = .ok s →
      s.m_column_info.length = (header_tokens header).length ∧
      s.m_column_info = (header_tokens header).map
        (fun tok => { family := before_colon tok, qualifier := after_colon tok }) := by
  have hcols : header_columns header = (header_tokens header).map
      (fun tok => { family := before_colon tok, qualifier := after_colon tok }) := by
    unfold header_columns
    apply List.map_congr_left
    intro tok _
    exact column_of_eq tok
  have htok : (∀ tok ∈ header_tokens header, '\t' ∉ tok) ∧
      List.intercalate ['\t'] (header_tokens header) = header_base header :=
    ⟨fields_no_sep '\t' (header_base header), fields_join '\t' (header_base header)⟩
  have hloop : ∃ st1, column_loop ts (header_tokens header) 0
        { LoadDataSource.opened A u d fin with m_type_mask := List.replicate 257 0 } = .ok st1 ∧
      st1.m_column_info.length = (header_tokens header).length ∧
      st1.m_column_info = (header_tokens header).map
        (fun tok => { family := before_colon tok, qualifier := after_colon tok }) := by
    obtain ⟨st1, e1, c1, _⟩ := column_loop_ok ts (header_tokens header) 0
      { LoadDataSource.opened A u d fin with m_type_mask := List.replicate 257 0 } (by omega)
    have c1' : st1.m_column_info = header_columns header := by
      rw [c1]; exact List.nil_append _
    refine ⟨st1, e1, ?_, ?_⟩
    · rw [c1']; simp [header_columns]
    · rw [c1', hcols]
  rcases parse_header_opened A u d fin header keys ts h with
    ⟨_, name, e, _⟩ | ⟨_, _, _, e⟩ | ⟨_, _, s, e, hc, _⟩
  · rw [e]
    exact ⟨hloop, by simp, htok, fun s hs => by cases hs⟩
  · rw [e]
    exact ⟨hloop, by simp, htok, fun s hs => by cases hs⟩
  · rw [e]
    refine ⟨hloop, by simp, htok, ?_⟩
    intro s1 hs
    cases hs
    rw [hc, hcols]
    exact ⟨by simp, rfl⟩

set_option maxRecDepth 100000 in
/-- C5 at the header `#  id<TAB>name:first<TAB>id`. -/
theorem columns_follow_header_tokens_witness :
    (header_tokens (txt "#  id\tname:first\tid")).length < 256 ∧
    parse_header (LoadDataSource.opened 0 0 false { data := [], pos := 0 })
        (txt "#  id\tname:first\tid") [txt "%05id"] [] = .ok schema_id_name ∧
    schema_id_name.m_column_info.length = (header_tokens (txt "#  id\tname:first\tid")).length ∧
    schema_id_name.m_column_info = (header_tokens (txt "#  id\tname:first\tid")).map
      (fun tok => { family := before_colon tok, qualifier := after_colon tok }) :=
  ⟨by decide!, by decide!,
   (columns_follow_header_tokens 0 0 false { data := [], pos := 0 }
      (txt "#  id\tname:first\tid") [txt "%05id"] [] (by decide!)).2.2.2 schema_id_name
      (by decide!)⟩

/-- C6: in the schema `parse_header` returns, `m_hyperformat` is set exactly when
the column families are `[row|rowkey, column|columnkey, value]` or
`[timestamp, row|rowkey, column|columnkey, value]`, and `m_leading_timestamps`
exactly in the second case. -/
theorem hyperformat_detection (A : Int) (u : Nat) (d : Bool) (fin : IStream)
    (header : Str) (keys : List Str) (ts : Str) (s : LoadDataSource)
    (hs : parse_header (LoadDataSource.opened A u d fin) header keys ts = .ok s) :
    (s.m_hyperformat = true ↔
      (hyper3 (s.m_column_info.map (·.family)) = true ∨
       hyper4 (s.m_column_info.map (·.family)) = true)) ∧
    (s.m_leading_timestamps = true ↔ hyper4 (s.m_column_info.map (·.family)) = true) := by
  by_cases h : (header_tokens header).length < 256
  · rcases parse_header_opened A u d fin header keys ts h with
      ⟨_, name, e, _⟩ | ⟨_, _, _, e⟩ | ⟨_, _, s1, e, hc, _, hh, hl, _⟩
    · rw [e] at hs; cases hs
    · rw [e] at hs; cases hs
    · rw [e] at hs
      cases hs
      rw [hh, hl, hc]
      simp [header_families]
  · rw [parse_header_too_many _ header keys ts (by omega)] at hs
    cases hs

set_option maxRecDepth 100000 in
/-- C6 at the header `row<TAB>column<TAB>value`. -/
theorem hyperformat_detection_witness :
    parse_header (LoadDataSource.opened 0 0 false { data := [], pos := 0 })
        (txt "row\tcolumn\tvalue") [] [] = .ok schema_row_column_value ∧
    (schema_row_column_value.m_hyperformat = true ↔
      (hyper3 (schema_row_column_value.m_column_info.map (·.family)) = true ∨
       hyper4 (schema_row_column_value.m_column_info.map (·.family)) = true)) ∧
    (schema_row_column_value.m_leading_timestamps = true ↔
      hyper4 (schema_row_column_value.m_column_info.map (·.family)) = true) :=
  ⟨by decide!,
   hyperformat_detection 0 0 false { data := [], pos := 0 } (txt "row\tcolumn\tvalue") [] []
     schema_row_column_value (by decide!)⟩

/-- C7: `parse_header` raises `TOO_MANY_COLUMNS` exactly when the header has 256
or more tab-separated columns. -/
theorem too_many_columns_iff (A : Int) (u : Nat) (d : Bool) (fin : IStream)
    (header : Str) (keys : List Str) (ts : Str) :
    parse_header (LoadDataSource.opened A u d fin) header keys ts =
      .error Error.TOO_MANY_COLUMNS ↔ 256 ≤ (header_tokens header).length := by
  constructor
  · intro e
    by_contra hlt
    rcases parse_header_opened A u d fin header keys ts (by omega) with
      ⟨_, name, e1, _⟩ | ⟨_, _, _, e1⟩ | ⟨_, _, s, e1, _⟩ <;>
    · rw [e1] at e
      cases e
  · exact parse_header_too_many _ header keys ts

/-- C8: when the bare name of every key-column specifier is a column family of
the header, `parse_header` throws `No columns specified in load file` exactly
when the layout is not hyperformat and the header has fewer than 2 columns. -/
theorem no_columns_iff (A : Int) (u : Nat) (d : Bool) (fin : IStream)
    (header : Str) (keys : List Str) (ts : Str)
    (hres : ∀ kc ∈ keys, ∃ c ∈ header_columns header, c.family = (key_spec kc).2) :
    parse_header (LoadDataSource.opened A u d fin) header keys ts =
      .error Error.HQL_BAD_LOAD_FILE_FORMAT ↔
    ((hyper3 (header_families header) || hyper4 (header_families header)) = false ∧
      (header_columns header).length < 2) := by
  by_cases h : (header_tokens header).length < 256
  · rcases parse_header_opened A u d fin header keys ts h with
      ⟨⟨kc, hk, hn⟩, _⟩ | ⟨_, h1, h2, e⟩ | ⟨_, hnot, s, e, _⟩
    · obtain ⟨c, hc, hf⟩ := hres kc hk
      exact absurd hf ((find_family_none _ _ _).mp hn c hc)
    · rw [e]
      exact ⟨fun _ => ⟨h1, h2⟩, fun _ => rfl⟩
    · rw [e]
      exact ⟨fun hh => (nomatch hh), fun hh => absurd hh hnot⟩
  · rw [parse_header_too_many _ header keys ts (by omega)]
    constructor
    · intro hh; cases hh
    · rintro ⟨_, h2⟩
      have : (header_columns header).length = (header_tokens header).length := by
        simp [header_columns]
      omega

set_option maxRecDepth 100000 in
/-- C8 at the one-column header `a` with the key column `a`. -/
theorem no_columns_iff_witness :
    (∀ kc ∈ [txt "a"], ∃ c ∈ header_columns (txt "a"), c.family = (key_spec kc).2) ∧
    (parse_header (LoadDataSource.opened 0 0 false { data := [], pos := 0 }) (txt "a")
        [txt "a"] [] = .error Error.HQL_BAD_LOAD_FILE_FORMAT ↔
      ((hyper3 (header_families (txt "a")) || hyper4 (header_families (txt "a"))) = false ∧
        (header_columns (txt "a")).length < 2)) :=
  ⟨by decide!,
   no_columns_iff 0 0 false { data := [], pos := 0 } (txt "a") [txt "a"] [] (by decide!)⟩

/-! ## The key-column specifier -/

theorem isdigit_range (c : Char) (h : isdigit c = true) : 48 ≤ c.toNat ∧ c.toNat ≤ 57 := by
  simpa [isdigit] using h

theorem isdigit_ne (c x : Char) (h : isdigit c = true) (hx : x.toNat < 48 ∨ 57 < x.toNat) :
    c ≠ x := by
  intro e
  subst e
  have := isdigit_range c h
  omega

theorem isdigit_not_space (c : Char) (h : isdigit c = true) : isspace c = false := by
  have h1 := isdigit_ne c ' ' h (by decide)
  have h2 := isdigit_ne c '\t' h (by decide)
  have h3 := isdigit_ne c '\n' h (by decide)
  have h4 := isdigit_ne c (Char.ofNat 11) h (by decide)
  have h5 := isdigit_ne c (Char.ofNat 12) h (by decide)
  have h6 := isdigit_ne c '\r' h (by decide)
  simp [isspace, h1, h2, h3, h4, h5, h6]

theorem digit_run_append (name : Str) (hn : ∀ c, name.head? = some c → isdigit c = false) :
    ∀ ds : Str, (∀ c ∈ ds, isdigit c = true) →
      digit_run (ds ++ name) = ds ∧ skip_digits (ds ++ name) = name := by
  intro ds
  induction ds with
  | nil =>
    intro _
    cases name with
    | nil => exact ⟨rfl, rfl⟩
    | cons c cs =>
      have := hn c rfl
      simp [digit_run, skip_digits, this]
  | cons d ds ih =>
    intro h
    have hd := h d (List.mem_cons_self _ _)
    obtain ⟨a, b⟩ := ih (fun c hc => h c (List.mem_cons_of_mem _ hc))
    simp [digit_run, skip_digits, hd, a, b]

theorem c_str_nul_free : ∀ s : Str, (∀ c ∈ s, c ≠ NUL) → c_str s = s := by
  intro s
  induction s with
  | nil => intro _; rfl
  | cons c cs ih =>
    intro h
    have hc := h c (List.mem_cons_self _ _)
    simp [c_str, hc, ih (fun x hx => h x (List.mem_cons_of_mem _ hx))]

theorem strtol_digits (d : Char) (ds name : Str) (hd : isdigit d = true)
    (hds : ∀ c ∈ ds, isdigit c = true) (hn : ∀ c, name.head? = some c → isdigit c = false) :
    strtol (d :: (ds ++ name)) =
      (max (-(2 : Int) ^ 63) (min ((digits_value (d :: ds) : Nat) : Int) ((2 : Int) ^ 63 - 1)),
       ds.length + 1) := by
  have hsp : skip_space (d :: (ds ++ name)) = d :: (ds ++ name) := by
    simp [skip_space, isdigit_not_space d hd]
  have hm : d ≠ '-' := isdigit_ne d '-' hd (by decide)
  have hp : d ≠ '+' := isdigit_ne d '+' hd (by decide)
  have hrun : digit_run (d :: (ds ++ name)) = d :: ds := by
    have := (digit_run_append name hn (d :: ds) (by
      intro c hc
      rcases List.mem_cons.mp hc with rfl | hc
      · exact hd
      · exact hds c hc)).1
    simpa using this
  unfold strtol
  simp only [hsp]
  have hneg : has_minus (d :: (ds ++ name)) = false := by
    unfold has_minus
    split
    · rename_i heq
      exact absurd (List.cons.inj heq).1 hm
    · rfl
  have hs2 : skip_sign (d :: (ds ++ name)) = d :: (ds ++ name) := by
    unfold skip_sign
    split
    · rename_i heq
      exact absurd (List.cons.inj heq).1 hm
    · rename_i heq
      exact absurd (List.cons.inj heq).1 hp
    · rfl
  rw [hneg, hs2, hrun]
  simp

theorem atoi_digits (d : Char) (ds name : Str) (hd : isdigit d = true)
    (hds : ∀ c ∈ ds, isdigit c = true) (hn : ∀ c, name.head? = some c → isdigit c = false)
    (hw : digits_value (d :: ds) < 2 ^ 31) :
    atoi (d :: (ds ++ name)) = (digits_value (d :: ds) : Nat) := by
  unfold atoi to_int32
  rw [strtol_digits d ds name hd hds hn]
  simp only
  omega

/-- C9: the key-column specifier mini-language as `parse_header` resolves it.
`\%name` names the column `%name`, unpadded; `%0<digits><name>` gives the width
the digits denote, pad character `0`, right-justified; `%-<digits><name>` gives
that width, pad character space, left-justified; `%<digits><name>` (digits not
starting with `0`) gives that width, pad character space, right-justified; a
bare name (no leading `%` or `\%`) is unpadded; the bare name is `<name>` in each
case.  `<digits>` is `d :: ds`, a nonempty digit run whose value fits an `int`;
`<name>` does not start with a digit and has no NUL byte.  In the schema
`parse_header` returns, the component of each specifier carries these settings
and the index of the first column whose family is the bare name. -/
theorem key_specifier_forms (d : Char) (ds name esc bare : Str) (hd : isdigit d = true)
    (hds : ∀ c ∈ ds, isdigit c = true) (hn : ∀ c, name.head? = some c → isdigit c = false)
    (hnul : ∀ c ∈ name, c ≠ NUL) (hw : digits_value (d :: ds) < 2 ^ 31)
    (hb1 : starts_with bare ['%'] = false) (hb2 : starts_with bare ['\\', '%'] = false) :
    key_spec ('\\' :: '%' :: esc) =
      ({ index := 0, width := 0, left_justify := false, pad_character := ' ' },
       '%' :: esc) ∧
    key_spec ('%' :: '0' :: (d :: (ds ++ name))) =
      ({ index := 0, width := (digits_value (d :: ds) : Nat), left_justify := false,
         pad_character := '0' }, name) ∧
    key_spec ('%' :: '-' :: (d :: (ds ++ name))) =
      ({ index := 0, width := (digits_value (d :: ds) : Nat), left_justify := true,
         pad_character := ' ' }, name) ∧
    (d ≠ '0' → key_spec ('%' :: (d :: (ds ++ name))) =
      ({ index := 0, width := (digits_value (d :: ds) : Nat), left_justify := false,
         pad_character := ' ' }, name)) ∧
    key_spec bare =
      ({ index := 0, width := 0, left_justify := false, pad_character := ' ' }, bare) ∧
    ∀ (A : Int) (u : Nat) (b : Bool) (fin : IStream) (header : Str) (keys : List Str)
      (ts : Str) (s : LoadDataSource),
      parse_header (LoadDataSource.opened A u b fin) header keys ts = .ok s →
      ∀ i kc, keys.get? i = some kc →
        ∃ j, find_family (key_spec kc).2 s.m_column_info 0 = some j ∧
          s.m_key_comps.get? i = some { (key_spec kc).1 with index := j } := by
  have hdn : ∀ c ∈ d :: (ds ++ name), c ≠ NUL := by
    intro c hc
    rcases List.mem_cons.mp hc with rfl | hc
    · exact isdigit_ne _ NUL hd (by decide)
    · rcases List.mem_append.mp hc with hc | hc
      · exact isdigit_ne _ NUL (hds c hc) (by decide)
      · exact hnul c hc
  have hcs : c_str (d :: (ds ++ name)) = d :: (ds ++ name) := c_str_nul_free _ hdn
  have hat := atoi_digits d ds name hd hds hn hw
  have hsk : skip_digits (d :: (ds ++ name)) = name := by
    have := (digit_run_append name hn (d :: ds) (by
      intro c hc
      rcases List.mem_cons.mp hc with rfl | hc
      · exact hd
      · exact hds c hc)).2
    simpa using this
  have hm : d ≠ '-' := isdigit_ne d '-' hd (by decide)
  refine ⟨?_, ?_, ?_, ?_, ?_, ?_⟩
  · simp [key_spec, starts_with, substr, KeyComponentInfo.clear]
  · simp [key_spec, starts_with, substr, KeyComponentInfo.clear, hcs, hat, hsk]
  · simp [key_spec, starts_with, substr, KeyComponentInfo.clear, hcs, hat, hsk]
  · intro h0
    simp [key_spec, starts_with, substr, KeyComponentInfo.clear, hcs, hat, hsk, h0, hm]
  · have hb3 : starts_with bare ['%', '0'] = false := by
      cases bare with
      | nil => rfl
      | cons c cs =>
        simp only [starts_with, Bool.and_true, decide_eq_false_iff_not] at hb1
        simp [starts_with, hb1]
    have hb4 : starts_with bare ['%', '-'] = false := by
      cases bare with
      | nil => rfl
      | cons c cs =>
        simp only [starts_with, Bool.and_true, decide_eq_false_iff_not] at hb1
        simp [starts_with, hb1]
    simp [key_spec, hb1, hb2, hb3, hb4, KeyComponentInfo.clear]
  · intro A u b fin header keys ts s hs i kc hi
    by_cases h : (header_tokens header).length < 256
    · rcases parse_header_opened A u b fin header keys ts h with
        ⟨_, name, e, _⟩ | ⟨_, _, _, e⟩ | ⟨hall, _, s1, e, hc, hkc, _⟩
      · rw [e] at hs; cases hs
      · rw [e] at hs; cases hs
      · rw [e] at hs
        cases hs
        have hne : keys ≠ [] := by
          intro e0
          rw [e0] at hi
          simp at hi
        obtain ⟨j, hj⟩ := Option.ne_none_iff_exists'.mp (hall kc (List.get?_mem hi))
        refine ⟨j, by rw [hc]; exact hj, ?_⟩
        rw [hkc, if_neg hne, List.get?_eq_getElem?, List.getElem?_map,
          ← List.get?_eq_getElem?, hi]
        simp [resolve_key, hj]
    · rw [parse_header_too_many _ header keys ts (by omega)] at hs
      cases hs

set_option maxRecDepth 100000 in
/-- C9 at the digits `12`, the name `id`, the escaped name `pct` and the bare
name `id`, with the schema of the header `id<TAB>name:first<TAB>id`. -/
theorem key_specifier_forms_witness :
    key_spec (txt "\\%pct") =
      ({ index := 0, width := 0, left_justify := false, pad_character := ' ' }, txt "%pct") ∧
    key_spec (txt "%012id") =
      ({ index := 0, width := 12, left_justify := false, pad_character := '0' }, txt "id") ∧
    key_spec (txt "%-12id") =
      ({ index := 0, width := 12, left_justify := true, pad_character := ' ' }, txt "id") ∧
    key_spec (txt "%12id") =
      ({ index := 0, width := 12, left_justify := false, pad_character := ' ' }, txt "id") ∧
    key_spec (txt "id") =
      ({ index := 0, width := 0, left_justify := false, pad_character := ' ' }, txt "id") ∧
    ∃ j, find_family (key_spec (txt "%05id")).2 schema_id_name.m_column_info 0 = some j ∧
      schema_id_name.m_key_comps.get? 0 = some { (key_spec (txt "%05id")).1 with index := j } :=
  have h := key_specifier_forms '1' (txt "2") (txt "id") (txt "pct") (txt "id")
    (by decide) (by decide) (by decide) (by decide) (by decide) (by decide) (by decide)
  ⟨h.1, h.2.1, h.2.2.1, h.2.2.2.1 (by decide), h.2.2.2.2.1,
   h.2.2.2.2.2 0 0 false { data := [], pos := 0 } (txt "id\tname:first\tid")
     [txt "%05id"] [] schema_id_name (by decide!) 0 (txt "%05id") rfl⟩

/-! ## The row key component -/

/-- C10: for a key component of width `w` (an `int`, so below `2^31`), pad
character `c` and justify flag, and a present source value `v`,
`add_row_component` returns `true` and appends to the row key buffer exactly `v`
preceded by `w - |v|` copies of `c` when `|v| < w` and right-justified, `v`
followed by them when left-justified, and `v` itself when `|v| >= w`. -/
theorem add_row_component_pads (st : LoadDataSource) (index : Nat) (kc : KeyComponentInfo)
    (v : Str) (w : Nat) (hk : st.m_key_comps.get? index = some kc)
    (hv : st.m_values.get? kc.index = some (some v)) (hw : kc.width = (w : Int))
    (hw2 : w < 2 ^ 31) :
    add_row_component st index =
      .ok (true, { st with m_row_key_buffer :=
        st.m_row_key_buffer ++ padded w kc.pad_character kc.left_justify v }) ∧
    (v.length < w → kc.left_justify = false →
      padded w kc.pad_character kc.left_justify v =
        List.replicate (w - v.length) kc.pad_character ++ v) ∧
    (v.length < w → kc.left_justify = true →
      padded w kc.pad_character kc.left_justify v =
        v ++ List.replicate (w - v.length) kc.pad_character) ∧
    (w ≤ v.length → padded w kc.pad_character kc.left_justify v = v) := by
  have hsz : to_size_t kc.width = w := by
    unfold to_size_t
    rw [hw]
    omega
  refine ⟨?_, ?_, ?_, ?_⟩
  · unfold add_row_component
    simp only [hk, hv, hsz]
    by_cases hlt : v.length < w
    · have hgt : w > v.length := hlt
      by_cases hl : kc.left_justify = true
      · simp [padded, hlt, hl, hgt]
      · simp [padded, hlt, hl, hgt]
    · have hgt : ¬ w > v.length := hlt
      simp [padded, hlt, hgt]
  · intro hlt hl
    simp [padded, hlt, hl]
  · intro hlt hl
    simp [padded, hlt, hl]
  · intro hge
    have : ¬ v.length < w := by omega
    simp [padded, this]

set_option maxRecDepth 100000 in
/-- C10 at the value `42`: zero-pad width 5 gives `00042`, left-justify width 5
gives `42` followed by three spaces, no width gives `42`. -/
theorem add_row_component_pads_witness :
    add_row_component
        (row_key_state { index := 0, width := 5, left_justify := false, pad_character := '0' }
          (txt "42")) 0 =
      .ok (true,
        { row_key_state { index := 0, width := 5, left_justify := false, pad_character := '0' }
            (txt "42") with m_row_key_buffer := txt "00042" }) ∧
    add_row_component
        (row_key_state { index := 0, width := 5, left_justify := true, pad_character := ' ' }
          (txt "42")) 0 =
      .ok (true,
        { row_key_state { index := 0, width := 5, left_justify := true, pad_character := ' ' }
            (txt "42") with m_row_key_buffer := txt "42   " }) ∧
    add_row_component
        (row_key_state { index := 0, width := 0, left_justify := false, pad_character := ' ' }
          (txt "42")) 0 =
      .ok (true,
        { row_key_state { index := 0, width := 0, left_justify := false, pad_character := ' ' }
            (txt "42") with m_row_key_buffer := txt "42" }) :=
  ⟨(add_row_component_pads
      (row_key_state { index := 0, width := 5, left_justify := false, pad_character := '0' }
        (txt "42")) 0 _ (txt "42") 5 rfl rfl rfl (by decide)).1,
   (add_row_component_pads
      (row_key_state { index := 0, width := 5, left_justify := true, pad_character := ' ' }
        (txt "42")) 0 _ (txt "42") 5 rfl rfl rfl (by decide)).1,
   (add_row_component_pads
      (row_key_state { index := 0, width := 0, left_justify := false, pad_character := ' ' }
        (txt "42")) 0 _ (txt "42") 0 rfl rfl rfl (by decide)).1⟩

/-! ## Narrow mode on single lines -/

set_option maxRecDepth 100000 in
/-- C11 (fails on the code): with header `a<TAB>b<TAB>k`, key column `k` and the
one-field line `x`, the key component's source value lies beyond the fields of
the line; `add_row_component` subscripts `m_values` with 2 before its range
check, a read outside the vector, instead of dropping the line. -/
theorem key_component_beyond_fields_is_read :
    plain_results 0 (fun _ => []) (txt "a\tb\tk\nx\n") 0 false [txt "k"] [] 1 =
      some (.error Fault.OUT_OF_RANGE) := by
  decide!

set_option maxRecDepth 100000 in
/-- C13 (fails on the code): with header `k<TAB>t<TAB>a`, key column `k`,
timestamp column `t` and the line `r<TAB>NULL<TAB>x`, the `continue` on the null
timestamp field only leaves the tab walk; the line is kept with the values
`[r, null]` and `parse_date_format` is called on the null pointer. -/
theorem null_timestamp_field_is_parsed :
    plain_results 0 (fun _ => []) (txt "k\tt\ta\nr\tNULL\tx\n") 0 false [txt "k"] (txt "t") 1 =
      some (.error Fault.NULL_POINTER) ∧
    tokenize [1, 2, 0] (fields '\t' (txt "r\tNULL\tx")) 0 [] = .ok [some (txt "r"), none] := by
  decide!

set_option maxRecDepth 100000 in
/-- C14 (fails on the code): with header `k<TAB>a<TAB>b` and the line
`r<TAB>x<TAB>` (the field of the plain column `b` is empty), `boost::trim`
removes the trailing tab with the white space of the line, the line is
tokenised into two fields, and no record is returned for column `b`: the load
yields the single record `(r, a, x)`.  The same field spelled `NULL` does yield
the null record. -/
theorem trailing_empty_field_yields_no_record :
    plain_run 0 (fun _ => []) (txt "k\ta\tb\nr\tx\t\n") 0 false [] [] 4 =
      some ([cell_of "r" "a" 0 (some "x")], true) ∧
    plain_run 0 (fun _ => []) (txt "k\ta\tb\nr\tx\tNULL\n") 0 false [] [] 4 =
      some ([cell_of "r" "a" 0 (some "x"), cell_of "r" "b" 0 none], true) := by
  decide!

/-! ## Hyperformat timestamps -/

set_option maxRecDepth 100000 in
/-- C18 (fails on the code): with header
`timestamp<TAB>row<TAB>column<TAB>value` and the line
`<TAB>r<TAB>c<TAB>v`, whose timestamp field is empty, `strtoll` consumes nothing
and `*endptr` is the terminator: the line is not skipped, a record with
timestamp 0 is returned. -/
theorem empty_leading_timestamp_is_accepted :
    plain_run 5 (fun _ => []) (txt "timestamp\trow\tcolumn\tvalue\n\tr\tc\tv\n") 0 false [] [] 4 =
      some ([{ row := txt "r", column_family := txt "c", column_qualifier := none,
               timestamp := 0, value := some (txt "v") }], true) := by
  decide!

/-! ## Segment cursors -/

set_option maxRecDepth 100000 in
/-- C20 (fails on the code): with parallelism 2 over a narrow file whose first
data line is blank, the boundary of segment 0 is 15.  The first call reads the
blank line and the line `r1`, and the cursor of segment 0 advances by the length
of `r1` only; it stays one byte behind (9, 14), is 14 where the boundary is 15,
and the fifth call, which reads on into segment 1, leaves it at 19, beyond the
boundary, without it ever having been equal to it. -/
theorem segment_cursor_passes_boundary :
    (List.range 6).map (fun n =>
      cursors_after 0 (fun _ => []) file_with_blank_line false 2 [] [] n) =
      [some ([4, 15], [0, 15]), some ([9, 15], [0, 15]), some ([9, 20], [0, 15]),
       some ([14, 20], [0, 15]), some ([14, 25], [0, 15]), some ([19, 25], [0, 15])] ∧
    line_starts file_with_blank_line = [0, 4, 5, 10, 15, 20] := by
  decide!

/-! ## Byte accounting -/

theorem line_bytes_append (ls : List Str) (l : Str) :
    line_bytes (ls ++ [l]) = line_bytes ls + (l.length + 1) := by
  simp [line_bytes]

theorem progress_read_consumed (pr : Progress) (line : Str)
    (h : pr.consumed = line_bytes pr.lines_read % 2 ^ 32) :
    (pr.read line).consumed = line_bytes (pr.read line).lines_read % 2 ^ 32 := by
  simp only [Progress.read, line_bytes_append, h]
  omega

theorem hyper_loop_consumed (A : Int) (rsgen : Nat → Str) :
    ∀ (lines : List Str) (calls : Nat) (pr : Progress) (st : LoadDataSource),
      pr.consumed = line_bytes pr.lines_read % 2 ^ 32 →
      (hyper_loop A rsgen lines calls pr st).1.consumed =
        line_bytes (hyper_loop A rsgen lines calls pr st).1.lines_read % 2 ^ 32 ∧
      (hyper_loop A rsgen lines calls pr st).1.consumed_line =
        (hyper_loop A rsgen lines calls pr st).1.lines_read.getLastD [] := by
  intro lines
  induction lines with
  | nil =>
    intro calls pr st h
    exact ⟨h, rfl⟩
  | cons line rest ih =>
    intro calls pr st h
    have h1 := progress_read_consumed pr line h
    simp only [hyper_loop]
    rcases hl : hyper_line A rsgen calls (st.read line) line with ⟨_ | c, calls1⟩
    · exact ih calls1 (pr.read line) (st.read line) h1
    · refine ⟨h1, ?_⟩
      simp [NextResult.found, Progress.read]

theorem narrow_loop_consumed (A : Int) (rsgen : Nat → Str) :
    ∀ (lines : List Str) (calls : Nat) (pr : Progress) (st : LoadDataSource)
      (r : NextResult) (st1 : LoadDataSource) (c1 : Nat),
      pr.consumed = line_bytes pr.lines_read % 2 ^ 32 →
      narrow_loop A rsgen lines calls pr st = .ok (r, st1, c1) →
      r.consumed = line_bytes r.lines_read % 2 ^ 32 ∧
      r.consumed_line = r.lines_read.getLastD [] := by
  intro lines
  induction lines with
  | nil =>
    intro calls pr st r st1 c1 h e
    simp only [narrow_loop] at e
    cases e
    exact ⟨h, rfl⟩
  | cons line rest ih =>
    intro calls pr st r st1 c1 h e
    have h1 := progress_read_consumed pr line h
    simp only [narrow_loop] at e
    rcases hl : narrow_line A rsgen calls (st.read line) line with err | ⟨_ | c, st2, calls1⟩
    · rw [hl] at e
      cases e
    · rw [hl] at e
      exact ih calls1 (pr.read line) st2 r st1 c1 h1 e
    · rw [hl] at e
      cases e
      refine ⟨h1, ?_⟩
      simp [NextResult.found, Progress.read]

theorem next_consumed (A : Int) (rsgen : Nat → Str) (calls : Nat) (st : LoadDataSource)
    (r : NextResult) (st1 : LoadDataSource) (c1 : Nat)
    (e : st.next A rsgen calls = .ok (r, st1, c1)) :
    r.consumed = line_bytes r.lines_read % 2 ^ 32 ∧
    r.consumed_line = r.lines_read.getLastD [] := by
  unfold LoadDataSource.next at e
  simp only at e
  split at e
  · have h := Except.ok.inj e
    have hc := hyper_loop_consumed A rsgen st.m_fin.lines calls
      { consumed := 0, lines_read := [] } st rfl
    rw [h] at hc
    exact hc
  · split at e
    · split at e
      · cases e
      · cases e
        exact ⟨rfl, rfl⟩
    · exact narrow_loop_consumed A rsgen _ calls _ _ r st1 c1 rfl e

/-! ## The stream -/

theorem getlines_eq_nil (s : Str) (h : getlines s = []) : s = [] := by
  cases s with
  | nil => rfl
  | cons c cs =>
    unfold getlines at h
    split at h
    · cases h
    · split at h <;> cases h

theorem getlines_drop :
    ∀ (s line : Str) (more : List Str), getlines s = line :: more →
      getlines (s.drop (line.length + 1)) = more := by
  intro s
  induction s with
  | nil => intro line more h; simp [getlines] at h
  | cons c cs ih =>
    intro line more h
    by_cases hc : c = '\n'
    · simp only [getlines, if_pos hc, List.cons.injEq] at h
      obtain ⟨h1, h2⟩ := h
      subst h1
      simpa using h2
    · simp only [getlines, if_neg hc] at h
      cases hg : getlines cs with
      | nil =>
        rw [hg] at h
        simp only [List.cons.injEq] at h
        obtain ⟨h1, h2⟩ := h
        subst h1 h2
        have := getlines_eq_nil cs hg
        subst this
        rfl
      | cons l ls =>
        rw [hg] at h
        simp only [List.cons.injEq] at h
        obtain ⟨h1, h2⟩ := h
        subst h1 h2
        have := ih l ls hg
        simpa using this

theorem good_iff (fin : IStream) :
    fin.good = true ↔ fin.eofbit = false ∧ fin.failbit = false := by
  unfold IStream.good
  cases fin.eofbit <;> cases fin.failbit <;> simp

theorem lines_good (fin : IStream) (h : fin.lines ≠ []) :
    fin.good = true ∧ fin.lines = getlines (fin.data.drop fin.pos) := by
  unfold IStream.lines at h ⊢
  by_cases hg : fin.good = true
  · rw [if_pos hg]
    exact ⟨hg, rfl⟩
  · rw [if_neg hg] at h
    exact absurd rfl h

theorem lines_advance (fin : IStream) (line : Str) (more : List Str)
    (h : fin.lines = line :: more) : (fin.advance line).lines = more := by
  obtain ⟨hg, hl⟩ := lines_good fin (by rw [h]; exact List.cons_ne_nil _ _)
  rw [hl] at h
  have hd := getlines_drop _ line more h
  rw [List.drop_drop] at hd
  obtain ⟨g1, g2⟩ := (good_iff fin).mp hg
  by_cases hle : fin.pos + line.length + 1 ≤ fin.data.length
  · have hgood : (fin.advance line).good = true := by
      rw [good_iff]
      refine ⟨?_, g2⟩
      show (fin.eofbit || decide (fin.data.length ≤ fin.pos + line.length)) = false
      rw [g1]
      simp only [Bool.false_or, decide_eq_false_iff_not]
      omega
    unfold IStream.lines
    rw [if_pos hgood]
    show getlines (fin.data.drop (min (fin.pos + line.length + 1) fin.data.length)) = more
    rw [Nat.min_eq_left hle]
    have e : fin.pos + (line.length + 1) = fin.pos + line.length + 1 := by omega
    rw [e] at hd
    exact hd
  · have e1 : List.drop (fin.pos + (line.length + 1)) fin.data = [] :=
      List.drop_eq_nil_of_le (by omega)
    rw [e1] at hd
    have hm : more = [] := by
      rw [← hd]
      rfl
    have hbad : ¬ (fin.advance line).good = true := by
      rw [good_iff]
      intro hc
      have h1 : (fin.eofbit || decide (fin.data.length ≤ fin.pos + line.length)) = false :=
        hc.1
      rw [g1] at h1
      simp only [Bool.false_or, decide_eq_false_iff_not] at h1
      omega
    unfold IStream.lines
    rw [if_neg hbad, hm]

/-! ## Hyperformat lines -/

theorem strchr_append (ch : Char) (b : Str) :
    ∀ a : Str, ch ∉ a → strchr ch (a ++ ch :: b) = (a, some b) := by
  intro a
  induction a with
  | nil => intro _; simp [strchr]
  | cons c cs ih =>
    intro h
    have hc : c ≠ ch := fun e => h (by simp [e])
    have := ih (fun hm => h (List.mem_cons_of_mem _ hm))
    simp [strchr, hc, this]

theorem strchr_none (ch : Char) : ∀ s : Str, ch ∉ s → strchr ch s = (s, none) := by
  intro s
  induction s with
  | nil => intro _; rfl
  | cons c cs ih =>
    intro h
    have hc : c ≠ ch := fun e => h (by simp [e])
    have := ih (fun hm => h (List.mem_cons_of_mem _ hm))
    simp [strchr, hc, this]

theorem strchr_some (ch : Char) :
    ∀ (s a b : Str), strchr ch s = (a, some b) → s = a ++ ch :: b := by
  intro s
  induction s with
  | nil => intro a b h; simp [strchr] at h
  | cons c cs ih =>
    intro a b h
    by_cases hc : c = ch
    · simp only [strchr, if_pos hc, Prod.mk.injEq, Option.some.injEq] at h
      obtain ⟨h1, h2⟩ := h
      subst h1 h2 hc
      rfl
    · simp only [strchr, if_neg hc, Prod.mk.injEq] at h
      obtain ⟨h1, h2⟩ := h
      subst h1
      have := ih (strchr ch cs).1 b (by rw [← h2])
      simp [← this]

theorem c_str_append (b : Str) :
    ∀ a : Str, (∀ c ∈ a, c ≠ NUL) → c_str (a ++ b) = a ++ c_str b := by
  intro a
  induction a with
  | nil => intro _; rfl
  | cons c cs ih =>
    intro h
    have hc := h c (List.mem_cons_self _ _)
    simp [c_str, hc, ih (fun x hx => h x (List.mem_cons_of_mem _ hx))]

theorem c_str_count_le (ch : Char) : ∀ s : Str, (c_str s).count ch ≤ s.count ch := by
  intro s
  induction s with
  | nil => simp [c_str]
  | cons c cs ih =>
    by_cases hc : c = NUL
    · simp [c_str, hc]
    · simp only [c_str, if_neg hc, List.count_cons]
      omega

theorem family_qualifier_eq (col : Str) :
    family_qualifier col =
      (before_colon col, if after_colon col = [] then none else some (after_colon col)) := by
  have h1 := strchr_fst ':' col
  have h2 := strchr_snd ':' col
  unfold family_qualifier before_colon after_colon
  rcases hs : strchr ':' col with ⟨fam, q⟩
  rw [hs] at h1 h2
  simp only at h1 h2
  subst h1
  by_cases hm : ':' ∈ col
  · rw [if_pos hm] at h2
    subst h2
    simp only
    generalize (List.dropWhile (fun x => decide (x ≠ ':')) col).drop 1 = q
    cases q <;> simp
  · rw [if_neg hm] at h2
    subst h2
    have : col.dropWhile (· ≠ ':') = [] := by
      rw [List.dropWhile_eq_nil_iff]
      intro x hx
      have : x ≠ ':' := fun e => hm (e ▸ hx)
      simpa using this
    rw [this]
    rfl

theorem hyper_line_record (A : Int) (rsgen : Nat → Str) (calls : Nat) (st : LoadDataSource)
    (hl : st.m_leading_timestamps = false) (hu : st.m_row_uniquify_chars = 0)
    (row column rest : Str) (hr : '\t' ∉ row) (hc : '\t' ∉ column)
    (hrn : ∀ c ∈ row, c ≠ NUL) (hcn : ∀ c ∈ column, c ≠ NUL) :
    hyper_line A rsgen calls st (row ++ '\t' :: (column ++ '\t' :: rest)) =
      (some { row := row, column_family := before_colon column,
              column_qualifier :=
                if after_colon column = [] then none else some (after_colon column),
              timestamp := A, value := some (c_str rest) }, calls) := by
  have htab : '\t' ≠ NUL := by decide
  have e1 : c_str (row ++ '\t' :: (column ++ '\t' :: rest)) =
      row ++ '\t' :: (column ++ '\t' :: c_str rest) := by
    rw [c_str_append _ row hrn]
    simp only [c_str, if_neg htab]
    rw [c_str_append _ column hcn]
    simp only [c_str, if_neg htab]
  unfold hyper_line
  simp only [e1, hl, hu, family_qualifier_eq, Bool.false_eq_true, if_false, ne_eq,
    not_true_eq_false]
  rw [strchr_append '\t' (column ++ '\t' :: c_str rest) row hr]
  simp only []
  rw [strchr_append '\t' (c_str rest) column hc]

theorem hyper_line_short (A : Int) (rsgen : Nat → Str) (calls : Nat) (st : LoadDataSource)
    (hl : st.m_leading_timestamps = false) (hu : st.m_row_uniquify_chars = 0)
    (line : Str) (h : line.count '\t' < 2) :
    hyper_line A rsgen calls st line = (none, calls) := by
  have hcnt : (c_str line).count '\t' < 2 := Nat.lt_of_le_of_lt (c_str_count_le '\t' line) h
  unfold hyper_line
  simp only [hl, hu, Bool.false_eq_true, if_false, ne_eq, not_true_eq_false]
  rcases hs : strchr '\t' (c_str line) with ⟨a, _ | b⟩
  · rfl
  · have hb := strchr_some '\t' _ a b hs
    rw [hb] at hcnt
    have hnb : '\t' ∉ b := by
      intro hm
      have := List.count_pos_iff.mpr hm
      simp only [List.count_append, List.count_cons_self] at hcnt
      omega
    simp only []
    rw [strchr_none '\t' b hnb]

/-- C17: in hyperformat mode without leading timestamps and without
uniquification, a call of `next` whose next line is `row TAB column TAB rest`
(no tab and no NUL byte in `row` and `column`) reads that line only and returns
one record: row `row`, family the part of `column` before its first `:`,
qualifier the part after it (null when there is no `:` or nothing follows it),
value `rest` up to its first NUL byte (all of `rest`, further tabs included,
when it has none), timestamp `AUTO_ASSIGN`; the stream is left at the following
line.  A line with fewer than two tabs gives no record: the call goes on with
the following line, and returns `false` when there is none. -/
theorem hyperformat_line_record (A : Int) (rsgen : Nat → Str) (calls : Nat)
    (st : LoadDataSource) (hh : st.m_hyperformat = true)
    (hl : st.m_leading_timestamps = false) (hu : st.m_row_uniquify_chars = 0) :
    (∀ (row column rest : Str) (more : List Str), '\t' ∉ row → '\t' ∉ column →
      (∀ c ∈ row, c ≠ NUL) → (∀ c ∈ column, c ≠ NUL) →
      st.m_fin.lines = (row ++ '\t' :: (column ++ '\t' :: rest)) :: more →
      st.next A rsgen calls =
        .ok ({ ret := true,
               cell := some { row := row, column_family := before_colon column,
                              column_qualifier :=
                                if after_colon column = [] then none
                                else some (after_colon column),
                              timestamp := A, value := some (c_str rest) },
               consumed := ((row ++ '\t' :: (column ++ '\t' :: rest)).length + 1) % 2 ^ 32,
               consumed_line := row ++ '\t' :: (column ++ '\t' :: rest),
               lines_read := [row ++ '\t' :: (column ++ '\t' :: rest)] },
             st.read (row ++ '\t' :: (column ++ '\t' :: rest)), calls) ∧
      (st.read (row ++ '\t' :: (column ++ '\t' :: rest))).m_fin.lines = more ∧
      ((∀ c ∈ rest, c ≠ NUL) → c_str rest = rest)) ∧
    (∀ (line : Str) (more : List Str), line.count '\t' < 2 →
      st.m_fin.lines = line :: more →
      st.next A rsgen calls =
        .ok (hyper_loop A rsgen more calls
          (Progress.read { consumed := 0, lines_read := [] } line) (st.read line)) ∧
      (more = [] →
        st.next A rsgen calls =
          .ok ({ ret := false, cell := none, consumed := (line.length + 1) % 2 ^ 32,
                 consumed_line := line, lines_read := [line] },
               { st.read line with m_fin := (st.read line).m_fin.getline_failed },
               calls))) := by
  refine ⟨?_, ?_⟩
  · intro row column rest more hr hc hrn hcn hlines
    refine ⟨?_, lines_advance _ _ _ hlines, c_str_nul_free rest⟩
    unfold LoadDataSource.next
    simp only [hh, if_true, hlines, hyper_loop]
    rw [hyper_line_record A rsgen calls _ (by exact hl) (by exact hu) row column rest hr hc hrn hcn]
    simp [NextResult.found, Progress.read]
  · intro line more hcount hlines
    have e : st.next A rsgen calls =
        .ok (hyper_loop A rsgen more calls
          (Progress.read { consumed := 0, lines_read := [] } line) (st.read line)) := by
      unfold LoadDataSource.next
      simp only [hh, if_true, hlines, hyper_loop]
      rw [hyper_line_short A rsgen calls _ (by exact hl) (by exact hu) line hcount]
    refine ⟨e, ?_⟩
    intro hm
    rw [e, hm]
    simp [hyper_loop, NextResult.eof, Progress.read]

set_option maxRecDepth 100000 in
/-- C17 at the stream `r<TAB>fam:q<TAB>v<TAB>w` followed by `short`: the first
call returns `(r, fam, q, v<TAB>w)`, and a stream holding only `short` gives
`false`. -/
theorem hyperformat_line_record_witness :
    (hyper_state (txt "r\tfam:q\tv\tw\nshort\n")).next 7 (fun _ => []) 0 =
      .ok ({ ret := true,
             cell := some { row := txt "r", column_family := txt "fam",
                            column_qualifier := some (txt "q"),
                            timestamp := 7, value := some (txt "v\tw") },
             consumed := 12, consumed_line := txt "r\tfam:q\tv\tw",
             lines_read := [txt "r\tfam:q\tv\tw"] },
           (hyper_state (txt "r\tfam:q\tv\tw\nshort\n")).read (txt "r\tfam:q\tv\tw"), 0) ∧
    (hyper_state (txt "short\n")).next 7 (fun _ => []) 0 =
      .ok ({ ret := false, cell := none, consumed := 6, consumed_line := txt "short",
             lines_read := [txt "short"] },
           { (hyper_state (txt "short\n")).read (txt "short") with
             m_fin := ((hyper_state (txt "short\n")).read (txt "short")).m_fin.getline_failed },
           0) :=
  ⟨((hyperformat_line_record 7 (fun _ => []) 0 (hyper_state (txt "r\tfam:q\tv\tw\nshort\n"))
      (by decide) (by decide) (by decide)).1 (txt "r") (txt "fam:q") (txt "v\tw")
      [txt "short"] (by decide) (by decide) (by decide) (by decide) (by decide!)).1,
   ((hyperformat_line_record 7 (fun _ => []) 0 (hyper_state (txt "short\n"))
      (by decide) (by decide) (by decide)).2 (txt "short") [] (by decide)
      (by decide!)).2 rfl⟩

/-! ## The date parser -/

theorem strtol_group (g name : Str) (hg : g ≠ []) (hd : ∀ c ∈ g, isdigit c = true)
    (hn : ∀ c, name.head? = some c → isdigit c = false) :
    strtol (g ++ name) =
      (max (-(2 : Int) ^ 63) (min ((digits_value g : Nat) : Int) ((2 : Int) ^ 63 - 1)),
       g.length) := by
  cases g with
  | nil => exact absurd rfl hg
  | cons d ds =>
    have := strtol_digits d ds name (hd d (List.mem_cons_self _ _))
      (fun c hc => hd c (List.mem_cons_of_mem _ hc)) hn
    simpa using this

theorem char_at_append (g : Str) (sep : Char) (rest : Str) :
    char_at (g ++ sep :: rest) g.length = sep := by
  induction g with
  | nil => rfl
  | cons c cs ih => simpa [char_at] using ih

theorem drop_append_succ (g : Str) (sep : Char) (rest : Str) :
    (g ++ sep :: rest).drop (g.length + 1) = rest := by
  induction g with
  | nil => rfl
  | cons c cs ih => simp

theorem digits_value_from_bound :
    ∀ (ds : Str) (acc : Nat), (∀ c ∈ ds, isdigit c = true) →
      digits_value_from acc ds + 1 ≤ (acc + 1) * 10 ^ ds.length := by
  intro ds
  induction ds with
  | nil =>
    intro acc _
    show acc + 1 ≤ (acc + 1) * 10 ^ 0
    rw [Nat.pow_zero]
    omega
  | cons c cs ih =>
    intro acc h
    have hc := isdigit_range c (h c (List.mem_cons_self _ _))
    have h1 := ih (acc * 10 + (c.toNat - '0'.toNat)) (fun x hx => h x (List.mem_cons_of_mem _ hx))
    have h0 : '0'.toNat = 48 := by decide
    have h2 : acc * 10 + (c.toNat - '0'.toNat) + 1 ≤ (acc + 1) * 10 := by
      rw [h0]
      omega
    have h3 : (acc * 10 + (c.toNat - '0'.toNat) + 1) * 10 ^ cs.length ≤
        (acc + 1) * 10 * 10 ^ cs.length := Nat.mul_le_mul_right _ h2
    show digits_value_from (acc * 10 + (c.toNat - '0'.toNat)) cs + 1 ≤
      (acc + 1) * 10 ^ (cs.length + 1)
    calc digits_value_from (acc * 10 + (c.toNat - '0'.toNat)) cs + 1
        ≤ (acc * 10 + (c.toNat - '0'.toNat) + 1) * 10 ^ cs.length := h1
      _ ≤ (acc + 1) * 10 * 10 ^ cs.length := h3
      _ = (acc + 1) * 10 ^ (cs.length + 1) := by rw [Nat.pow_succ]; ring

theorem digits_value_lt (ds : Str) (h : ∀ c ∈ ds, isdigit c = true) :
    digits_value ds < 10 ^ ds.length := by
  have := digits_value_from_bound ds 0 h
  unfold digits_value
  omega

theorem to_int32_small (v : Nat) (h : v < 10000) :
    to_int32 (max (-(2 : Int) ^ 63) (min (v : Int) ((2 : Int) ^ 63 - 1))) = v := by
  unfold to_int32
  omega

set_option maxRecDepth 100000 in
/-- C15 (as stated, fails): `2009-00-15 08:30:00` has exactly the layout
`YYYY-MM-DD HH:MM:SS`, and `parse_date_format` returns `false` on it (the month
group has the value 0). -/
theorem layout_with_zero_month_is_rejected :
    is_date_layout (txt "2009-00-15 08:30:00") = true ∧
    parse_date_format (txt "2009-00-15 08:30:00") = none := by
  decide!

/-- C15 (amended): on a text of six nonempty digit groups separated by five
single bytes that are not digits, `parse_date_format` returns `true` exactly
when the groups have the widths 4, 2, 2, 2, 2, 2, the separators are `-`, `-`,
space, `:`, `:`, and the year, month and day groups are not zero in value; the
calendar record is then year - 1900, month - 1, day, hour, minute, second. -/
theorem parse_date_format_digit_groups (g1 g2 g3 g4 g5 g6 : Str) (s1 s2 s3 s4 s5 : Char)
    (h1 : g1 ≠ [] ∧ ∀ c ∈ g1, isdigit c = true) (h2 : g2 ≠ [] ∧ ∀ c ∈ g2, isdigit c = true)
    (h3 : g3 ≠ [] ∧ ∀ c ∈ g3, isdigit c = true) (h4 : g4 ≠ [] ∧ ∀ c ∈ g4, isdigit c = true)
    (h5 : g5 ≠ [] ∧ ∀ c ∈ g5, isdigit c = true) (h6 : g6 ≠ [] ∧ ∀ c ∈ g6, isdigit c = true)
    (t1 : isdigit s1 = false) (t2 : isdigit s2 = false) (t3 : isdigit s3 = false)
    (t4 : isdigit s4 = false) (t5 : isdigit s5 = false) :
    ((parse_date_format (date_text g1 g2 g3 g4 g5 g6 s1 s2 s3 s4 s5)).isSome = true ↔
      ((g1.length = 4 ∧ g2.length = 2 ∧ g3.length = 2 ∧ g4.length = 2 ∧ g5.length = 2 ∧
        g6.length = 2) ∧
       (s1 = '-' ∧ s2 = '-' ∧ s3 = ' ' ∧ s4 = ':' ∧ s5 = ':') ∧
       digits_value g1 ≠ 0 ∧ digits_value g2 ≠ 0 ∧ digits_value g3 ≠ 0)) ∧
    (∀ tm, parse_date_format (date_text g1 g2 g3 g4 g5 g6 s1 s2 s3 s4 s5) = some tm →
      tm = { tm_year := (digits_value g1 : Nat) - 1900, tm_mon := (digits_value g2 : Nat) - 1,
             tm_mday := (digits_value g3 : Nat), tm_hour := (digits_value g4 : Nat),
             tm_min := (digits_value g5 : Nat), tm_sec := (digits_value g6 : Nat) }) := by
  have e1 := strtol_group g1 (s1 :: (g2 ++ s2 :: (g3 ++ s3 :: (g4 ++ s4 :: (g5 ++ s5 :: g6)))))
    h1.1 h1.2 (by intro c hc; simp at hc; subst hc; exact t1)
  have e2 := strtol_group g2 (s2 :: (g3 ++ s3 :: (g4 ++ s4 :: (g5 ++ s5 :: g6))))
    h2.1 h2.2 (by intro c hc; simp at hc; subst hc; exact t2)
  have e3 := strtol_group g3 (s3 :: (g4 ++ s4 :: (g5 ++ s5 :: g6)))
    h3.1 h3.2 (by intro c hc; simp at hc; subst hc; exact t3)
  have e4 := strtol_group g4 (s4 :: (g5 ++ s5 :: g6))
    h4.1 h4.2 (by intro c hc; simp at hc; subst hc; exact t4)
  have e5 := strtol_group g5 (s5 :: g6)
    h5.1 h5.2 (by intro c hc; simp at hc; subst hc; exact t5)
  have e6 : strtol g6 = (max (-(2 : Int) ^ 63) (min ((digits_value g6 : Nat) : Int)
      ((2 : Int) ^ 63 - 1)), g6.length) := by
    have := strtol_group g6 [] h6.1 h6.2 (by intro c hc; simp at hc)
    simpa using this
  have b1 : g1.length = 4 → to_int32 (max (-(2 : Int) ^ 63)
      (min ((digits_value g1 : Nat) : Int) ((2 : Int) ^ 63 - 1))) = (digits_value g1 : Nat) := by
    intro hl
    have := digits_value_lt g1 h1.2
    rw [hl] at this
    exact to_int32_small _ (by omega)
  have b2 : ∀ g : Str, (∀ c ∈ g, isdigit c = true) → g.length = 2 → to_int32 (max (-(2 : Int) ^ 63)
      (min ((digits_value g : Nat) : Int) ((2 : Int) ^ 63 - 1))) = (digits_value g : Nat) := by
    intro g hg hl
    have := digits_value_lt g hg
    rw [hl] at this
    exact to_int32_small _ (by omega)
  unfold parse_date_format date_text
  simp only [e1, e2, e3, e4, e5, e6, char_at_append, drop_append_succ]
  by_cases hL : (g1.length = 4 ∧ g2.length = 2 ∧ g3.length = 2 ∧ g4.length = 2 ∧
      g5.length = 2 ∧ g6.length = 2) ∧ (s1 = '-' ∧ s2 = '-' ∧ s3 = ' ' ∧ s4 = ':' ∧ s5 = ':')
  · obtain ⟨⟨l1, l2, l3, l4, l5, l6⟩, ⟨c1, c2, c3, c4, c5⟩⟩ := hL
    simp only [b1 l1, b2 g2 h2.2 l2, b2 g3 h3.2 l3, b2 g4 h4.2 l4, b2 g5 h5.2 l5,
      b2 g6 h6.2 l6, l1, l2, l3, l4, l5, l6, c1, c2, c3, c4, c5, ne_eq, not_true_eq_false,
      or_false, Nat.cast_eq_zero]
    by_cases z1 : digits_value g1 = 0
    · simp [z1]
    · by_cases z2 : digits_value g2 = 0
      · simp [z1, z2]
      · by_cases z3 : digits_value g3 = 0
        · simp [z1, z2, z3]
        · simp [z1, z2, z3]
  · have hnone : ∀ o : Option Tm, o = none →
        ((o.isSome = true ↔
          ((g1.length = 4 ∧ g2.length = 2 ∧ g3.length = 2 ∧ g4.length = 2 ∧ g5.length = 2 ∧
            g6.length = 2) ∧
           (s1 = '-' ∧ s2 = '-' ∧ s3 = ' ' ∧ s4 = ':' ∧ s5 = ':') ∧
           digits_value g1 ≠ 0 ∧ digits_value g2 ≠ 0 ∧ digits_value g3 ≠ 0)) ∧
         (∀ tm, o = some tm →
           tm = { tm_year := (digits_value g1 : Nat) - 1900,
                  tm_mon := (digits_value g2 : Nat) - 1,
                  tm_mday := (digits_value g3 : Nat), tm_hour := (digits_value g4 : Nat),
                  tm_min := (digits_value g5 : Nat), tm_sec := (digits_value g6 : Nat) })) := by
      intro o ho
      subst ho
      refine ⟨⟨fun h => by simp at h, fun h => absurd ⟨h.1, h.2.1⟩ hL⟩, fun tm h => by simp at h⟩
    apply hnone
    split_ifs with a1 a2 a3 a4 a5 a6
    · rfl
    · rfl
    · rfl
    · rfl
    · rfl
    · rfl
    · exfalso
      apply hL
      simp only [not_or, ne_eq, not_not] at a1 a2 a3 a4 a5 a6
      exact ⟨⟨a1.2.1, a2.2.1, a3.2.1, a4.1, a5.1, a6⟩, ⟨a1.2.2, a2.2.2, a3.2.2, a4.2, a5.2⟩⟩

set_option maxRecDepth 100000 in
/-- C15 (amended) at `2009-01-15 08:30:00`, which is accepted with the record
of 2009-01-15 08:30:00; `2009-1-15 08:30:00` and `2009-01-15T08:30:00` are
rejected. -/
theorem parse_date_format_digit_groups_witness :
    (parse_date_format (txt "2009-01-15 08:30:00")).isSome = true ∧
    (∀ tm, parse_date_format (txt "2009-01-15 08:30:00") = some tm →
      tm = { tm_year := 109, tm_mon := 0, tm_mday := 15, tm_hour := 8, tm_min := 30,
             tm_sec := 0 }) ∧
    parse_date_format (txt "2009-1-15 08:30:00") = none ∧
    parse_date_format (txt "2009-01-15T08:30:00") = none :=
  have h := parse_date_format_digit_groups (txt "2009") (txt "01") (txt "15") (txt "08")
    (txt "30") (txt "00") '-' '-' ' ' ':' ':' (by decide) (by decide) (by decide) (by decide)
    (by decide) (by decide) (by decide) (by decide) (by decide) (by decide) (by decide)
  ⟨h.1.mpr (by decide), h.2, by decide!, by decide!⟩

/-! ## The row key of a narrow line -/

theorem add_row_component_shape (st : LoadDataSource) (i : Nat) (b : Bool)
    (st1 : LoadDataSource) (e : add_row_component st i = .ok (b, st1)) :
    ∃ K, st1 = { st with m_row_key_buffer := K } := by
  unfold add_row_component at e
  cases hk : st.m_key_comps.get? i with
  | none =>
    rw [hk] at e
    cases e
  | some kc =>
    rw [hk] at e
    simp only at e
    cases hv : st.m_values.get? kc.index with
    | none =>
      rw [hv] at e
      cases e
    | some ov =>
      cases ov with
      | none =>
        rw [hv] at e
        simp only at e
        injection e with e
        injection e with e1 e2
        exact ⟨st.m_row_key_buffer, e2.symm⟩
      | some v =>
        rw [hv] at e
        simp only at e
        by_cases h1 : to_size_t kc.width > v.length
        · by_cases h2 : kc.left_justify = true
          · simp only [h1, h2, if_true] at e
            injection e with e
            injection e with e1 e2
            exact ⟨_, e2.symm⟩
          · simp only [h1, h2, if_true, if_false] at e
            injection e with e
            injection e with e1 e2
            exact ⟨_, e2.symm⟩
        · simp only [h1, if_false] at e
          injection e with e
          injection e with e1 e2
          exact ⟨_, e2.symm⟩

theorem key_rest_shape :
    ∀ (n i : Nat) (st : LoadDataSource) (b : Bool) (st1 : LoadDataSource),
      key_rest n i st = .ok (b, st1) → ∃ K, st1 = { st with m_row_key_buffer := K } := by
  intro n
  induction n with
  | zero =>
    intro i st b st1 e
    simp only [key_rest] at e
    cases e
    exact ⟨st.m_row_key_buffer, rfl⟩
  | succ n ih =>
    intro i st b st1 e
    simp only [key_rest] at e
    rcases ha : add_row_component
        { st with m_row_key_buffer := st.m_row_key_buffer ++ [' '] } i with err | ⟨b2, st2⟩
    · rw [ha] at e
      cases e
    · rw [ha] at e
      obtain ⟨K2, hK2⟩ := add_row_component_shape _ i b2 st2 ha
      cases b2 with
      | false =>
        cases e
        exact ⟨K2, hK2⟩
      | true =>
        obtain ⟨K3, hK3⟩ := ih (i + 1) st2 b st1 e
        exact ⟨K3, by rw [hK3, hK2]⟩

theorem build_row_key_shape (st : LoadDataSource) (b : Bool) (st1 : LoadDataSource)
    (e : build_row_key st = .ok (b, st1)) :
    ∃ K, st1 = { st with m_row_key_buffer := K } := by
  unfold build_row_key at e
  rcases ha : add_row_component { st with m_row_key_buffer := [] } 0 with err | ⟨b2, st2⟩
  · rw [ha] at e
    cases e
  · rw [ha] at e
    obtain ⟨K2, hK2⟩ := add_row_component_shape _ 0 b2 st2 ha
    cases b2 with
    | false =>
      cases e
      exact ⟨K2, hK2⟩
    | true =>
      obtain ⟨K3, hK3⟩ := key_rest_shape _ 1 st2 b st1 e
      exact ⟨K3, by rw [hK3, hK2]⟩

theorem tokenize_spec (masks : List Nat) :
    ∀ (toks : List Str) (i : Nat) (vals out : List (Option Str)),
      tokenize masks toks i vals = .ok out →
      ∃ suf, out = vals ++ suf ∧
        ∀ j s, suf.get? j = some (some s) → toks.get? j = some s := by
  intro toks
  induction toks with
  | nil =>
    intro i vals out e
    simp only [tokenize] at e
    injection e with e
    exact ⟨[], by simp [e], by simp⟩
  | cons tok rest ih =>
    intro i vals out e
    cases rest with
    | nil =>
      simp only [tokenize] at e
      injection e with e
      refine ⟨[if is_null tok = true then none else some tok], e.symm, ?_⟩
      intro j s h
      cases j with
      | zero =>
        by_cases hn : is_null tok = true
        · simp [hn] at h
        · simp only [hn, Bool.false_eq_true, if_false, List.get?_cons_zero,
            Option.some.injEq] at h
          simp [h]
      | succ j => simp at h
    | cons t2 r2 =>
      by_cases hn : is_null tok = true
      · simp only [tokenize, hn, if_true] at e
        cases hm : masks.get? i with
        | none =>
          rw [hm] at e
          cases e
        | some m =>
          rw [hm] at e
          simp only at e
          by_cases hz : m ≠ 0
          · rw [if_pos hz] at e
            injection e with e
            refine ⟨[none], e.symm, ?_⟩
            intro j s h
            cases j <;> simp at h
          · rw [if_neg hz] at e
            obtain ⟨suf, hs, hg⟩ := ih (i + 1) (vals ++ [none]) out e
            refine ⟨none :: suf, by rw [hs]; simp, ?_⟩
            intro j s h
            cases j with
            | zero => simp at h
            | succ j =>
              have := hg j s (by simpa using h)
              simpa using this
      · simp only [tokenize, hn, Bool.false_eq_true, if_false] at e
        obtain ⟨suf, hs, hg⟩ := ih (i + 1) (vals ++ [some tok]) out e
        refine ⟨some tok :: suf, by rw [hs]; simp, ?_⟩
        intro j s h
        cases j with
        | zero =>
          simp only [List.get?_cons_zero, Option.some.injEq] at h
          simp [h]
        | succ j =>
          have := hg j s (by simpa using h)
          simpa using this

/-! ## The timestamp of a narrow line -/

theorem to_int64_product (t : Int) (h1 : -(2 : Int) ^ 63 ≤ t * 1000000000)
    (h2 : t * 1000000000 < (2 : Int) ^ 63) :
    to_int64 ((t % 2 ^ 64) * 1000000000 % 2 ^ 64) = t * 1000000000 := by
  unfold to_int64
  have e : (t % 2 ^ 64) * 1000000000 % 2 ^ 64 = t * 1000000000 % 2 ^ 64 := by
    rw [Int.mul_emod, Int.emod_emod_of_dvd _ (dvd_refl _), ← Int.mul_emod]
  rw [e]
  omega

theorem line_timestamp_inv (A : Int) (st : LoadDataSource) (ts : Int)
    (e : line_timestamp A st = .ok (some ts)) :
    (st.m_timestamp_index < 0 ∧ ts = A) ∨
    (0 ≤ st.m_timestamp_index ∧
      ∃ str tm, st.m_values.get? st.m_timestamp_index.toNat = some (some str) ∧
        parse_date_format str = some tm ∧ timegm tm ≠ -1 ∧
        ts = to_int64 ((timegm tm % 2 ^ 64) * 1000000000 % 2 ^ 64)) := by
  unfold line_timestamp at e
  by_cases h0 : 0 ≤ st.m_timestamp_index
  · right
    refine ⟨h0, ?_⟩
    simp only [h0, if_true] at e
    by_cases hl : st.m_values.length ≤ st.m_timestamp_index.toNat
    · simp only [hl, if_true] at e
      cases e
    · simp only [hl, if_false] at e
      have hlt : st.m_timestamp_index.toNat < st.m_values.length := by omega
      cases hv : st.m_values.getD st.m_timestamp_index.toNat none with
      | none =>
        rw [hv] at e
        cases e
      | some str =>
        rw [hv] at e
        simp only at e
        cases hp : parse_date_format str with
        | none =>
          rw [hp] at e
          cases e
        | some tm =>
          rw [hp] at e
          simp only at e
          by_cases ht : timegm tm = -1
          · simp only [ht, if_true] at e
            cases e
          · simp only [ht, if_false] at e
            injection e with e
            injection e with e
            refine ⟨str, tm, ?_, hp, ht, e.symm⟩
            rw [List.get?_eq_getElem?, List.getElem?_eq_getElem hlt]
            rw [List.getD_eq_getElem?_getD, List.getElem?_eq_getElem hlt] at hv
            simpa using hv
  · left
    simp only [h0, if_false] at e
    injection e with e
    injection e with e
    exact ⟨by omega, e.symm⟩

theorem emit_column_timestamp (st : LoadDataSource) (c : Cell) (e : emit_column st = .ok c) :
    c.timestamp = st.m_timestamp ∧ c.row = st.m_row_key_buffer := by
  unfold emit_column at e
  split at e
  · injection e with e
    rw [← e]
    exact ⟨rfl, rfl⟩
  · cases e

theorem narrow_line_inv (A : Int) (rsgen : Nat → Str) (calls : Nat) (st : LoadDataSource)
    (line : Str) (o : Option Cell) (stf : LoadDataSource) (callsf : Nat)
    (e : narrow_line A rsgen calls st line = .ok (o, stf, callsf)) :
    (stf.m_hyperformat = st.m_hyperformat ∧ stf.m_timestamp_index = st.m_timestamp_index ∧
      stf.m_type_mask = st.m_type_mask ∧ stf.m_dupkeycols = st.m_dupkeycols ∧
      stf.m_column_info = st.m_column_info ∧ stf.m_key_comps = st.m_key_comps ∧
      stf.m_row_uniquify_chars = st.m_row_uniquify_chars ∧ stf.m_fin = st.m_fin) ∧
    ∀ c, o = some c →
      c.timestamp = stf.m_timestamp ∧
      ∃ vals K, tokenize st.m_type_mask (fields '\t' (c_str (trim line))) 0 [] = .ok vals ∧
        stf.m_values = vals ∧
        line_timestamp A
          { st with m_values := vals, m_limit := min vals.length st.m_column_info.length,
                    m_row_key_buffer := K } = .ok (some stf.m_timestamp) := by
  unfold narrow_line at e
  simp only at e
  by_cases ht : (trim line).length = 0
  · rw [if_pos ht] at e
    injection e with e
    injection e with e1 e2
    injection e2 with e2 e3
    subst e1 e2
    exact ⟨⟨rfl, rfl, rfl, rfl, rfl, rfl, rfl, rfl⟩, fun c hc => by cases hc⟩
  · rw [if_neg ht] at e
    rcases htok : tokenize st.m_type_mask (fields '\t' (c_str (trim line))) 0 [] with err | vals
    · rw [htok] at e
      cases e
    · rw [htok] at e
      simp only at e
      rcases hb : build_row_key
          { st with m_values := vals,
                    m_limit := min vals.length st.m_column_info.length } with err | ⟨b, st2⟩
      · rw [hb] at e
        cases e
      · rw [hb] at e
        obtain ⟨K, hK⟩ := build_row_key_shape _ b st2 hb
        cases b with
        | false =>
          simp only at e
          injection e with e
          injection e with e1 e2
          injection e2 with e2 e3
          subst e1 e2
          subst hK
          exact ⟨⟨rfl, rfl, rfl, rfl, rfl, rfl, rfl, rfl⟩, fun c hc => by cases hc⟩
        | true =>
          simp only at e
          rcases hts : line_timestamp A st2 with err | ots
          · rw [hts] at e
            cases e
          · rw [hts] at e
            cases ots with
            | none =>
              simp only at e
              injection e with e
              injection e with e1 e2
              injection e2 with e2 e3
              subst e1 e2
              subst hK
              exact ⟨⟨rfl, rfl, rfl, rfl, rfl, rfl, rfl, rfl⟩, fun c hc => by cases hc⟩
            | some ts =>
              simp only at e
              split at e
              · cases e
              · rename_i c hem
                injection e with e
                injection e with e1 e2
                injection e2 with e2 e3
                subst e1 e2
                obtain ⟨hct, _⟩ := emit_column_timestamp _ c hem
                subst hK
                split_ifs at hct ⊢ <;>
                exact ⟨⟨rfl, rfl, rfl, rfl, rfl, rfl, rfl, rfl⟩, fun c1 hc1 => by
                  injection hc1 with hc1
                  subst hc1
                  exact ⟨hct, vals, K, rfl, rfl, hts⟩⟩

theorem narrow_loop_inv (A : Int) (rsgen : Nat → Str) :
    ∀ (lines : List Str) (calls : Nat) (pr : Progress) (st : LoadDataSource)
      (r : NextResult) (stf : LoadDataSource) (cf : Nat) (c : Cell),
      narrow_loop A rsgen lines calls pr st = .ok (r, stf, cf) → r.cell = some c →
      r.lines_read ≠ [] ∧ c.timestamp = stf.m_timestamp ∧
      stf.m_hyperformat = st.m_hyperformat ∧
      stf.m_timestamp_index = st.m_timestamp_index ∧
      ∃ vals, tokenize st.m_type_mask (fields '\t' (c_str (trim r.consumed_line))) 0 [] =
          .ok vals ∧
        ∃ s : LoadDataSource, s.m_values = vals ∧
          s.m_timestamp_index = st.m_timestamp_index ∧
          line_timestamp A s = .ok (some stf.m_timestamp) := by
  intro lines
  induction lines with
  | nil =>
    intro calls pr st r stf cf c e hc
    simp only [narrow_loop] at e
    cases e
    cases hc
  | cons line rest ih =>
    intro calls pr st r stf cf c e hc
    simp only [narrow_loop] at e
    rcases hl : narrow_line A rsgen calls (st.read line) line with err | ⟨_ | c0, st2, calls1⟩
    · rw [hl] at e
      cases e
    · rw [hl] at e
      obtain ⟨⟨p1, p2, p3, _⟩, _⟩ := narrow_line_inv A rsgen calls _ line _ _ _ hl
      obtain ⟨q1, q2, q3, q4, vals, q5, s, q6, q7, q8⟩ :=
        ih calls1 (pr.read line) st2 r stf cf c e hc
      rw [p3] at q5
      rw [p2] at q7 q4
      rw [p1] at q3
      exact ⟨q1, q2, q3, q4, vals, q5, s, q6, q7, q8⟩
    · rw [hl] at e
      obtain ⟨⟨p1, p2, p3, _⟩, p4⟩ := narrow_line_inv A rsgen calls _ line _ _ _ hl
      obtain ⟨p5, vals, K, p6, p7, p8⟩ := p4 c0 rfl
      cases e
      cases hc
      refine ⟨by simp [NextResult.found, Progress.read], p5, p1, p2, vals, p6, _, ?_, ?_, p8⟩ <;>
        rfl

theorem next_narrow_inv (A : Int) (rsgen : Nat → Str) (calls : Nat) (st : LoadDataSource)
    (r : NextResult) (stf : LoadDataSource) (cf : Nat) (c : Cell)
    (hh : st.m_hyperformat = false)
    (e : st.next A rsgen calls = .ok (r, stf, cf)) (hc : r.cell = some c) :
    c.timestamp = stf.m_timestamp ∧ stf.m_hyperformat = false ∧
    stf.m_timestamp_index = st.m_timestamp_index ∧
    (r.lines_read = [] → c.timestamp = st.m_timestamp) ∧
    (r.lines_read ≠ [] →
      ∃ vals, tokenize st.m_type_mask (fields '\t' (c_str (trim r.consumed_line))) 0 [] =
          .ok vals ∧
        ∃ s : LoadDataSource, s.m_values = vals ∧
          s.m_timestamp_index = st.m_timestamp_index ∧
          line_timestamp A s = .ok (some c.timestamp)) := by
  unfold LoadDataSource.next at e
  simp only [hh, Bool.false_eq_true, if_false] at e
  split at e
  · split at e
    · cases e
    · rename_i c0 hem
      cases e
      cases hc
      obtain ⟨h1, _⟩ := emit_column_timestamp _ c hem
      exact ⟨h1, rfl, rfl, fun _ => h1, fun h => absurd rfl h⟩
  · obtain ⟨q1, q2, q3, q4, vals, q5, s, q6, q7, q8⟩ :=
      narrow_loop_inv A rsgen _ calls _ _ r stf cf c e hc
    refine ⟨q2, q3, q4, fun h => absurd h q1, fun _ => ⟨vals, q5, s, q6, q7, ?_⟩⟩
    rw [q2]
    exact q8

/-! ## The timestamp of the records of a narrow line -/

set_option maxRecDepth 100000 in
/-- C16 (as stated, fails): the line dated `9999-12-31 23:59:59` parses, its
epoch-seconds value is 253402300799, and the record of the line carries the
timestamp -4852116232933722624, which is not that value times 10^9 and not a
multiple of 10^9. -/
theorem timestamp_product_wraps :
    plain_results 0 (fun _ => []) (txt "k\tt\ta\nr\t9999-12-31 23:59:59\tx\n") 0 false
        [txt "k"] (txt "t") 1 =
      some (.ok [{ ret := true,
                   cell := some (cell_of "r" "a" (-4852116232933722624) (some "x")),
                   consumed := 24, consumed_line := txt "r\t9999-12-31 23:59:59\tx",
                   lines_read := [txt "r\t9999-12-31 23:59:59\tx"] }]) ∧
    (parse_date_format (txt "9999-12-31 23:59:59")).map timegm = some 253402300799 ∧
    (-4852116232933722624 : Int) ≠ 253402300799 * 1000000000 ∧
    (-4852116232933722624 : Int) % 1000000000 ≠ 0 := by
  decide!

/-- C16 (amended): in narrow mode, a call of `next` that returns a record after
reading lines takes the timestamp from the last line read: without a timestamp
column it is `AUTO_ASSIGN`; with one, the field of that column parses as a date
and the timestamp is the epoch-seconds value of the date times 10^9 whenever
that product fits in a signed 64-bit number.  A call that returns a record
without reading a line (a further column of the same line) returns the timestamp
the object holds, and after every call that returns a record the object holds
the timestamp of that record. -/
theorem narrow_timestamp_is_epoch_seconds_scaled (A : Int) (rsgen : Nat → Str) (calls : Nat)
    (st : LoadDataSource) (r : NextResult) (stf : LoadDataSource) (cf : Nat) (c : Cell)
    (hh : st.m_hyperformat = false)
    (e : st.next A rsgen calls = .ok (r, stf, cf)) (hc : r.cell = some c) :
    (stf.m_timestamp = c.timestamp ∧ stf.m_hyperformat = false ∧
      stf.m_timestamp_index = st.m_timestamp_index) ∧
    (r.lines_read = [] → c.timestamp = st.m_timestamp) ∧
    (r.lines_read ≠ [] →
      (st.m_timestamp_index < 0 → c.timestamp = A) ∧
      (0 ≤ st.m_timestamp_index →
        ∃ str tm,
          (fields '\t' (c_str (trim r.consumed_line))).get? st.m_timestamp_index.toNat =
            some str ∧
          parse_date_format str = some tm ∧ timegm tm ≠ -1 ∧
          (-(2 : Int) ^ 63 ≤ timegm tm * 1000000000 →
            timegm tm * 1000000000 < (2 : Int) ^ 63 →
            c.timestamp = timegm tm * 1000000000))) := by
  obtain ⟨h1, h2, h3, h4, h5⟩ := next_narrow_inv A rsgen calls st r stf cf c hh e hc
  refine ⟨⟨h1.symm, h2, h3⟩, h4, fun hne => ?_⟩
  obtain ⟨vals, ht, s, hs1, hs2, hs3⟩ := h5 hne
  rcases line_timestamp_inv A s c.timestamp hs3 with ⟨hneg, hA⟩ | ⟨hpos, str, tm, g1, g2, g3, g4⟩
  · rw [hs2] at hneg
    exact ⟨fun _ => hA, fun h => absurd h (by omega)⟩
  · rw [hs2] at hpos g1
    refine ⟨fun h => absurd hpos (by omega), fun _ => ⟨str, tm, ?_, g2, g3, ?_⟩⟩
    · obtain ⟨suf, k1, k2⟩ := tokenize_spec _ _ _ _ _ ht
      rw [List.nil_append] at k1
      rw [hs1, k1] at g1
      exact k2 _ _ g1
    · intro b1 b2
      rw [g4]
      exact to_int64_product _ b1 b2

set_option maxRecDepth 100000 in
/-- C16 (amended) on the line dated `2009-01-15 08:30:00`: the record carries
1232008200000000000, which is 1232008200 times 10^9. -/
theorem narrow_timestamp_is_epoch_seconds_scaled_witness :
    dated_state.next 0 (fun _ => []) 0 = .ok (dated_result, dated_state_after, 0) ∧
    (parse_date_format (txt "2009-01-15 08:30:00")).map timegm = some 1232008200 ∧
    ((dated_state_after.m_timestamp = 1232008200000000000 ∧
        dated_state_after.m_hyperformat = false ∧
        dated_state_after.m_timestamp_index = dated_state.m_timestamp_index) ∧
      (dated_result.lines_read = [] → (1232008200000000000 : Int) = dated_state.m_timestamp) ∧
      (dated_result.lines_read ≠ [] →
        (dated_state.m_timestamp_index < 0 → (1232008200000000000 : Int) = 0) ∧
        (0 ≤ dated_state.m_timestamp_index →
          ∃ str tm,
            (fields '\t' (c_str (trim dated_result.consumed_line))).get?
                dated_state.m_timestamp_index.toNat = some str ∧
            parse_date_format str = some tm ∧ timegm tm ≠ -1 ∧
            (-(2 : Int) ^ 63 ≤ timegm tm * 1000000000 →
              timegm tm * 1000000000 < (2 : Int) ^ 63 →
              (1232008200000000000 : Int) = timegm tm * 1000000000)))) :=
  ⟨by decide!, by decide!,
   narrow_timestamp_is_epoch_seconds_scaled 0 (fun _ => []) 0 dated_state dated_result
     dated_state_after 0 (cell_of "r" "a" 1232008200000000000 (some "x"))
     (by decide!) (by decide!) rfl⟩

/-! ## A narrow line, forwards -/

theorem tokenize_forward (masks : List Nat) :
    ∀ (toks : List Str) (i : Nat) (vals : List (Option Str)),
      (∀ j, j < toks.length → is_null (toks.getD j []) = true → masks.get? (i + j) = some 0) →
      tokenize masks toks i vals =
        .ok (vals ++ toks.map field_value) := by
  intro toks
  induction toks with
  | nil =>
    intro i vals _
    simp [tokenize, field_value]
  | cons tok rest ih =>
    intro i vals h
    cases rest with
    | nil => simp [tokenize, field_value]
    | cons t2 r2 =>
      have hrest : ∀ j, j < (t2 :: r2).length → is_null ((t2 :: r2).getD j []) = true →
          masks.get? (i + 1 + j) = some 0 := by
        intro j hj hn
        have := h (j + 1) (by simp only [List.length_cons] at hj ⊢; omega)
          (by simpa using hn)
        rw [← this]
        congr 1
        omega
      simp only [tokenize]
      by_cases hn : is_null tok = true
      · have h0 := h 0 (by simp) (by simpa using hn)
        rw [Nat.add_zero] at h0
        rw [if_pos hn, h0]
        simp only [ne_eq, not_true_eq_false, if_false]
        rw [ih (i + 1) (vals ++ [none]) hrest]
        simp [field_value, hn]
      · rw [if_neg hn]
        rw [ih (i + 1) (vals ++ [some tok]) hrest]
        simp [field_value, hn]

theorem add_row_component_ok (st : LoadDataSource) (i : Nat) (kc : KeyComponentInfo) (v : Str)
    (hk : st.m_key_comps.get? i = some kc)
    (hv : st.m_values.get? kc.index = some (some v)) :
    ∃ K, add_row_component st i = .ok (true, { st with m_row_key_buffer := K }) := by
  unfold add_row_component
  rw [hk]
  simp only [hv]
  split_ifs <;> exact ⟨_, rfl⟩

theorem key_rest_ok :
    ∀ (n i : Nat) (st : LoadDataSource), i + n = st.m_key_comps.length →
      (∀ kc ∈ st.m_key_comps, ∃ v, st.m_values.get? kc.index = some (some v)) →
      ∃ K, key_rest n i st = .ok (true, { st with m_row_key_buffer := K }) := by
  intro n
  induction n with
  | zero =>
    intro i st _ _
    exact ⟨st.m_row_key_buffer, rfl⟩
  | succ n ih =>
    intro i st hlen hall
    have hi : i < st.m_key_comps.length := by omega
    obtain ⟨v, hv⟩ := hall _ (List.get_mem st.m_key_comps i hi)
    obtain ⟨K, hK⟩ := add_row_component_ok
      { st with m_row_key_buffer := st.m_row_key_buffer ++ [' '] } i
      (st.m_key_comps.get ⟨i, hi⟩) v (List.get?_eq_get hi) hv
    simp only [key_rest, hK]
    obtain ⟨K2, hK2⟩ := ih (i + 1) { st with m_row_key_buffer := K } (by
      show i + 1 + n = st.m_key_comps.length
      omega) hall
    exact ⟨K2, hK2⟩

theorem build_row_key_ok (st : LoadDataSource) (hne : st.m_key_comps ≠ [])
    (hall : ∀ kc ∈ st.m_key_comps, ∃ v, st.m_values.get? kc.index = some (some v)) :
    ∃ K, build_row_key st = .ok (true, { st with m_row_key_buffer := K }) := by
  have h0 : 0 < st.m_key_comps.length := List.length_pos.mpr hne
  obtain ⟨v, hv⟩ := hall _ (List.get_mem st.m_key_comps 0 h0)
  obtain ⟨K, hK⟩ := add_row_component_ok { st with m_row_key_buffer := [] } 0
    (st.m_key_comps.get ⟨0, h0⟩) v (List.get?_eq_get h0) hv
  simp only [build_row_key, hK]
  obtain ⟨K2, hK2⟩ := key_rest_ok (st.m_key_comps.length - 1) 1
    { st with m_row_key_buffer := K } (by
      show 1 + (st.m_key_comps.length - 1) = st.m_key_comps.length
      omega) hall
  exact ⟨K2, hK2⟩

theorem line_timestamp_congr (A : Int) (s t : LoadDataSource)
    (h1 : s.m_timestamp_index = t.m_timestamp_index) (h2 : s.m_values = t.m_values) :
    line_timestamp A s = line_timestamp A t := by
  unfold line_timestamp
  rw [h1, h2]

/-! ## The columns of a narrow line -/

theorem should_skip_lt (idx : Nat) (masks : List Nat) (dup : Bool)
    (h : should_skip idx masks dup = true) : idx < masks.length := by
  by_contra hc
  have e : masks.getD idx 0 = 0 := List.getD_eq_default _ _ (by omega)
  unfold should_skip at h
  rw [e] at h
  simp at h

theorem unsuppressed_nil (masks : List Nat) (dup : Bool) (limit idx : Nat) (h : limit ≤ idx) :
    unsuppressed masks dup limit idx = [] := by
  unfold unsuppressed
  rw [Nat.sub_eq_zero_of_le h]
  rfl

theorem unsuppressed_step (masks : List Nat) (dup : Bool) (limit idx : Nat) (h : idx < limit) :
    unsuppressed masks dup limit idx =
      if should_skip idx masks dup then unsuppressed masks dup limit (idx + 1)
      else idx :: unsuppressed masks dup limit (idx + 1) := by
  unfold unsuppressed
  have e : limit - idx = (limit - (idx + 1)) + 1 := by omega
  rw [e, List.range'_succ, List.filter_cons]
  cases should_skip idx masks dup <;> simp

theorem skip_columns_unsuppressed (masks : List Nat) (dup : Bool) (limit : Nat) :
    ∀ (n idx : Nat), limit - idx ≤ n →
      (unsuppressed masks dup limit idx = [] → limit ≤ skip_columns masks dup limit n idx) ∧
      (∀ c rest, unsuppressed masks dup limit idx = c :: rest →
        skip_columns masks dup limit n idx = c ∧ c < limit ∧ idx ≤ c ∧
        unsuppressed masks dup limit (c + 1) = rest ∧ should_skip c masks dup = false ∧
        ∀ j, idx ≤ j → j < c → should_skip j masks dup = true) := by
  intro n
  induction n with
  | zero =>
    intro idx h
    have hle : limit ≤ idx := by omega
    rw [unsuppressed_nil masks dup limit idx hle]
    exact ⟨fun _ => hle, fun c rest hc => by cases hc⟩
  | succ n ih =>
    intro idx h
    by_cases hlt : idx < limit
    · rw [unsuppressed_step masks dup limit idx hlt]
      cases hs : should_skip idx masks dup with
      | true =>
        have e : skip_columns masks dup limit (n + 1) idx =
            skip_columns masks dup limit n (idx + 1) := by
          simp [skip_columns, hlt, hs]
        rw [e]
        obtain ⟨a, b⟩ := ih (idx + 1) (by omega)
        refine ⟨fun h0 => a (by simpa using h0), fun c rest hc => ?_⟩
        obtain ⟨b1, b2, b3, b4, b5, b6⟩ := b c rest (by simpa using hc)
        refine ⟨b1, b2, by omega, b4, b5, fun j j1 j2 => ?_⟩
        by_cases hj : j = idx
        · rw [hj]
          exact hs
        · exact b6 j (by omega) j2
      | false =>
        have e : skip_columns masks dup limit (n + 1) idx = idx := by
          simp [skip_columns, hs]
        rw [e]
        refine ⟨fun h0 => by simp at h0, fun c rest hc => ?_⟩
        simp only [Bool.false_eq_true, if_false] at hc
        injection hc with hc1 hc2
        subst hc1
        exact ⟨rfl, hlt, Nat.le_refl _, hc2, hs, fun j j1 j2 => by omega⟩
    · have hle : limit ≤ idx := by omega
      have e : skip_columns masks dup limit (n + 1) idx = idx := by
        simp [skip_columns, hlt]
      rw [e, unsuppressed_nil masks dup limit idx hle]
      exact ⟨fun _ => hle, fun c rest hc => by cases hc⟩

theorem skip_columns_reaches (masks : List Nat) (dup : Bool) (c : Nat)
    (hc : should_skip c masks dup = false) :
    ∀ (n idx : Nat), idx ≤ c → c - idx ≤ n →
      (∀ j, idx ≤ j → j < c → should_skip j masks dup = true) →
      skip_columns masks dup masks.length n idx = c := by
  intro n
  induction n with
  | zero =>
    intro idx h1 h2 _
    simp only [skip_columns]
    omega
  | succ n ih =>
    intro idx h1 h2 hall
    by_cases he : idx = c
    · subst he
      simp [skip_columns, hc]
    · have hs := hall idx (Nat.le_refl _) (by omega)
      have hl := should_skip_lt idx masks dup hs
      have e : skip_columns masks dup masks.length (n + 1) idx =
          skip_columns masks dup masks.length n (idx + 1) := by
        simp [skip_columns, hl, hs]
      rw [e]
      exact ih (idx + 1) (by omega) (by omega) (fun j j1 j2 => hall j (by omega) j2)

theorem emit_column_ok (st : LoadDataSource) (h1 : st.m_next_value < st.m_column_info.length)
    (h2 : st.m_next_value < st.m_values.length) :
    emit_column st =
      .ok (column_cell st.m_column_info st.m_row_key_buffer st.m_timestamp st.m_next_value
        (st.m_values.getD st.m_next_value none)) := by
  unfold emit_column column_cell
  rw [List.get?_eq_get h1, List.get?_eq_get h2]
  simp only [List.getD_eq_getElem?_getD, List.getElem?_eq_getElem h1,
    List.getElem?_eq_getElem h2, Option.getD_some, List.get_eq_getElem]

theorem next_cached (A : Int) (rsgen : Nat → Str) (calls : Nat) (st : LoadDataSource) (c : Nat)
    (hh : st.m_hyperformat = false)
    (hs : skip_columns st.m_type_mask st.m_dupkeycols st.m_limit
      (st.m_limit - st.m_next_value) st.m_next_value = c)
    (h0 : 0 < c) (h1 : c < st.m_limit) (h2 : c < st.m_column_info.length)
    (h3 : c < st.m_values.length) :
    st.next A rsgen calls =
      .ok (NextResult.cached (column_cell st.m_column_info st.m_row_key_buffer st.m_timestamp c
            (st.m_values.getD c none)),
           { st with m_next_value := c + 1 }, calls) := by
  have hne : ¬ (st.m_hyperformat = true) := by
    rw [hh]
    simp
  unfold LoadDataSource.next
  simp only []
  rw [if_neg hne]
  simp only [hs, h0, h1, and_self, if_true]
  rw [emit_column_ok { st with m_next_value := c } h2 h3]
  rfl

theorem next_reads (A : Int) (rsgen : Nat → Str) (calls : Nat) (st : LoadDataSource) (nv : Nat)
    (hh : st.m_hyperformat = false)
    (hnv : skip_columns st.m_type_mask st.m_dupkeycols st.m_limit
      (st.m_limit - st.m_next_value) st.m_next_value = nv)
    (hs : st.m_limit ≤ nv) :
    st.next A rsgen calls =
      narrow_loop A rsgen st.m_fin.lines calls { consumed := 0, lines_read := [] }
        { st with m_next_value := nv } := by
  have hne : ¬ (st.m_hyperformat = true) := by
    rw [hh]
    simp
  unfold LoadDataSource.next
  simp only []
  rw [if_neg hne]
  simp only [hnv]
  rw [if_neg (by omega)]

theorem calls_cached (A : Int) (rsgen : Nat → Str) (calls : Nat) :
    ∀ (cs : List Nat) (st : LoadDataSource), st.m_hyperformat = false →
      st.m_limit ≤ st.m_column_info.length → st.m_limit ≤ st.m_values.length →
      0 < st.m_next_value →
      unsuppressed st.m_type_mask st.m_dupkeycols st.m_limit st.m_next_value = cs →
      ∃ nv, 0 < nv ∧ unsuppressed st.m_type_mask st.m_dupkeycols st.m_limit nv = [] ∧
        st.calls A rsgen cs.length calls =
          .ok (cs.map (fun j => NextResult.cached
                (column_cell st.m_column_info st.m_row_key_buffer st.m_timestamp j
                  (st.m_values.getD j none))),
               { st with m_next_value := nv }, calls) := by
  intro cs
  induction cs with
  | nil =>
    intro st _ _ _ h0 hu
    exact ⟨st.m_next_value, h0, hu, rfl⟩
  | cons c rest ih =>
    intro st hh hl1 hl2 h0 hu
    obtain ⟨b1, b2, b3, b4, _, _⟩ :=
      (skip_columns_unsuppressed st.m_type_mask st.m_dupkeycols st.m_limit
        (st.m_limit - st.m_next_value) st.m_next_value (Nat.le_refl _)).2 c rest hu
    have e := next_cached A rsgen calls st c hh b1 (by omega) b2 (by omega) (by omega)
    obtain ⟨nv, n1, n2, n3⟩ := ih { st with m_next_value := c + 1 } hh hl1 hl2
      (Nat.succ_pos c) b4
    refine ⟨nv, n1, n2, ?_⟩
    simp only [LoadDataSource.calls, List.length_cons, e, n3, List.map_cons]

theorem fields_of_blank (line : Str) (h : (trim line).length = 0) (i : Nat) :
    (fields '\t' (c_str (trim line))).getD i [] = [] := by
  have e : trim line = [] := List.length_eq_zero.mp h
  rw [e]
  cases i <;> simp [c_str, fields]

theorem narrow_line_ok (A : Int) (rsgen : Nat → Str) (calls : Nat) (st : LoadDataSource)
    (line : Str) (toks : List Str) (limit c0 : Nat) (cs : List Nat) (T : Int)
    (htk : toks = fields '\t' (c_str (trim line)))
    (hnull : ∀ j, j < toks.length → is_null (toks.getD j []) = true →
      st.m_type_mask.get? j = some 0)
    (hkne : st.m_key_comps ≠ [])
    (hkey : ∀ kc ∈ st.m_key_comps, kc.index < toks.length ∧
      is_null (toks.getD kc.index []) = false)
    (hT : line_timestamp A { st with m_values := toks.map field_value } = .ok (some T))
    (hlim : limit = min toks.length st.m_column_info.length)
    (hu : unsuppressed st.m_type_mask st.m_dupkeycols limit 0 = c0 :: cs) :
    ∃ K, narrow_line A rsgen calls st line =
      .ok (some (column_cell st.m_column_info K T c0 (field_value (toks.getD c0 []))),
           { st with m_values := toks.map field_value, m_limit := limit,
                     m_row_key_buffer := K, m_timestamp := T, m_next_value := c0 + 1 },
           if st.m_row_uniquify_chars ≠ 0 then calls + 1 else calls) := by
  have hne : ¬ (trim line).length = 0 := by
    intro h
    obtain ⟨kc, hkc⟩ := List.exists_mem_of_ne_nil _ hkne
    have h1 := (hkey kc hkc).2
    rw [htk, fields_of_blank line h] at h1
    simp [is_null] at h1
  have htok := tokenize_forward st.m_type_mask toks 0 [] (by
    intro j hj hn
    rw [Nat.zero_add]
    exact hnull j hj hn)
  rw [List.nil_append] at htok
  obtain ⟨K, hK⟩ := build_row_key_ok
    { st with m_values := toks.map field_value,
              m_limit := min (toks.map field_value).length st.m_column_info.length } hkne (by
      intro kc hkc
      obtain ⟨k1, k2⟩ := hkey kc hkc
      refine ⟨toks.getD kc.index [], ?_⟩
      show (toks.map field_value).get? kc.index = _
      rw [List.get?_eq_getElem?, List.getElem?_map, List.getElem?_eq_getElem k1,
        List.getD_eq_getElem?_getD, List.getElem?_eq_getElem k1]
      simp [field_value, List.getD_eq_getElem?_getD, List.getElem?_eq_getElem k1] at k2 ⊢
      exact k2)
  obtain ⟨b1, b2, _, _, b5, b6⟩ :=
    (skip_columns_unsuppressed st.m_type_mask st.m_dupkeycols limit
      (limit - 0) 0 (Nat.le_refl _)).2 c0 cs hu
  have hc0 : c0 ≤ st.m_type_mask.length := by
    cases c0 with
    | zero => exact Nat.zero_le _
    | succ k =>
      have := should_skip_lt k _ _ (b6 k (Nat.zero_le _) (Nat.lt_succ_self k))
      omega
  have hskip := skip_columns_reaches st.m_type_mask st.m_dupkeycols c0 b5
    st.m_type_mask.length 0 (Nat.zero_le _) (by omega) b6
  unfold narrow_line
  simp only []
  rw [if_neg hne, ← htk, htok]
  simp only [hK]
  have hts : line_timestamp A
      { st with m_values := toks.map field_value, m_limit := limit, m_row_key_buffer := K } =
      .ok (some T) := (line_timestamp_congr A _ _ rfl rfl).trans hT
  have hl : min (toks.map field_value).length st.m_column_info.length = limit := by
    rw [hlim, List.length_map]
  simp only [hl, hts, hskip]
  have hc1 : c0 < st.m_column_info.length := by
    rw [hlim] at b2
    exact lt_of_lt_of_le b2 (Nat.min_le_right _ _)
  have hc2 : c0 < toks.length := by
    rw [hlim] at b2
    exact lt_of_lt_of_le b2 (Nat.min_le_left _ _)
  have hc3 : c0 < (toks.map field_value).length := by
    rw [List.length_map]
    exact hc2
  have hv : (toks.map field_value).getD c0 none = field_value (toks.getD c0 []) := by
    simp [List.getD_eq_getElem?_getD, List.getElem?_eq_getElem hc2]
  by_cases hu0 : st.m_row_uniquify_chars = 0
  · refine ⟨K, ?_⟩
    simp only [hu0, ne_eq, not_true_eq_false, if_false]
    rw [emit_column_ok
      { st with m_values := toks.map field_value, m_limit := limit, m_row_key_buffer := K,
                m_timestamp := T, m_next_value := c0, m_row_uniquify_chars := 0 } hc1 hc3]
    simp only [hv]
  · refine ⟨K ++ [' '] ++ rsgen calls, ?_⟩
    simp only [hu0, ne_eq, not_false_eq_true, if_true]
    rw [emit_column_ok
      { st with m_values := toks.map field_value, m_limit := limit,
                m_row_key_buffer := K ++ [' '] ++ rsgen calls,
                m_timestamp := T, m_next_value := c0 } hc1 hc3]
    simp only [hv]

theorem field_value_getD (toks : List Str) (j : Nat) :
    (toks.map field_value).getD j none = field_value (toks.getD j []) := by
  by_cases h : j < toks.length
  · simp [List.getD_eq_getElem?_getD, List.getElem?_eq_getElem h]
  · have h1 : toks.length ≤ j := by omega
    rw [List.getD_eq_default _ _ (by rw [List.length_map]; exact h1),
      List.getD_eq_default _ _ h1]
    rfl

theorem next_reads_line (A : Int) (rsgen : Nat → Str) (calls : Nat) (st : LoadDataSource)
    (line : Str) (more : List Str) (toks : List Str) (limit c0 : Nat) (cs : List Nat) (T : Int)
    (hh : st.m_hyperformat = false) (hl : st.m_fin.lines = line :: more)
    (hn : st.m_limit ≤ st.m_next_value)
    (htk : toks = fields '\t' (c_str (trim line)))
    (hnull : ∀ j, j < toks.length → is_null (toks.getD j []) = true →
      st.m_type_mask.get? j = some 0)
    (hkne : st.m_key_comps ≠ [])
    (hkey : ∀ kc ∈ st.m_key_comps, kc.index < toks.length ∧
      is_null (toks.getD kc.index []) = false)
    (hT : line_timestamp A { st with m_values := toks.map field_value } = .ok (some T))
    (hlim : limit = min toks.length st.m_column_info.length)
    (hu : unsuppressed st.m_type_mask st.m_dupkeycols limit 0 = c0 :: cs) :
    ∃ K, st.next A rsgen calls =
      .ok ({ ret := true,
             cell := some (column_cell st.m_column_info K T c0 (field_value (toks.getD c0 []))),
             consumed := (line.length + 1) % 2 ^ 32, consumed_line := line,
             lines_read := [line] },
           { st with m_values := toks.map field_value, m_limit := limit,
                     m_row_key_buffer := K, m_timestamp := T, m_next_value := c0 + 1,
                     m_cur_line := st.m_cur_line + 1, m_fin := st.m_fin.advance line },
           if st.m_row_uniquify_chars ≠ 0 then calls + 1 else calls) := by
  have hnv : skip_columns st.m_type_mask st.m_dupkeycols st.m_limit
      (st.m_limit - st.m_next_value) st.m_next_value = st.m_next_value := by
    rw [Nat.sub_eq_zero_of_le hn]
    rfl
  rw [next_reads A rsgen calls st st.m_next_value hh hnv hn]
  obtain ⟨K, hK⟩ := narrow_line_ok A rsgen calls
    (LoadDataSource.read { st with m_next_value := st.m_next_value } line) line toks limit c0 cs T
    htk hnull hkne hkey ((line_timestamp_congr A _ _ rfl rfl).trans hT) hlim hu
  refine ⟨K, ?_⟩
  show narrow_loop A rsgen st.m_fin.lines calls _ _ = _
  rw [hl]
  simp only [narrow_loop, hK, NextResult.found, Progress.read, Nat.zero_add, List.nil_append]
  rfl

/-! ## The records of a narrow line -/

set_option maxRecDepth 100000 in
/-- C12 (as stated, fails): with the header `k<TAB>t<TAB>a<TAB>b`, the key column
`k` and the timestamp column `t`, the line `r<TAB>notadate<TAB>x<TAB>y` supplies
a non-null field for every header column and two columns are not suppressed,
yet the load returns no record: the timestamp field does not parse and the line
is skipped.  The line dated `1969-12-31 23:59:59` parses, its epoch second is
-1, which the code takes for a failure of `timegm`, and it is skipped too. -/
theorem unparsable_timestamp_line_has_no_records :
    plain_run 0 (fun _ => []) (txt "k\tt\ta\tb\nr\tnotadate\tx\ty\n") 0 false
        [txt "k"] (txt "t") 4 = some ([], true) ∧
    (fields '\t' (txt "r\tnotadate\tx\ty")).map is_null = [false, false, false, false] ∧
    (plain_state 0 (txt "k\tt\ta\tb\nr\tnotadate\tx\ty\n") false [txt "k"]
        (txt "t")).m_column_info.length = 4 ∧
    unsuppressed (plain_state 0 (txt "k\tt\ta\tb\nr\tnotadate\tx\ty\n") false [txt "k"]
        (txt "t")).m_type_mask false 4 0 = [2, 3] ∧
    plain_run 0 (fun _ => []) (txt "k\tt\ta\tb\nr\t1969-12-31 23:59:59\tx\ty\n") 0 false
        [txt "k"] (txt "t") 4 = some ([], true) ∧
    (parse_date_format (txt "1969-12-31 23:59:59")).map timegm = some (-1) := by
  decide!

/-- C12 (amended): in narrow mode, when every column of the previous line has
been returned (`hn`) and the next line of the stream (`hl`), tokenised after the
white space at its ends is trimmed (`htk`), has a non-null field wherever a
field of a key or timestamp column is read (`hnull`: null fields stand only in
columns without a role), supplies every key component (`hkne`, `hkey`), has,
when there is a timestamp column, a timestamp field that parses as a date whose
epoch second is not -1 (`hT`: the code takes -1, the date 1969-12-31 23:59:59,
for a failure and skips the line), and at least one column below the number of
its fields and of the header columns is not suppressed (`hu`), then the
successive calls of `next` return, for that line, exactly one record for every
such column that is not suppressed, in increasing column order: the first call
reads the line and returns the first of them, the following calls read nothing
and return the others with the same row key and timestamp, and the call after
them returns a record only after reading a further line.  For a line that
supplies a field for every header column these are the header columns that are
not suppressed. -/
theorem narrow_line_records (A : Int) (rsgen : Nat → Str) (calls : Nat) (st : LoadDataSource)
    (line : Str) (more : List Str) (toks : List Str) (limit c0 : Nat) (cs : List Nat) (T : Int)
    (hh : st.m_hyperformat = false) (hl : st.m_fin.lines = line :: more)
    (hn : st.m_limit ≤ st.m_next_value)
    (htk : toks = fields '\t' (c_str (trim line)))
    (hnull : ∀ j, j < toks.length → is_null (toks.getD j []) = true →
      st.m_type_mask.get? j = some 0)
    (hkne : st.m_key_comps ≠ [])
    (hkey : ∀ kc ∈ st.m_key_comps, kc.index < toks.length ∧
      is_null (toks.getD kc.index []) = false)
    (hT : line_timestamp A { st with m_values := toks.map field_value } = .ok (some T))
    (hlim : limit = min toks.length st.m_column_info.length)
    (hu : unsuppressed st.m_type_mask st.m_dupkeycols limit 0 = c0 :: cs) :
    ∃ K stf cf,
      st.calls A rsgen (cs.length + 1) calls =
        .ok ({ ret := true,
               cell := some (column_cell st.m_column_info K T c0
                 (field_value (toks.getD c0 []))),
               consumed := (line.length + 1) % 2 ^ 32, consumed_line := line,
               lines_read := [line] } ::
             cs.map (fun j => NextResult.cached
               (column_cell st.m_column_info K T j (field_value (toks.getD j [])))),
             stf, cf) ∧
      stf.m_fin.lines = more ∧
      ∀ r st2 c2 cell, stf.next A rsgen cf = .ok (r, st2, c2) → r.cell = some cell →
        r.lines_read ≠ [] := by
  obtain ⟨K, e1⟩ := next_reads_line A rsgen calls st line more toks limit c0 cs T hh hl hn htk
    hnull hkne hkey hT hlim hu
  obtain ⟨_, b2, _, b4, _, _⟩ :=
    (skip_columns_unsuppressed st.m_type_mask st.m_dupkeycols limit
      (limit - 0) 0 (Nat.le_refl _)).2 c0 cs hu
  obtain ⟨nv, _, n2, n3⟩ := calls_cached A rsgen
    (if st.m_row_uniquify_chars ≠ 0 then calls + 1 else calls) cs
    { st with m_values := toks.map field_value, m_limit := limit,
              m_row_key_buffer := K, m_timestamp := T, m_next_value := c0 + 1,
              m_cur_line := st.m_cur_line + 1, m_fin := st.m_fin.advance line }
    hh (by rw [hlim]; exact Nat.min_le_right _ _)
    (by
      show limit ≤ (toks.map field_value).length
      rw [hlim, List.length_map]
      exact Nat.min_le_left _ _)
    (Nat.succ_pos c0) b4
  simp only [field_value_getD] at n3
  refine ⟨K,
    { st with m_values := toks.map field_value, m_limit := limit,
              m_row_key_buffer := K, m_timestamp := T, m_next_value := nv,
              m_cur_line := st.m_cur_line + 1, m_fin := st.m_fin.advance line },
    if st.m_row_uniquify_chars ≠ 0 then calls + 1 else calls, ?_, ?_, ?_⟩
  · simp only [LoadDataSource.calls, e1, n3]
  · exact lines_advance st.m_fin line more hl
  · intro r st2 c2 cell e hc
    have hge := (skip_columns_unsuppressed st.m_type_mask st.m_dupkeycols limit
      (limit - nv) nv (Nat.le_refl _)).1 n2
    have key := next_reads A rsgen (if st.m_row_uniquify_chars ≠ 0 then calls + 1 else calls)
      { st with m_values := toks.map field_value, m_limit := limit,
                m_row_key_buffer := K, m_timestamp := T, m_next_value := nv,
                m_cur_line := st.m_cur_line + 1, m_fin := st.m_fin.advance line }
      _ hh rfl hge
    rw [key] at e
    exact (narrow_loop_inv A rsgen _ _ _ _ r st2 c2 cell e hc).1

set_option maxRecDepth 100000 in
/-- C12 (amended) on the line `r<TAB>2009-01-15 08:30:00<TAB>x<TAB>y` under the
header `k<TAB>t<TAB>a<TAB>b`: with `dupkeycols=false` the load returns exactly
the records of columns 2 and 3, with `dupkeycols=true` those of columns 0, 2 and
3; the theorem gives the two calls of the first case. -/
theorem narrow_line_records_witness :
    plain_run 0 (fun _ => []) file_four_columns 0 false [txt "k"] (txt "t") 5 =
      some ([cell_of "r" "a" 1232008200000000000 (some "x"),
             cell_of "r" "b" 1232008200000000000 (some "y")], true) ∧
    plain_run 0 (fun _ => []) file_four_columns 0 true [txt "k"] (txt "t") 5 =
      some ([cell_of "r" "k" 1232008200000000000 (some "r"),
             cell_of "r" "a" 1232008200000000000 (some "x"),
             cell_of "r" "b" 1232008200000000000 (some "y")], true) ∧
    unsuppressed (four_columns_state false).m_type_mask false 4 0 = [2, 3] ∧
    ∃ K stf cf,
      (four_columns_state false).calls 0 (fun _ => []) ([3].length + 1) 0 =
        .ok ({ ret := true,
               cell := some (column_cell (four_columns_state false).m_column_info K
                 1232008200000000000 2
                 (field_value ((fields '\t' (txt "r\t2009-01-15 08:30:00\tx\ty")).getD 2 []))),
               consumed := ((txt "r\t2009-01-15 08:30:00\tx\ty").length + 1) % 2 ^ 32,
               consumed_line := txt "r\t2009-01-15 08:30:00\tx\ty",
               lines_read := [txt "r\t2009-01-15 08:30:00\tx\ty"] } ::
             [3].map (fun j => NextResult.cached
               (column_cell (four_columns_state false).m_column_info K 1232008200000000000 j
                 (field_value
                   ((fields '\t' (txt "r\t2009-01-15 08:30:00\tx\ty")).getD j [])))),
             stf, cf) ∧
      stf.m_fin.lines = [] ∧
      ∀ r st2 c2 cell, stf.next 0 (fun _ => []) cf = .ok (r, st2, c2) → r.cell = some cell →
        r.lines_read ≠ [] :=
  ⟨by decide!, by decide!, by decide!,
   narrow_line_records 0 (fun _ => []) 0 (four_columns_state false)
     (txt "r\t2009-01-15 08:30:00\tx\ty") []
     (fields '\t' (txt "r\t2009-01-15 08:30:00\tx\ty")) 4 2 [3] 1232008200000000000
     (by decide!) (by decide!) (by decide!) (by decide!) (by decide!) (by decide!)
     (by decide!) (by decide!) (by decide!) (by decide!)⟩

/-! ## Which columns are suppressed -/

/-- C23: for a column whose role mask is 0, `ROW_KEY`, `TIMESTAMP` or both, and
either value of `dupkeycols`, `should_skip` returns `true` exactly when the
column is a timestamp column, or it is a row-key column and `dupkeycols` is
false; a column with no role is never skipped. -/
theorem should_skip_iff (idx : Nat) (masks : List Nat) (dupkeycols : Bool)
    (h : masks.getD idx 0 = 0 ∨ masks.getD idx 0 = ROW_KEY ∨ masks.getD idx 0 = TIMESTAMP ∨
      masks.getD idx 0 = ROW_KEY ||| TIMESTAMP) :
    (should_skip idx masks dupkeycols = true ↔
      (masks.getD idx 0 &&& TIMESTAMP ≠ 0 ∨
        (masks.getD idx 0 &&& ROW_KEY ≠ 0 ∧ dupkeycols = false))) ∧
    (masks.getD idx 0 = 0 → should_skip idx masks dupkeycols = false) := by
  unfold should_skip
  rcases h with h | h | h | h <;> rw [h] <;> cases dupkeycols <;> decide

/-- C23 on the masks of the header `k<TAB>t<TAB>a` with the key column `k` and
the timestamp column `t`: the key column is skipped when `dupkeycols` is
false. -/
theorem should_skip_iff_witness :
    ([ROW_KEY, TIMESTAMP, 0].getD 0 0 = 0 ∨ [ROW_KEY, TIMESTAMP, 0].getD 0 0 = ROW_KEY ∨
      [ROW_KEY, TIMESTAMP, 0].getD 0 0 = TIMESTAMP ∨
      [ROW_KEY, TIMESTAMP, 0].getD 0 0 = ROW_KEY ||| TIMESTAMP) ∧
    ((should_skip 0 [ROW_KEY, TIMESTAMP, 0] false = true ↔
      ([ROW_KEY, TIMESTAMP, 0].getD 0 0 &&& TIMESTAMP ≠ 0 ∨
        ([ROW_KEY, TIMESTAMP, 0].getD 0 0 &&& ROW_KEY ≠ 0 ∧ false = false))) ∧
     ([ROW_KEY, TIMESTAMP, 0].getD 0 0 = 0 → should_skip 0 [ROW_KEY, TIMESTAMP, 0] false = false)) ∧
    should_skip 0 [ROW_KEY, TIMESTAMP, 0] false = true ∧
    should_skip 0 [ROW_KEY, TIMESTAMP, 0] true = false ∧
    should_skip 1 [ROW_KEY, TIMESTAMP, 0] true = true ∧
    should_skip 2 [ROW_KEY, TIMESTAMP, 0] false = false :=
  ⟨by decide, should_skip_iff 0 [ROW_KEY, TIMESTAMP, 0] false (by decide), by decide, by decide,
   by decide, by decide⟩

/-! ## The candidate offsets of the segments -/

/-- C22 (fails on the code): for a file of 100000000 bytes read in 64 segments,
the candidate offset of segment 43 is computed as 78636, because the product
`43 * 100000000` is taken in 32 bits; the exact quotient is 67187500. -/
theorem candidate_offset_wraps :
    candidate_cursor 43 100000000 64 = 78636 ∧
    43 * 100000000 / 64 = 67187500 ∧
    100000000 < 2 ^ 32 ∧ (43 * 100000000) % 2 ^ 32 = 5032704 := by
  decide

/-! ## The column a record is built from -/

set_option maxRecDepth 100000 in
/-- C25 (fails on the code): with the header `k<TAB>a` (key column `k`, not
duplicated) the line `r` has one field; the row key is built, the skip loop
stops at column 1, and the record is built from `m_values[1]`, which does not
exist.  With the header `k<TAB>t`, the key column `k` and the timestamp column
`t`, every column is suppressed; on the line `r<TAB>2009-01-15 08:30:00` the
skip loop stops at column 2 and the record is built from `m_column_info[2]`
and `m_values[2]`, which do not exist. -/
theorem record_built_from_missing_field :
    plain_results 0 (fun _ => []) (txt "k\ta\nr\n") 0 false [] [] 1 =
      some (.error Fault.OUT_OF_RANGE) ∧
    plain_results 0 (fun _ => []) (txt "k\tt\nr\t2009-01-15 08:30:00\n") 0 false
        [txt "k"] (txt "t") 1 = some (.error Fault.OUT_OF_RANGE) ∧
    (plain_state 0 (txt "k\tt\nr\t2009-01-15 08:30:00\n") false [txt "k"]
        (txt "t")).m_column_info.length = 2 ∧
    tokenize (plain_state 0 (txt "k\ta\nr\n") false [] []).m_type_mask
        (fields '\t' (txt "r")) 0 [] = .ok [some (txt "r")] ∧
    (build_row_key { plain_state 0 (txt "k\ta\nr\n") false [] [] with
        m_values := [some (txt "r")], m_limit := 1 }).toOption.map (fun r => r.1) = some true ∧
    (build_row_key { plain_state 0 (txt "k\tt\nr\t2009-01-15 08:30:00\n") false [txt "k"]
        (txt "t") with
        m_values := [some (txt "r"), some (txt "2009-01-15 08:30:00")],
        m_limit := 2 }).toOption.map (fun r => r.1) = some true ∧
    line_timestamp 0 { plain_state 0 (txt "k\tt\nr\t2009-01-15 08:30:00\n") false [txt "k"]
        (txt "t") with
        m_values := [some (txt "r"), some (txt "2009-01-15 08:30:00")] } =
      .ok (some 1232008200000000000) ∧
    skip_columns [ROW_KEY, TIMESTAMP, 0] false 3 3 0 = 2 ∧
    skip_columns [ROW_KEY, 0, 0] false 3 3 0 = 1 := by
  decide!

/-! ## Zero fields of a date -/

theorem to_int32_group (g : Str) (hg : ∀ c ∈ g, isdigit c = true) (hl : g.length ≤ 4) :
    to_int32 (max (-(2 : Int) ^ 63) (min ((digits_value g : Nat) : Int) ((2 : Int) ^ 63 - 1))) =
      (digits_value g : Nat) := by
  have h := digits_value_lt g hg
  have h2 : 10 ^ g.length ≤ 10 ^ 4 := Nat.pow_le_pow_right (by decide) hl
  exact to_int32_small _ (by omega)

theorem to_int32_zero_group (g : Str) (hz : digits_value g = 0) :
    to_int32 (max (-(2 : Int) ^ 63) (min ((digits_value g : Nat) : Int) ((2 : Int) ^ 63 - 1))) =
      0 := by
  rw [hz]
  decide

/-- C24: on a text of six nonempty digit groups separated by five single bytes
that are not digits, `parse_date_format` returns `false` whenever the year, the
month or the day group has the value zero; and when the groups have the widths
4, 2, 2, 2, 2, 2, the separators are `-`, `-`, space, `:`, `:` and the year, the
month and the day are not zero, it returns `true` whatever the values of the
hour, minute and second groups, zero included, and stores each of them as it
is. -/
theorem zero_date_fields (g1 g2 g3 g4 g5 g6 : Str) (s1 s2 s3 s4 s5 : Char)
    (h1 : g1 ≠ [] ∧ ∀ c ∈ g1, isdigit c = true) (h2 : g2 ≠ [] ∧ ∀ c ∈ g2, isdigit c = true)
    (h3 : g3 ≠ [] ∧ ∀ c ∈ g3, isdigit c = true) (h4 : g4 ≠ [] ∧ ∀ c ∈ g4, isdigit c = true)
    (h5 : g5 ≠ [] ∧ ∀ c ∈ g5, isdigit c = true) (h6 : g6 ≠ [] ∧ ∀ c ∈ g6, isdigit c = true)
    (t1 : isdigit s1 = false) (t2 : isdigit s2 = false) (t3 : isdigit s3 = false)
    (t4 : isdigit s4 = false) (t5 : isdigit s5 = false) :
    (digits_value g1 = 0 ∨ digits_value g2 = 0 ∨ digits_value g3 = 0 →
      parse_date_format (date_text g1 g2 g3 g4 g5 g6 s1 s2 s3 s4 s5) = none) ∧
    ((g1.length = 4 ∧ g2.length = 2 ∧ g3.length = 2 ∧ g4.length = 2 ∧ g5.length = 2 ∧
        g6.length = 2) →
      (s1 = '-' ∧ s2 = '-' ∧ s3 = ' ' ∧ s4 = ':' ∧ s5 = ':') →
      digits_value g1 ≠ 0 → digits_value g2 ≠ 0 → digits_value g3 ≠ 0 →
      parse_date_format (date_text g1 g2 g3 g4 g5 g6 s1 s2 s3 s4 s5) =
        some { tm_year := (digits_value g1 : Nat) - 1900, tm_mon := (digits_value g2 : Nat) - 1,
               tm_mday := (digits_value g3 : Nat), tm_hour := (digits_value g4 : Nat),
               tm_min := (digits_value g5 : Nat), tm_sec := (digits_value g6 : Nat) }) := by
  have e1 := strtol_group g1 (s1 :: (g2 ++ s2 :: (g3 ++ s3 :: (g4 ++ s4 :: (g5 ++ s5 :: g6)))))
    h1.1 h1.2 (by intro c hc; simp at hc; subst hc; exact t1)
  have e2 := strtol_group g2 (s2 :: (g3 ++ s3 :: (g4 ++ s4 :: (g5 ++ s5 :: g6))))
    h2.1 h2.2 (by intro c hc; simp at hc; subst hc; exact t2)
  have e3 := strtol_group g3 (s3 :: (g4 ++ s4 :: (g5 ++ s5 :: g6)))
    h3.1 h3.2 (by intro c hc; simp at hc; subst hc; exact t3)
  have e4 := strtol_group g4 (s4 :: (g5 ++ s5 :: g6))
    h4.1 h4.2 (by intro c hc; simp at hc; subst hc; exact t4)
  have e5 := strtol_group g5 (s5 :: g6)
    h5.1 h5.2 (by intro c hc; simp at hc; subst hc; exact t5)
  have e6 : strtol g6 = (max (-(2 : Int) ^ 63) (min ((digits_value g6 : Nat) : Int)
      ((2 : Int) ^ 63 - 1)), g6.length) := by
    have := strtol_group g6 [] h6.1 h6.2 (by intro c hc; simp at hc)
    simpa using this
  unfold parse_date_format date_text
  simp only [e1, e2, e3, e4, e5, e6, char_at_append, drop_append_succ]
  refine ⟨fun hz => ?_, fun hl hs z1 z2 z3 => ?_⟩
  · rcases hz with hz | hz | hz
    · rw [to_int32_zero_group g1 hz]
      simp
    · split_ifs with a1 a2 a3 a4 a5 a6
      all_goals first | rfl | exact (a2 (Or.inl (to_int32_zero_group g2 hz))).elim
    · split_ifs with a1 a2 a3 a4 a5 a6
      all_goals first | rfl | exact (a3 (Or.inl (to_int32_zero_group g3 hz))).elim
  · obtain ⟨l1, l2, l3, l4, l5, l6⟩ := hl
    obtain ⟨c1, c2, c3, c4, c5⟩ := hs
    simp only [to_int32_group g1 h1.2 (by omega), to_int32_group g2 h2.2 (by omega),
      to_int32_group g3 h3.2 (by omega), to_int32_group g4 h4.2 (by omega),
      to_int32_group g5 h5.2 (by omega), to_int32_group g6 h6.2 (by omega),
      l1, l2, l3, l4, l5, l6, c1, c2, c3, c4, c5, ne_eq, not_true_eq_false,
      or_false, Nat.cast_eq_zero]
    simp [z1, z2, z3]

set_option maxRecDepth 100000 in
/-- C24 at `2009-01-15 00:00:00`, accepted with hour, minute and second 0;
`0000-01-15 08:30:00`, `2009-00-15 08:30:00` and `2009-01-00 08:30:00` are
rejected. -/
theorem zero_date_fields_witness :
    parse_date_format (txt "2009-01-15 00:00:00") =
      some { tm_year := 109, tm_mon := 0, tm_mday := 15, tm_hour := 0, tm_min := 0,
             tm_sec := 0 } ∧
    parse_date_format (txt "0000-01-15 08:30:00") = none ∧
    parse_date_format (txt "2009-00-15 08:30:00") = none ∧
    parse_date_format (txt "2009-01-00 08:30:00") = none :=
  have h := zero_date_fields (txt "2009") (txt "01") (txt "15") (txt "00")
    (txt "00") (txt "00") '-' '-' ' ' ':' ':' (by decide) (by decide) (by decide) (by decide)
    (by decide) (by decide) (by decide) (by decide) (by decide) (by decide) (by decide)
  have hy := zero_date_fields (txt "0000") (txt "01") (txt "15") (txt "08")
    (txt "30") (txt "00") '-' '-' ' ' ':' ':' (by decide) (by decide) (by decide) (by decide)
    (by decide) (by decide) (by decide) (by decide) (by decide) (by decide) (by decide)
  ⟨h.2 (by decide) (by decide) (by decide) (by decide) (by decide),
   hy.1 (Or.inl (by decide)), by decide!, by decide!⟩

/-! ## The bytes a call takes from the stream -/

theorem lines_getline_failed (fin : IStream) : fin.getline_failed.lines = [] := by
  unfold IStream.getline_failed IStream.lines
  by_cases hg : fin.good = true
  · rw [if_pos hg]
    rfl
  · rw [if_neg hg]
    have hb : ¬ (IStream.good { fin with failbit := true } = true) := by
      unfold IStream.good
      simp
    rw [if_neg hb]

theorem getline_failed_pos (fin : IStream) :
    fin.getline_failed.pos = fin.pos ∧ fin.getline_failed.data = fin.data := by
  unfold IStream.getline_failed
  split <;> exact ⟨rfl, rfl⟩

theorem advance_fold_data :
    ∀ (k : List Str) (fin : IStream), (k.foldl IStream.advance fin).data = fin.data := by
  intro k
  induction k with
  | nil => intro fin; rfl
  | cons l ls ih =>
    intro fin
    rw [List.foldl_cons, ih]
    rfl

theorem advance_fold_pos :
    ∀ (k : List Str) (fin : IStream), k ≠ [] →
      (k.foldl IStream.advance fin).pos = min (fin.pos + line_bytes k) fin.data.length := by
  intro k
  induction k with
  | nil => intro fin h; exact absurd rfl h
  | cons l ls ih =>
    intro fin _
    cases ls with
    | nil =>
      show min (fin.pos + l.length + 1) fin.data.length = _
      simp only [line_bytes, List.map, List.sum_cons, List.sum_nil]
      omega
    | cons l2 ls2 =>
      rw [List.foldl_cons, ih (fin.advance l) (List.cons_ne_nil _ _)]
      show min (min (fin.pos + l.length + 1) fin.data.length + line_bytes (l2 :: ls2))
        fin.data.length = _
      have e : line_bytes (l :: l2 :: ls2) = (l.length + 1) + line_bytes (l2 :: ls2) := by
        simp only [line_bytes, List.map, List.sum_cons]
      rw [e]
      omega

theorem hyper_loop_stream (A : Int) (rsgen : Nat → Str) :
    ∀ (lines : List Str) (calls : Nat) (pr : Progress) (st : LoadDataSource),
      st.m_fin.lines = lines →
      ∃ k rest, (hyper_loop A rsgen lines calls pr st).1.lines_read = pr.lines_read ++ k ∧
        lines = k ++ rest ∧
        (hyper_loop A rsgen lines calls pr st).2.1.m_fin.lines = rest ∧
        (hyper_loop A rsgen lines calls pr st).2.1.m_fin.pos =
          (k.foldl IStream.advance st.m_fin).pos ∧
        (hyper_loop A rsgen lines calls pr st).2.1.m_fin.data = st.m_fin.data := by
  intro lines
  induction lines with
  | nil =>
    intro calls pr st _
    refine ⟨[], [], ?_, rfl, lines_getline_failed _, (getline_failed_pos _).1,
      (getline_failed_pos _).2⟩
    simp [hyper_loop, NextResult.eof]
  | cons line rest1 ih =>
    intro calls pr st hl
    have h1 : (st.read line).m_fin.lines = rest1 := lines_advance st.m_fin line rest1 hl
    simp only [hyper_loop]
    rcases hy : hyper_line A rsgen calls (st.read line) line with ⟨_ | c, calls1⟩
    · obtain ⟨k, rest, i1, i2, i3, i4, i5⟩ := ih calls1 (pr.read line) (st.read line) h1
      refine ⟨line :: k, rest, ?_, ?_, i3, i4, i5⟩
      · rw [i1]
        simp [Progress.read]
      · rw [i2]
        rfl
    · refine ⟨[line], rest1, ?_, rfl, h1, rfl, rfl⟩
      simp [NextResult.found, Progress.read]

theorem narrow_loop_stream (A : Int) (rsgen : Nat → Str) :
    ∀ (lines : List Str) (calls : Nat) (pr : Progress) (st : LoadDataSource)
      (r : NextResult) (stf : LoadDataSource) (cf : Nat),
      st.m_fin.lines = lines →
      narrow_loop A rsgen lines calls pr st = .ok (r, stf, cf) →
      ∃ k rest, r.lines_read = pr.lines_read ++ k ∧ lines = k ++ rest ∧
        stf.m_fin.lines = rest ∧ stf.m_fin.pos = (k.foldl IStream.advance st.m_fin).pos ∧
        stf.m_fin.data = st.m_fin.data := by
  intro lines
  induction lines with
  | nil =>
    intro calls pr st r stf cf _ e
    simp only [narrow_loop] at e
    cases e
    refine ⟨[], [], ?_, rfl, lines_getline_failed _, (getline_failed_pos _).1,
      (getline_failed_pos _).2⟩
    simp [NextResult.eof]
  | cons line rest1 ih =>
    intro calls pr st r stf cf hl e
    have h1 : (st.read line).m_fin.lines = rest1 := lines_advance st.m_fin line rest1 hl
    simp only [narrow_loop] at e
    rcases hn : narrow_line A rsgen calls (st.read line) line with err | ⟨_ | c, st2, calls1⟩
    · rw [hn] at e
      cases e
    · rw [hn] at e
      obtain ⟨⟨_, _, _, _, _, _, _, pf⟩, _⟩ := narrow_line_inv A rsgen calls _ line _ _ _ hn
      obtain ⟨k, rest, i1, i2, i3, i4, i5⟩ :=
        ih calls1 (pr.read line) st2 r stf cf (by rw [pf]; exact h1) e
      rw [pf] at i4 i5
      refine ⟨line :: k, rest, ?_, ?_, i3, i4, i5⟩
      · rw [i1]
        simp [Progress.read]
      · rw [i2]
        rfl
    · rw [hn] at e
      obtain ⟨⟨_, _, _, _, _, _, _, pf⟩, _⟩ := narrow_line_inv A rsgen calls _ line _ _ _ hn
      cases e
      refine ⟨[line], rest1, ?_, rfl, by rw [pf]; exact h1, by rw [pf]; rfl, by rw [pf]; rfl⟩
      simp [NextResult.found, Progress.read]

theorem next_stream (A : Int) (rsgen : Nat → Str) (calls : Nat) (st : LoadDataSource)
    (r : NextResult) (stf : LoadDataSource) (cf : Nat)
    (e : st.next A rsgen calls = .ok (r, stf, cf)) :
    ∃ rest, st.m_fin.lines = r.lines_read ++ rest ∧ stf.m_fin.lines = rest ∧
      stf.m_fin.pos = (r.lines_read.foldl IStream.advance st.m_fin).pos ∧
      stf.m_fin.data = st.m_fin.data := by
  unfold LoadDataSource.next at e
  simp only at e
  split at e
  · have h := Except.ok.inj e
    obtain ⟨k, rest, i1, i2, i3, i4, i5⟩ := hyper_loop_stream A rsgen st.m_fin.lines calls
      { consumed := 0, lines_read := [] } st rfl
    rw [h] at i1 i3 i4 i5
    rw [List.nil_append] at i1
    rw [i1]
    exact ⟨rest, i2, i3, i4, i5⟩
  · split at e
    · split at e
      · cases e
      · cases e
        exact ⟨st.m_fin.lines, rfl, rfl, rfl, rfl⟩
    · have key := fun h => narrow_loop_stream A rsgen st.m_fin.lines calls _ _ r stf cf h e
      obtain ⟨k, rest, i1, i2, i3, i4, i5⟩ := key rfl
      rw [List.nil_append] at i1
      rw [i1]
      exact ⟨rest, i2, i3, i4, i5⟩

set_option maxRecDepth 100000 in
/-- C19 (as stated, fails): on the hyperformat file whose first data line `bad`
is skipped, the first call reads `bad` and `r1<TAB>c<TAB>v1`, returns the record
of the second and reports 12 bytes consumed; that line's length plus one is 8. -/
theorem consumed_counts_skipped_lines :
    plain_results 0 (fun _ => []) file_with_short_line 0 false [] [] 1 =
      some (.ok [{ ret := true, cell := some (cell_c "r1" "v1"), consumed := 12,
                   consumed_line := txt "r1\tc\tv1",
                   lines_read := [txt "bad", txt "r1\tc\tv1"] }]) := by
  decide!

/-- C19 (amended): every call of `LoadDataSource::next` on an uncompressed
source reports as bytes consumed the sum, over all the lines it read (the lines
it skipped and the line of the record it returns), of the line's length plus
one, as a 32-bit number; so a call that read exactly one line reports that
line's length plus one, and a call that read no line, as the one that returns a
further column of a line already read, reports 0.  The line reported is the last
one read.  The lines read are the next lines of the stream, in order; the call
leaves the stream just after them, and when it read a line the stream offset has
advanced by the sum counted, up to the end of the data. -/
theorem consumed_is_bytes_of_lines_read (A : Int) (rsgen : Nat → Str) (calls : Nat)
    (st : LoadDataSource) (r : NextResult) (st1 : LoadDataSource) (c1 : Nat)
    (e : st.next A rsgen calls = .ok (r, st1, c1)) :
    r.consumed = line_bytes r.lines_read % 2 ^ 32 ∧
    r.consumed_line = r.lines_read.getLastD [] ∧
    (∀ line, r.lines_read = [line] → line.length + 1 < 2 ^ 32 →
      r.consumed = line.length + 1) ∧
    (r.lines_read = [] → r.consumed = 0) ∧
    (∃ rest, st.m_fin.lines = r.lines_read ++ rest ∧ st1.m_fin.lines = rest) ∧
    st1.m_fin.data = st.m_fin.data ∧
    (r.lines_read ≠ [] →
      st1.m_fin.pos = min (st.m_fin.pos + line_bytes r.lines_read) st.m_fin.data.length) ∧
    (r.lines_read = [] → st1.m_fin.pos = st.m_fin.pos) := by
  obtain ⟨h1, h2⟩ := next_consumed A rsgen calls st r st1 c1 e
  obtain ⟨rest, s1, s2, s3, s4⟩ := next_stream A rsgen calls st r st1 c1 e
  refine ⟨h1, h2, ?_, ?_, ⟨rest, s1, s2⟩, s4, ?_, ?_⟩
  · intro line hl hlt
    rw [h1, hl]
    simp only [line_bytes, List.map, List.sum_cons, List.sum_nil, Nat.add_zero]
    omega
  · intro hl
    rw [h1, hl]
    rfl
  · intro hne
    rw [s3]
    exact advance_fold_pos r.lines_read st.m_fin hne
  · intro hl
    rw [s3, hl]
    rfl

set_option maxRecDepth 100000 in
/-- C19 (amended) at a hyperformat stream that starts with the skipped line
`bad`: the call reads the two lines the stream holds, reports 4 + 8 bytes, and
leaves the stream at offset 12. -/
theorem consumed_is_bytes_of_lines_read_witness :
    (hyper_state (txt "bad\nr1\tc\tv1\n")).next 0 (fun _ => []) 0 =
      .ok (skipped_line_result, skipped_line_state_after, 0) ∧
    (hyper_state (txt "bad\nr1\tc\tv1\n")).m_fin.lines = [txt "bad", txt "r1\tc\tv1"] ∧
    (skipped_line_result.consumed = line_bytes skipped_line_result.lines_read % 2 ^ 32 ∧
     skipped_line_result.consumed_line = skipped_line_result.lines_read.getLastD [] ∧
     (∀ line, skipped_line_result.lines_read = [line] → line.length + 1 < 2 ^ 32 →
       skipped_line_result.consumed = line.length + 1) ∧
     (skipped_line_result.lines_read = [] → skipped_line_result.consumed = 0) ∧
     (∃ rest, (hyper_state (txt "bad\nr1\tc\tv1\n")).m_fin.lines =
         skipped_line_result.lines_read ++ rest ∧
       skipped_line_state_after.m_fin.lines = rest) ∧
     skipped_line_state_after.m_fin.data = (hyper_state (txt "bad\nr1\tc\tv1\n")).m_fin.data ∧
     (skipped_line_result.lines_read ≠ [] →
       skipped_line_state_after.m_fin.pos =
         min ((hyper_state (txt "bad\nr1\tc\tv1\n")).m_fin.pos +
           line_bytes skipped_line_result.lines_read)
           (hyper_state (txt "bad\nr1\tc\tv1\n")).m_fin.data.length) ∧
     (skipped_line_result.lines_read = [] →
       skipped_line_state_after.m_fin.pos = (hyper_state (txt "bad\nr1\tc\tv1\n")).m_fin.pos)) :=
  ⟨by decide!, by decide!,
   consumed_is_bytes_of_lines_read 0 (fun _ => []) 0 (hyper_state (txt "bad\nr1\tc\tv1\n"))
     skipped_line_result skipped_line_state_after 0 (by decide!)⟩

/-! ## The segment start table -/

set_option maxRecDepth 100000 in
/-- C21 (fails on the code): the 12-byte file of the lines `k<TAB>a`,
`r<TAB>x`, `r2<TAB>y` has no newline after its last line.  Read in 3 segments,
the candidate of segment 2 is 8, the start of the last line: `getline` reads
that line to the end of the data and sets `eofbit`, `tellg()` then fails and
returns -1, and the table entry is 4294967295, which is neither the end of the
file nor an offset after a newline.  The failed call leaves `failbit` set, so
the final `seekg(0)` does nothing, `get_header` reads an empty header and `init`
ends in the error of a header with fewer than two columns.  With the newline
added the table is 0, 8, 13. -/
theorem segment_start_after_unterminated_line :
    (LoadDataSourceFileLocal.create 0 (txt "k\ta\nr\tx\nr2\ty") none 0 false
        3).init_src.init_cursors = [0, 8, 4294967295] ∧
    (txt "k\ta\nr\tx\nr2\ty").length = 12 ∧
    candidate_cursor 1 12 3 = 4 ∧ candidate_cursor 2 12 3 = 8 ∧
    line_starts (txt "k\ta\nr\tx\nr2\ty") = [0, 4, 8] ∧
    (LoadDataSourceFileLocal.create 0 (txt "k\ta\nr\tx\nr2\ty") none 0 false
        3).init_src.base.m_fin.failbit = true ∧
    (LoadDataSourceFileLocal.create 0 (txt "k\ta\nr\tx\nr2\ty") none 0 false
        3).init_src.get_header.1 = [] ∧
    (LoadDataSourceFileLocal.create 0 (txt "k\ta\nr\tx\nr2\ty") none 0 false
        3).init [] [] = .error Error.HQL_BAD_LOAD_FILE_FORMAT ∧
    (LoadDataSourceFileLocal.create 0 (txt "k\ta\nr\tx\nr2\ty\n") none 0 false
        3).init_src.init_cursors = [0, 8, 13] := by
  decide!

end Hypertable
